import Mathlib

/-!
LoRaEMU: a shallow embedding of the emulator engine.

The Go sources embedded here are `lora/airtime.go`, `lora/path_loss.go`,
`mobility/ns2.go`, `emu/node.go`, `emu/emu.go`, `emu/mobility.go` and the
function `evalCommand` of `cmd/emu/main.go`.

Conventions of the embedding.

* `float64` is idealised as a linearly ordered field `α` with a floor function
  (rounding is outside the model).  Every definition is polymorphic in `α`,
  hence executable at `α = ℚ` and exact at `α = ℝ`.  The field is the finite
  values of float64; `F64 α` adds `+Inf`, `-Inf` and `NaN`, and the path loss,
  the gain at a receiver and the delivery closure are also given over `F64 α`
  (`LogDistanceF`, `reachedGainF`, `deliverF`): finite settings give an
  infinite gain where the distance of two nodes is 0.  The two gains agree
  where no operation leaves the finite values (`reachedGainF_fin`), and on
  finite gains the two closures agree (`deliverF_fin`).
* The functions of Go's `math` package that are not field operations
  (`Sqrt`, `Log10`, `Pow`) are a parameter `m : GoMath α`.
* `int`, `int64` are `Int`; `int(x)` of a float is truncation toward zero.
* `map[string]Node` is an association list; a Go map has pairwise distinct keys
  and an unspecified iteration order, the list order stands for the order that
  `range` happens to choose.
* The wall clock is an input: `wallNow` is `time.Now().UnixMilli()`, read once
  for each operation.
* Callbacks, goroutines and returned errors are recorded as an ordered list of
  effects, oldest first.  With a trace writer set, `emitEvent` also writes a
  `LogEntry` with the reading of the simulator clock for each event; `Traced`
  is the engine with the lines of its trace.
* The two patterns of `mobility/ns2.go` are sequences of literals, character
  classes, repetitions and groups, matched by a backtracking search: the
  leftmost match, the longest repetition first, as Go's `regexp` finds it.
* `strconv.ParseFloat` is a parameter of the parser.  The input of the parser is
  the list of the lines of the text, split at the newlines; its `bufio.Scanner`
  yields them one by one without a final carriage return and stops for good at
  the first line of `MaxScanTokenSize` (64 * 1024) bytes or more, and
  `scan.Err()` is not read (`scanLines`).
* The mobility manager is its tick loop: one tick is one firing of the ticker
  while the manager is not paused, and the engine is touched by nothing else
  between two ticks.  `sort.SliceStable` is the stable insertion sort, and the
  methods of `mgl64.Vec2` are those of the library with `math.Hypot(x, y)` read
  as the square root of `x * x + y * y`.
* A Go string is the list of its characters; `strings.Fields` splits at the
  characters of `unicode.IsSpace`.  A run-time panic is the result `none`.
-/

set_option linter.unusedSectionVars false
set_option linter.unusedVariables false

namespace lora

/-- The functions of Go's `math` package used by the sources that are not field
operations. -/
structure GoMath (α : Type) where
  /-- Go `math.Sqrt`. -/
  Sqrt : α → α
  /-- Go `math.Log10`. -/
  Log10 : α → α
  /-- Go `math.Pow`. -/
  Pow : α → α → α

/-- PacketConfig of `lora/airtime.go`. -/
structure PacketConfig (α : Type) where
  PayloadLen : α
  PreambleLen : α
  SpreadingFactor : α
  BandWidth : α
  CodingRate : α
  CRC : Bool
  ExplicitHeader : Bool
  LowDataRateOptimization : Bool
deriving DecidableEq

section
variable {α : Type} [LinearOrderedField α] [FloorRing α]

/-- Go conversion `int(x)` / `int64(x)` of a float: truncation toward zero. -/
def goInt (x : α) : Int := if 0 ≤ x then ⌊x⌋ else ⌈x⌉

/-- PacketConfigDefault of `lora/airtime.go`. -/
def PacketConfigDefault : PacketConfig α :=
  { PayloadLen := 1, PreambleLen := 6, SpreadingFactor := 7, BandWidth := 125,
    CodingRate := 5, CRC := false, ExplicitHeader := false,
    LowDataRateOptimization := false }

def PacketConfig.PayloadValid (pc : PacketConfig α) : Bool :=
  decide (pc.PayloadLen ≥ 1 ∧ pc.PayloadLen < 255)

def PacketConfig.PreambleValid (pc : PacketConfig α) : Bool :=
  decide (pc.PreambleLen ≥ 6 ∧ pc.PreambleLen ≤ 655365)

def PacketConfig.SymbolTime (m : GoMath α) (pc : PacketConfig α) : α :=
  m.Pow 2 pc.SpreadingFactor / pc.BandWidth

def PacketConfig.SymbolRate (m : GoMath α) (pc : PacketConfig α) : α :=
  1000 / pc.SymbolTime m

def PacketConfig.NPayload (pc : PacketConfig α) : α :=
  let payloadBit := 8 * pc.PayloadLen
  let payloadBit := payloadBit - 4 * pc.SpreadingFactor
  let payloadBit := payloadBit + 28
  let payloadBit := if pc.CRC then payloadBit + 16 else payloadBit
  let payloadBit := if pc.ExplicitHeader then payloadBit + 20 else payloadBit
  let payloadBit := max payloadBit 0
  let bitsPerSymbol :=
    if pc.LowDataRateOptimization then pc.SpreadingFactor - 2 else pc.SpreadingFactor
  let payloadSymbol := ((⌈payloadBit / 4 / bitsPerSymbol⌉ : Int) : α) * pc.CodingRate
  payloadSymbol + 8

def PacketConfig.NPreamble (pc : PacketConfig α) : α :=
  pc.PreambleLen + 4.25

/-- TimePayload represents the time the payload alone will be on air. -/
def PacketConfig.TimePayload (m : GoMath α) (pc : PacketConfig α) : α :=
  pc.NPayload * pc.SymbolTime m

/-- TimePreamble represents the time the preamble alone will be on air. -/
def PacketConfig.TimePreamble (m : GoMath α) (pc : PacketConfig α) : α :=
  pc.NPreamble * pc.SymbolTime m

/-- TimeTotal represents the total time the packet will be on air. -/
def PacketConfig.TimeTotal (m : GoMath α) (pc : PacketConfig α) : α :=
  pc.TimePreamble m + pc.TimePayload m

def PacketConfig.Throughput (m : GoMath α) (pc : PacketConfig α) : α :=
  ((8 * pc.PayloadLen) / pc.TimeTotal m) * 1000

/-- FSPL of `lora/path_loss.go`: free-space path loss. -/
def FSPL (m : GoMath α) (distance freq : α) : α :=
  20 * m.Log10 distance + 20 * m.Log10 freq + 32.45

/-- LogDistance of `lora/path_loss.go`: the log-distance path loss model. -/
def LogDistance (m : GoMath α) (distance distanceRef gamma freq : α) : α :=
  FSPL m distanceRef freq + 10 * gamma * m.Log10 (distance / distanceRef)

/-- A float64 value: a number of the field (a finite value) or one of the three
values outside it, `+Inf`, `-Inf` and `NaN`.  The finite values are idealised as
before; the sign of a zero is not modelled, a zero counts as `+0`. -/
inductive F64 (α : Type) where
  | fin (x : α)
  | inf
  | negInf
  | nan
deriving DecidableEq

/-- The negation of float64. -/
def F64.neg : F64 α → F64 α
  | F64.fin x => F64.fin (-x)
  | F64.inf => F64.negInf
  | F64.negInf => F64.inf
  | F64.nan => F64.nan

/-- The addition of float64: `NaN` when an operand is `NaN` or the operands are the
two infinities. -/
def F64.add : F64 α → F64 α → F64 α
  | F64.fin x, F64.fin y => F64.fin (x + y)
  | F64.fin _, F64.inf => F64.inf
  | F64.fin _, F64.negInf => F64.negInf
  | F64.inf, F64.fin _ => F64.inf
  | F64.inf, F64.inf => F64.inf
  | F64.negInf, F64.fin _ => F64.negInf
  | F64.negInf, F64.negInf => F64.negInf
  | _, _ => F64.nan

/-- The subtraction of float64; `Inf - Inf` is `NaN`. -/
def F64.sub (a b : F64 α) : F64 α := a.add b.neg

/-- An infinity times a finite value: the infinity with the sign of the product,
`NaN` for the value 0; `positive` is the sign of the infinity. -/
def F64.scaleInf (positive : Bool) (x : α) : F64 α :=
  if 0 < x then (if positive then F64.inf else F64.negInf)
  else if x < 0 then (if positive then F64.negInf else F64.inf)
  else F64.nan

/-- The multiplication of float64. -/
def F64.mul : F64 α → F64 α → F64 α
  | F64.fin x, F64.fin y => F64.fin (x * y)
  | F64.fin x, F64.inf => F64.scaleInf true x
  | F64.fin x, F64.negInf => F64.scaleInf false x
  | F64.inf, F64.fin y => F64.scaleInf true y
  | F64.negInf, F64.fin y => F64.scaleInf false y
  | F64.inf, F64.inf => F64.inf
  | F64.inf, F64.negInf => F64.negInf
  | F64.negInf, F64.inf => F64.negInf
  | F64.negInf, F64.negInf => F64.inf
  | _, _ => F64.nan

/-- The division of float64: a finite value divided by 0 is the infinity of its
sign and `NaN` for 0 / 0, a finite value divided by an infinity is 0. -/
def F64.div : F64 α → F64 α → F64 α
  | F64.fin x, F64.fin y =>
    if y = 0 then (if 0 < x then F64.inf else if x < 0 then F64.negInf else F64.nan)
    else F64.fin (x / y)
  | F64.fin _, F64.inf => F64.fin 0
  | F64.fin _, F64.negInf => F64.fin 0
  | F64.inf, F64.fin y => if y < 0 then F64.negInf else F64.inf
  | F64.negInf, F64.fin y => if y < 0 then F64.inf else F64.negInf
  | _, _ => F64.nan

/-- The comparison `<` of float64: false when an operand is `NaN`. -/
def F64.lt : F64 α → F64 α → Bool
  | F64.fin x, F64.fin y => decide (x < y)
  | F64.fin _, F64.inf => true
  | F64.negInf, F64.fin _ => true
  | F64.negInf, F64.inf => true
  | _, _ => false

/-- Go `math.Log10` on float64: `Log10(0) = -Inf`, `Log10(x) = NaN` for `x < 0`,
`Log10(+Inf) = +Inf`. -/
def F64.Log10 (m : GoMath α) : F64 α → F64 α
  | F64.fin x => if 0 < x then F64.fin (m.Log10 x) else if x = 0 then F64.negInf else F64.nan
  | F64.inf => F64.inf
  | F64.negInf => F64.nan
  | F64.nan => F64.nan

/-- Go `math.Sqrt` on float64: `Sqrt(x) = NaN` for `x < 0`, `Sqrt(+Inf) = +Inf`. -/
def F64.Sqrt (m : GoMath α) : F64 α → F64 α
  | F64.fin x => if 0 ≤ x then F64.fin (m.Sqrt x) else F64.nan
  | F64.inf => F64.inf
  | F64.negInf => F64.nan
  | F64.nan => F64.nan

/-- FSPL of `lora/path_loss.go` in float64 arithmetic. -/
def FSPLF (m : GoMath α) (distance freq : F64 α) : F64 α :=
  (((F64.fin 20).mul (distance.Log10 m)).add ((F64.fin 20).mul (freq.Log10 m))).add
    (F64.fin 32.45)

/-- LogDistance of `lora/path_loss.go` in float64 arithmetic. -/
def LogDistanceF (m : GoMath α) (distance distanceRef gamma freq : F64 α) : F64 α :=
  (FSPLF m distanceRef freq).add
    (((F64.fin 10).mul gamma).mul ((distance.div distanceRef).Log10 m))

end

end lora

namespace mobility

/-- The character classes of the two patterns of `mobility/ns2.go`: `.`, `[XYZ]`
and `[\d\.]`. -/
inductive CharClass where
  | dot
  | xyz
  | digitDot
deriving DecidableEq

/-- Whether a character is in a class: `.` is every character but the newline,
`\d` is an ASCII digit. -/
def CharClass.has : CharClass → Char → Bool
  | CharClass.dot, c => c != Char.ofNat 10
  | CharClass.xyz, c => c == 'X' || c == 'Y' || c == 'Z'
  | CharClass.digitDot, c => c.isDigit || c == '.'

/-- The pieces the two patterns are made of, in sequence: a literal character, an
optional character `c?`, a capturing group around one character of a class
(`([XYZ])`), and a repetition `cls+` with or without a capturing group around
it (`(.+)`, `([\d\.]+)`, `.+`). -/
inductive Item where
  | lit (c : Char)
  | opt (c : Char)
  | one (cls : CharClass)
  | plus (cls : CharClass) (capture : Bool)
deriving DecidableEq

/-- The literal characters of a string. -/
def lits (s : String) : List Item := s.toList.map Item.lit

/-- The pattern `setRegex`: `\$(.+) set ([XYZ])_ ([\d\.]+)`. -/
def setRegex : List Item :=
  lits "$" ++ [Item.plus CharClass.dot true] ++ lits " set " ++ [Item.one CharClass.xyz]
    ++ lits "_ " ++ [Item.plus CharClass.digitDot true]

/-- The pattern `setDestRegex`:
`\$.+ at ([\d\.]+) "?\$(.+) setdest ([\d\.]+) ([\d\.]+) ([\d\.]+)"?`
(character 34 is the double quote). -/
def setDestRegex : List Item :=
  lits "$" ++ [Item.plus CharClass.dot false] ++ lits " at "
    ++ [Item.plus CharClass.digitDot true] ++ lits " " ++ [Item.opt (Char.ofNat 34)]
    ++ lits "$" ++ [Item.plus CharClass.dot true] ++ lits " setdest "
    ++ [Item.plus CharClass.digitDot true] ++ lits " " ++ [Item.plus CharClass.digitDot true]
    ++ lits " " ++ [Item.plus CharClass.digitDot true] ++ [Item.opt (Char.ofNat 34)]

/-- The end of a repetition or group that matched the text `acc`: the groups of
the rest of the pattern, with `acc` in front when it is captured. -/
def close (capture : Bool) (acc : List Char) (r : Option (List String × List Char)) :
    Option (List String × List Char) :=
  match r with
  | none => none
  | some (caps, rest) => some (if capture then String.mk acc :: caps else caps, rest)

/-- The greedy repetition `cls*` after the text `acc`, followed by the rest of the
pattern `k`: one more character is tried first, the rest of the pattern at the
present position when that fails. -/
def star (cls : CharClass) (capture : Bool) (k : List Char → Option (List String × List Char)) :
    List Char → List Char → Option (List String × List Char)
  | acc, [] => close capture acc (k [])
  | acc, c :: cs =>
    if cls.has c then
      match star cls capture k (acc ++ [c]) cs with
      | some r => some r
      | none => close capture acc (k (c :: cs))
    else close capture acc (k (c :: cs))

/-- The match of a pattern at the start of a text that a backtracking search finds
first (the semantics of Go's `regexp`): the captured groups in order and the
text left over. -/
def matchItems : List Item → List Char → Option (List String × List Char)
  | [], s => some ([], s)
  | Item.lit c :: rest, s =>
    match s with
    | [] => none
    | x :: xs => if x = c then matchItems rest xs else none
  | Item.opt c :: rest, s =>
    match s with
    | [] => matchItems rest []
    | x :: xs =>
      if x = c then
        match matchItems rest xs with
        | some r => some r
        | none => matchItems rest (x :: xs)
      else matchItems rest (x :: xs)
  | Item.one cls :: rest, s =>
    match s with
    | [] => none
    | x :: xs => if cls.has x then close true [x] (matchItems rest xs) else none
  | Item.plus cls capture :: rest, s =>
    match s with
    | [] => none
    | x :: xs => if cls.has x then star cls capture (matchItems rest) [x] xs else none

/-- The leftmost match of a pattern in a text: the matched text followed by the
captured groups. -/
def findFrom (re : List Item) : List Char → Option (List String)
  | [] =>
    match matchItems re [] with
    | some (caps, _) => some ("" :: caps)
    | none => none
  | x :: xs =>
    match matchItems re (x :: xs) with
    | some (caps, rest) =>
      some (String.mk ((x :: xs).take ((x :: xs).length - rest.length)) :: caps)
    | none => findFrom re xs

/-- The method `FindStringSubmatch` of a compiled pattern: the leftmost match and
its groups, the empty slice when there is no match. -/
def FindStringSubmatch (re : List Item) (line : String) : List String :=
  match findFrom re line.toList with
  | some m => m
  | none => []

/-- XAxis of `mobility/ns2.go`. -/
def XAxis : Nat := 0

/-- YAxis of `mobility/ns2.go`. -/
def YAxis : Nat := 1

/-- ZAxis of `mobility/ns2.go`. -/
def ZAxis : Nat := 2

/-- SetCommand of `mobility/ns2.go`; `Axis` is a byte. -/
structure SetCommand (α : Type) where
  Node : String
  Axis : Nat
  Val : α
deriving DecidableEq

/-- SetDestCommand of `mobility/ns2.go`. -/
structure SetDestCommand (α : Type) where
  Node : String
  Time : α
  X : α
  Y : α
  Speed : α
deriving DecidableEq

/-- Command of `mobility/ns2.go`: the two pointers, `none` is `nil`. -/
structure Command (α : Type) where
  Set : Option (SetCommand α)
  SetDest : Option (SetDestCommand α)
deriving DecidableEq

section
variable {α : Type} [LinearOrderedField α] [FloorRing α]

/-- The `switch match[2]` of `Parse`: the axis of a letter, `none` in the default
case. -/
def axisOf (s : String) : Option Nat :=
  if s = "X" then some XAxis
  else if s = "Y" then some YAxis
  else if s = "Z" then some ZAxis
  else none

/-- The loop `for scan.Scan()` of `Parse` over the lines the scanner yields, with
the locals `commands` and `lineCount`.  `ParseFloat` is
`strconv.ParseFloat(s, 64)` with `none` for an error; the result is the pair
that `Parse` returns, `(nil, err)` being `([], some err)`. -/
def parseLines (ParseFloat : String → Option α) :
    List String → List (Command α) → Nat → List (Command α) × Option String
  | [], commands, _ => (commands, none)
  | line :: rest, commands, lineCount =>
    let m := FindStringSubmatch setRegex line
    if m.length > 0 then
      match axisOf (m.getD 2 "") with
      | none =>
        ([], some ("unknown axis " ++ m.getD 2 "" ++ " on line " ++ toString lineCount))
      | some axis =>
        match ParseFloat (m.getD 3 "") with
        | none => ([], some ("can\x27t parse float (" ++ m.getD 3 "" ++ ")"))
        | some val =>
          parseLines ParseFloat rest
            (commands ++ [{ Set := some { Node := m.getD 1 "", Axis := axis, Val := val },
                            SetDest := none }])
            (lineCount + 1)
    else
      let m := FindStringSubmatch setDestRegex line
      if m.length > 0 then
        match ParseFloat (m.getD 1 "") with
        | none => ([], some ("can\x27t parse float (" ++ m.getD 1 "" ++ ")"))
        | some time =>
          match ParseFloat (m.getD 3 "") with
          | none => ([], some ("can\x27t parse float (" ++ m.getD 3 "" ++ ")"))
          | some x =>
            match ParseFloat (m.getD 4 "") with
            | none => ([], some ("can\x27t parse float (" ++ m.getD 4 "" ++ ")"))
            | some y =>
              match ParseFloat (m.getD 5 "") with
              | none => ([], some ("can\x27t parse float (" ++ m.getD 5 "" ++ ")"))
              | some speed =>
                parseLines ParseFloat rest
                  (commands ++ [{ Set := none,
                                  SetDest := some { Node := m.getD 2 "", Time := time, X := x,
                                                    Y := y, Speed := speed } }])
                  (lineCount + 1)
      else parseLines ParseFloat rest commands (lineCount + 1)

/-- The number of bytes of the UTF-8 encoding of a character. -/
def utf8Len (c : Char) : Nat :=
  if c.toNat < 128 then 1 else if c.toNat < 2048 then 2 else if c.toNat < 65536 then 3 else 4

/-- The number of bytes of a line of the input, its line feed not counted. -/
def byteLen (line : String) : Nat := (line.toList.map utf8Len).sum

/-- MaxScanTokenSize of `bufio`: the size up to which the buffer of a `Scanner`
grows. -/
def MaxScanTokenSize : Nat := 64 * 1024

/-- The function `dropCR` of `bufio`: a line without its final carriage return
(character 13). -/
def dropCR (line : String) : String :=
  if line.toList.getLast? = some (Char.ofNat 13) then String.mk line.toList.dropLast else line

/-- The lines that `scan.Scan()` and `scan.Text()` yield for an input given as the
list of its lines, the pieces that end at a line feed or at the end of the
input.  A line is found when it fits into the buffer together with its end; at
the first line of `MaxScanTokenSize` bytes or more `Scan` gives up with
`ErrTooLong` and returns false from then on. -/
def scanLines (lines : List String) : List String :=
  (lines.takeWhile (fun line => decide (byteLen line < MaxScanTokenSize))).map dropCR

/-- Parse of `mobility/ns2.go` on an input given as the list of its lines.  The loop
`for scan.Scan()` ends when the scanner yields no further line, at the end of
the input or at a line it cannot hold; `scan.Err()` is never read, so that in
both cases the commands read so far are returned with a nil error. -/
def Parse (ParseFloat : String → Option α) (lines : List String) :
    List (Command α) × Option String :=
  parseLines ParseFloat (scanLines lines) [] 1

/-- The number a string of decimal digits stands for, continuing from `n`. -/
def digitsValue : List Char → Nat → Nat
  | [], n => n
  | c :: cs, n => digitsValue cs (10 * n + (c.toNat - 48))

/-- What `strconv.ParseFloat` does on the tokens the two patterns can capture,
strings of digits and dots: a token with at least one digit and at most one dot
is the decimal number it spells (here the exact value), every other one is an
error. -/
def decimal (s : String) : Option α :=
  let whole := s.toList.takeWhile Char.isDigit
  let tail := s.toList.dropWhile Char.isDigit
  let frac := tail.drop 1
  if (tail = [] ∨ tail.head? = some '.') ∧ frac.all Char.isDigit = true
      ∧ whole ++ frac ≠ [] then
    some ((digitsValue (whole ++ frac) 0 : α) / 10 ^ frac.length)
  else none

end

section
variable {α : Type} [LinearOrderedField α] [FloorRing α]

/-- Whether a line matches the Set pattern. -/
def matchesSet (line : String) : Bool :=
  decide ((FindStringSubmatch setRegex line).length > 0)

/-- Whether a line matches the SetDest pattern. -/
def matchesSetDest (line : String) : Bool :=
  decide ((FindStringSubmatch setDestRegex line).length > 0)

/-- The numeric tokens of a line: the value of a line that matches the Set
pattern; time, x, y and speed of a line that does not and matches the SetDest
pattern; none of any other line. -/
def numericTokens (line : String) : List String :=
  if matchesSet line = true then [(FindStringSubmatch setRegex line).getD 3 ""]
  else if matchesSetDest line = true then
    [(FindStringSubmatch setDestRegex line).getD 1 "",
      (FindStringSubmatch setDestRegex line).getD 3 "",
      (FindStringSubmatch setDestRegex line).getD 4 "",
      (FindStringSubmatch setDestRegex line).getD 5 ""]
  else []

/-- The command a line stands for: of a line that matches the Set pattern the Set
command with the node, the axis of the letter and the number of the line; of a
line that does not and matches the SetDest pattern the SetDest command with the
node and the four numbers of the line; of any other line none. -/
def lineCommand (ParseFloat : String → Option α) (line : String) : Option (Command α) :=
  if matchesSet line = true then
    (axisOf ((FindStringSubmatch setRegex line).getD 2 "")).bind fun axis =>
    (ParseFloat ((FindStringSubmatch setRegex line).getD 3 "")).map fun val =>
      { Set := some { Node := (FindStringSubmatch setRegex line).getD 1 "", Axis := axis,
                      Val := val },
        SetDest := none }
  else if matchesSetDest line = true then
    (ParseFloat ((FindStringSubmatch setDestRegex line).getD 1 "")).bind fun time =>
    (ParseFloat ((FindStringSubmatch setDestRegex line).getD 3 "")).bind fun x =>
    (ParseFloat ((FindStringSubmatch setDestRegex line).getD 4 "")).bind fun y =>
    (ParseFloat ((FindStringSubmatch setDestRegex line).getD 5 "")).map fun speed =>
      { Set := none,
        SetDest := some { Node := (FindStringSubmatch setDestRegex line).getD 2 "",
                          Time := time, X := x, Y := y, Speed := speed } }
  else none

end

end mobility

namespace cmd

/-- The function `unicode.IsSpace` on a rune, by code point: tab, line feed,
vertical tab, form feed, carriage return, space, U+0085, U+00A0 and the space
characters beyond Latin-1. -/
def IsSpace (r : Char) : Bool :=
  (9 ≤ r.toNat && r.toNat ≤ 13) || r.toNat = 32 || r.toNat = 133 || r.toNat = 160
    || r.toNat = 5760 || (8192 ≤ r.toNat && r.toNat ≤ 8202) || r.toNat = 8232
    || r.toNat = 8233 || r.toNat = 8239 || r.toNat = 8287 || r.toNat = 12288

/-- The scan of `strings.Fields`: `cur` is the field being read, `fields` the
fields read so far. -/
def fieldsLoop : List Char → List Char → List String → List String
  | [], cur, fields => if cur = [] then fields else fields ++ [String.mk cur]
  | c :: cs, cur, fields =>
    if IsSpace c then
      if cur = [] then fieldsLoop cs [] fields else fieldsLoop cs [] (fields ++ [String.mk cur])
    else fieldsLoop cs (cur ++ [c]) fields

/-- The function `strings.Fields`: the maximal runs of characters that are not
white space. -/
def Fields (s : String) : List String := fieldsLoop s.toList [] []

/-- The function `strings.Count(s, substr)` for a `substr` of one character. -/
def Count (s : String) (c : Char) : Nat := s.toList.count c

/-- The function `strings.Contains(s, substr)` for a `substr` of one character. -/
def Contains (s : String) (c : Char) : Bool := s.toList.contains c

/-- The function `strings.HasSuffix(s, suffix)` for a `suffix` of one character. -/
def HasSuffix (s : String) (c : Char) : Bool := s.toList.getLast? == some c

/-- The function `strings.HasPrefix`. -/
def HasPrefix (s p : String) : Bool := s.toList.take p.length == p.toList

/-- The function `strings.Replace(s, old, new, -1)` for `old` and `new` of one
character each. -/
def Replace (s : String) (old new : Char) : String :=
  String.mk (s.toList.map (fun c => if c = old then new else c))

/-- The function `strings.Join`. -/
def Join (elems : List String) (sep : String) : String := sep.intercalate elems

/-- The statement `final[len(final)-1] += s`: `none` is the run-time panic for an
index out of range, which an empty `final` gives. -/
def appendToLast (final : List String) (s : String) : Option (List String) :=
  match final.getLast? with
  | none => none
  | some last => some (final.dropLast ++ [last ++ s])

/-- The loop `for i := 1; i < len(runCmdSplit); i++` of `evalCommand` over the
fields from index 1 on, with the locals `final` and `inMulti`; character 39 is
the single quote.  `none` is a run-time panic. -/
def combine : List String → List String → Bool → Option (List String)
  | [], final, _ => some final
  | f :: rest, final, inMulti =>
    let count := Count f (Char.ofNat 39)
    let hasContain := Contains f (Char.ofNat 39)
    let hasStop := HasSuffix f (Char.ofNat 39)
    if count = 2 ∧ hasContain = true ∧ hasStop = true then
      combine rest (final ++ [f]) inMulti
    else if hasContain = true ∧ hasStop = false then
      combine rest (final ++ [f ++ " "]) true
    else if hasStop = true then
      match appendToLast final f with
      | none => none
      | some final => combine rest final false
    else if inMulti = true then
      match appendToLast final (f ++ " ") with
      | none => none
      | some final => combine rest final inMulti
    else
      combine rest (final ++ [f]) inMulti

/-- The function `evalCommand` of `cmd/emu/main.go`.  `evaluate` stands for the
evaluation of the expression `cmd` with the parameters by govaluate, the error
for a result that is no string included.  The result is `none` for a run-time
panic and the returned triple otherwise, `nil` slices being `[]` and a `nil`
error `none`. -/
def evalCommand (evaluate : String → Except String String) (cmd : String) :
    Option (String × List String × Option String) :=
  let evaluated : Except String String :=
    if HasPrefix cmd "./" then Except.ok cmd
    else
      match evaluate cmd with
      | Except.error err => Except.error err
      | Except.ok evalCmd => Except.ok (Replace evalCmd '#' (Char.ofNat 39))
  match evaluated with
  | Except.error err => some ("", [], some err)
  | Except.ok runCmd =>
    let runCmdSplit := Fields runCmd
    if runCmdSplit.length > 2 ∧ runCmdSplit.getD 0 "" = "bash" ∧ runCmdSplit.getD 1 "" = "-c" then
      some ("bash", ["-c", Join (runCmdSplit.drop 2) " "], none)
    else
      match combine (runCmdSplit.drop 1) [] false with
      | none => none
      | some final =>
        match runCmdSplit with
        | [] => none
        | executable :: _ => some (executable, final, none)

end cmd

namespace emu

open lora

/-- The struct `received` of `emu/node.go`: one reception window. -/
structure received (α : Type) where
  Start : Int
  Stop : Int
  Gain : α
deriving DecidableEq

/-- Node of `emu/node.go`.  `Meta` (a `map[string]interface{}`) is carried as a
list of key/value strings; the engine never inspects it. -/
structure Node (α : Type) where
  ID : String
  Online : Bool
  X : α
  Y : α
  Z : α
  TXGain : α
  RXSens : α
  SNR : Int
  Icon : String
  Meta : List (String × String)
  receiving : List (received α)
  sendingUntil : Int
deriving DecidableEq

section
variable {α : Type} [LinearOrderedField α] [FloorRing α]

def Node.DistanceTo (m : GoMath α) (n other : Node α) : α :=
  m.Sqrt (m.Pow (n.X - other.X) 2 + m.Pow (n.Y - other.Y) 2 + m.Pow (n.Z - other.Z) 2)

def Node.PathLoss (m : GoMath α) (n other : Node α) (distanceRef gamma freq : α) : α :=
  LogDistance m (n.DistanceTo m other * 1000) distanceRef gamma freq

def Node.Valid (n : Node α) : Option String :=
  if n.ID.length = 0 then some "no id" else none

/-- Event tags of `emu/emu.go` (the constants `EventNodeAdded` ... named by their
string values). -/
inductive Event where
  | NodeAdded
  | NodeRemoved
  | NodeUpdated
  | NodeCollision
  | NodeSending
  | NodeReceived
  | NodePayloadSizeExceeded
deriving DecidableEq

/-- CollisionDecodeableLevel of `emu/emu.go`. -/
def CollisionDecodeableLevel : α := 6

/-- MaxPacketLen of `emu/emu.go`. -/
def MaxPacketLen : Int := 255

end

/-- RxPacket of `emu/emu.go`; `Data` is the byte slice. -/
structure RxPacket (α : Type) where
  RSSI : Int
  SNR : Int
  Data : List Nat
  RecvTime : Int
  Airtime : α
deriving DecidableEq

/-- The `data any` argument of `emitEvent`, one constructor per shape the engine
passes: `nil`, the map of the sending event, the map of the oversize event, an
`RxPacket`, and a `lora.PacketConfig`. -/
inductive EventData (α : Type) where
  | null
  | sending (start stop : Int) (airtime x y z : α)
  | exceeded (size : Int) (theoretical_airtime : α)
  | rx (packet : RxPacket α)
  | config (packet : PacketConfig α)
deriving DecidableEq

/-- A goroutine spawned by `SendMessage`, with the values its closure captured.
`resend` is the closure of the busy-sender branch (`wait` is the value of its
local `wait`), `deliver` is the delivery closure with its five arguments and
the captured outer variable `packet`. -/
inductive Goroutine (α : Type) where
  | resend (wait : α) (id : String) (msg : List Nat)
  | deliver (id : String) (sleep gain : α) (timeFrame : received α) (msg : List Nat)
      (packet : PacketConfig α)
deriving DecidableEq

/-- What an engine operation does besides changing the registry, in program
order: a call of `onEvent` (through `emitEvent`), a call of `onReceived`, a
`go` statement. -/
inductive Effect (α : Type) where
  | emit (event : Event) (node : Node α) (data : EventData α)
  | onReceived (node : Node α) (packet : RxPacket α)
  | spawn (g : Goroutine α)
deriving DecidableEq

/-- Emulator of `emu/emu.go`: the fields that hold data.  The callbacks, the trace
writer, the logger, the lock and the wait group are represented by the effect
lists of the operations. -/
structure Emulator (α : Type) where
  freq : α
  gamma : α
  refDist : α
  kmRange : α
  ignoreCollisions : Bool
  timeScaling : Int
  packetConfig : PacketConfig α
  nodes : List (String × Node α)
  snrOffset : Int
  startTime : Int
deriving DecidableEq

/-- The result of an engine call: the engine afterwards, the effects in program
order and the returned `error` (`none` is `nil`). -/
structure Outcome (α : Type) where
  emu : Emulator α
  effects : List (Effect α)
  err : Option String
deriving DecidableEq

/-- The result of a delivery closure: its effects and whether the read lock it
took has been released when it returns. -/
structure Delivered (α : Type) where
  effects : List (Effect α)
  unlocked : Bool
deriving DecidableEq

section
variable {α : Type} [LinearOrderedField α] [FloorRing α]

/-- Map read `nodes[id]` with the `ok` flag. -/
def mapGet (nodes : List (String × Node α)) (id : String) : Option (Node α) :=
  match nodes with
  | [] => none
  | (k, v) :: rest => if k = id then some v else mapGet rest id

/-- Map write `nodes[id] = n`. -/
def mapSet (nodes : List (String × Node α)) (id : String) (n : Node α) :
    List (String × Node α) :=
  match nodes with
  | [] => [(id, n)]
  | (k, v) :: rest => if k = id then (k, n) :: rest else (k, v) :: mapSet rest id n

/-- New of `emu/emu.go`; `wallNow` is the clock reading stored as `startTime`. -/
def New (freq gamma refDist kmRange : α) (config : PacketConfig α) (wallNow : Int) :
    Emulator α :=
  { freq := freq, gamma := gamma, refDist := refDist, kmRange := kmRange,
    ignoreCollisions := false, timeScaling := 1, packetConfig := config, nodes := [],
    snrOffset := 0, startTime := wallNow }

/-- The method `getTime` followed by `UnixMilli()`: the scaled simulator clock in
milliseconds. -/
def Emulator.getTime (emu : Emulator α) (wallNow : Int) : Int :=
  let elapsed := wallNow - emu.startTime
  let elapsed := elapsed * emu.timeScaling
  emu.startTime + elapsed

/-- The method `emitEvent`: one call of `onEvent` (and one trace line when a
writer is set). -/
def emitEvent (event : Event) (node : Node α) (data : EventData α) : Effect α :=
  Effect.emit event node data

/-- AddNode of `emu/emu.go`. -/
def Emulator.AddNode (emu : Emulator α) (node : Node α) : Outcome α :=
  match node.Valid with
  | some err => { emu := emu, effects := [], err := some err }
  | none =>
    match mapGet emu.nodes node.ID with
    | some _ => { emu := emu, effects := [], err := some "already exists" }
    | none =>
      { emu := { emu with nodes := mapSet emu.nodes node.ID node }
        effects := [emitEvent Event.NodeAdded node EventData.null]
        err := none }

/-- The loop `for i := range node.receiving` of the delivery closure, started with
`collisions`, on finite gains; `countCollisionsF` is the loop on all float64
values. -/
def countCollisions (timeFrame : received α) (gain : α) :
    List (received α) → Nat → Nat
  | [], collisions => collisions
  | e :: rest, collisions =>
    if timeFrame.Start ≥ e.Start ∧ timeFrame.Start ≤ e.Stop
        ∧ gain - e.Gain < CollisionDecodeableLevel then
      countCollisions timeFrame gain rest (collisions + 1)
    else
      countCollisions timeFrame gain rest collisions

/-- The body of the delivery closure of `SendMessage` after its sleep, evaluated
on the engine as it is at that moment. -/
def Emulator.deliver (emu : Emulator α) (wallNow : Int) (id : String) (sleep gain : α)
    (timeFrame : received α) (msg : List Nat) (packet : PacketConfig α) : Delivered α :=
  match mapGet emu.nodes id with
  | none => { effects := [], unlocked := false }
  | some node =>
    let collisions := 0
    let collisions := if timeFrame.Start ≤ node.sendingUntil then collisions + 1 else collisions
    let collisions := countCollisions timeFrame gain node.receiving collisions
    if emu.ignoreCollisions ∨ collisions ≤ 1 then
      let rx : RxPacket α :=
        { RSSI := goInt gain
          SNR := goInt gain + node.SNR + emu.snrOffset
          Data := msg
          RecvTime := emu.getTime wallNow / 1000
          Airtime := sleep }
      { effects := [Effect.onReceived node rx, emitEvent Event.NodeReceived node (EventData.rx rx)],
        unlocked := true }
    else
      { effects := [emitEvent Event.NodeCollision node (EventData.config packet)],
        unlocked := true }

/-- The local `packet` of `SendMessage`: the engine's packet config with
`PayloadLen = float64(len(msg))`. -/
def Emulator.packetFor (emu : Emulator α) (msg : List Nat) : PacketConfig α :=
  { emu.packetConfig with PayloadLen := (msg.length : α) }

/-- The local `stop` of `SendMessage`: `start + int64(packet.TimeTotal())`. -/
def Emulator.stopTime (m : GoMath α) (emu : Emulator α) (wallNow : Int) (msg : List Nat) :
    Int :=
  emu.getTime wallNow + goInt ((emu.packetFor msg).TimeTotal m)

/-- The local `reachedGain` of the receiver loop. -/
def Emulator.reachedGain (m : GoMath α) (emu : Emulator α) (sender receiver : Node α) : α :=
  sender.TXGain - sender.PathLoss m receiver emu.refDist emu.gamma emu.freq

/-- The loop `for k, receiver := range emu.nodes` of `SendMessage`: the registry
after the loop and the goroutines it spawned, in iteration order.  The write
`emu.nodes[k] = receiver` replaces the entry under the key being visited. -/
def receiverLoop (m : GoMath α) (emu : Emulator α) (id : String) (sender : Node α)
    (packet : PacketConfig α) (start stop : Int) (msg : List Nat) :
    List (String × Node α) → List (String × Node α) × List (Goroutine α)
  | [] => ([], [])
  | (k, receiver) :: rest =>
    let done := receiverLoop m emu id sender packet start stop msg rest
    if k = id ∨ receiver.Online = false then
      ((k, receiver) :: done.1, done.2)
    else
      let reachedGain := emu.reachedGain m sender receiver
      if reachedGain > receiver.RXSens then
        let r : received α := { Start := start, Stop := stop, Gain := reachedGain }
        let receiver := { receiver with receiving := receiver.receiving ++ [r] }
        ((k, receiver) :: done.1,
          Goroutine.deliver k (packet.TimeTotal m / (emu.timeScaling : α)) reachedGain r msg packet
            :: done.2)
      else
        ((k, receiver) :: done.1, done.2)

/-- SendMessage of `emu/emu.go`, called when the wall clock reads `wallNow`. -/
def Emulator.SendMessage (m : GoMath α) (emu : Emulator α) (wallNow : Int) (id : String)
    (msg : List Nat) : Outcome α :=
  match mapGet emu.nodes id with
  | none => { emu := emu, effects := [], err := some "not found" }
  | some sender =>
    if sender.Online = false then
      { emu := emu, effects := [], err := some "sender not online" }
    else
      let packet := emu.packetFor msg
      if (msg.length : Int) + goInt emu.packetConfig.PreambleLen ≥ MaxPacketLen then
        { emu := emu
          effects := [emitEvent Event.NodePayloadSizeExceeded sender
            (EventData.exceeded ((msg.length : Int) + goInt emu.packetConfig.PreambleLen)
              (packet.TimeTotal m))]
          err := none }
      else
        let start := emu.getTime wallNow
        let stop := emu.stopTime m wallNow msg
        if start ≤ sender.sendingUntil then
          let wait := (1000 * ((sender.sendingUntil - start + 1 : Int) : α)) / (emu.timeScaling : α)
          { emu := emu, effects := [Effect.spawn (Goroutine.resend wait id msg)], err := none }
        else
          let sender := { sender with sendingUntil := stop }
          let nodes := mapSet emu.nodes id sender
          let sending := emitEvent Event.NodeSending sender
            (EventData.sending start stop (packet.TimeTotal m) sender.X sender.Y sender.Z)
          let looped := receiverLoop m emu id sender packet start stop msg nodes
          { emu := { emu with nodes := looped.1 }
            effects := sending :: looped.2.map Effect.spawn
            err := none }

/-- The microseconds a goroutine sleeps before its body runs: the argument of
`time.Duration` in `time.Sleep(time.Microsecond * time.Duration(...))`. -/
def Goroutine.sleepMicros : Goroutine α → Int
  | Goroutine.resend wait _ _ => goInt wait
  | Goroutine.deliver _ sleep _ _ _ _ => goInt (1000 * sleep)

/-- The body of a goroutine after its sleep, run on the engine as it is when the
wall clock reads `wallNow`.  The resend closure calls `SendMessage` once and
drops the returned error. -/
def Goroutine.run (m : GoMath α) (emu : Emulator α) (wallNow : Int) : Goroutine α → Outcome α
  | Goroutine.resend _ id msg =>
    let r := emu.SendMessage m wallNow id msg
    { emu := r.emu, effects := r.effects, err := none }
  | Goroutine.deliver id sleep gain timeFrame msg packet =>
    { emu := emu
      effects := (emu.deliver wallNow id sleep gain timeFrame msg packet).effects
      err := none }

/-- Whether a goroutine is a delivery closure whose receiver is `k`. -/
def Goroutine.deliversTo (k : String) : Goroutine α → Bool
  | Goroutine.deliver id _ _ _ _ _ => decide (id = k)
  | Goroutine.resend _ _ _ => false

/-- Whether a goroutine is a resend closure. -/
def Goroutine.isResend : Goroutine α → Bool
  | Goroutine.deliver _ _ _ _ _ _ => false
  | Goroutine.resend _ _ _ => true

/-- The delivery closures among `gs` whose receiver is `k`. -/
def deliveriesFor (k : String) (gs : List (Goroutine α)) : List (Goroutine α) :=
  gs.filter (Goroutine.deliversTo k)

/-- The resend closures among `gs`. -/
def resends (gs : List (Goroutine α)) : List (Goroutine α) :=
  gs.filter Goroutine.isResend

/-- The event tags passed to `onEvent`, in order. -/
def emitted : List (Effect α) → List Event
  | [] => []
  | Effect.emit event _ _ :: rest => event :: emitted rest
  | _ :: rest => emitted rest

/-- The calls of `onReceived`, in order. -/
def receivedCalls : List (Effect α) → List (Node α × RxPacket α)
  | [] => []
  | Effect.onReceived node packet :: rest => (node, packet) :: receivedCalls rest
  | _ :: rest => receivedCalls rest

/-- The goroutines started, in order. -/
def spawned : List (Effect α) → List (Goroutine α)
  | [] => []
  | Effect.spawn g :: rest => g :: spawned rest
  | _ :: rest => spawned rest

/-- The tags of the events a delivery of window `W` emits when its closure runs:
the closure as `SendMessage` builds it, with the window's gain as captured
gain. -/
def Emulator.resolves (emu : Emulator α) (wallNow : Int) (id : String) (sleep : α)
    (W : received α) (msg : List Nat) (packet : PacketConfig α) : List Event :=
  emitted (emu.deliver wallNow id sleep W.Gain W msg packet).effects

/-- DistanceTo of `emu/node.go` in float64 arithmetic.  The coordinates are finite
and the sum of the three squares is taken in the field. -/
def Node.DistanceToF (m : GoMath α) (n other : Node α) : F64 α :=
  F64.Sqrt m
    (F64.fin (m.Pow (n.X - other.X) 2 + m.Pow (n.Y - other.Y) 2 + m.Pow (n.Z - other.Z) 2))

/-- PathLoss of `emu/node.go` in float64 arithmetic. -/
def Node.PathLossF (m : GoMath α) (n other : Node α) (distanceRef gamma freq : α) : F64 α :=
  LogDistanceF m ((n.DistanceToF m other).mul (F64.fin 1000)) (F64.fin distanceRef)
    (F64.fin gamma) (F64.fin freq)

/-- The local `reachedGain` of the receiver loop in float64 arithmetic. -/
def Emulator.reachedGainF (m : GoMath α) (emu : Emulator α) (sender receiver : Node α) :
    F64 α :=
  (F64.fin sender.TXGain).sub (sender.PathLossF m receiver emu.refDist emu.gamma emu.freq)

/-- The struct `received` of `emu/node.go` with a float64 gain. -/
structure receivedF (α : Type) where
  Start : Int
  Stop : Int
  Gain : F64 α
deriving DecidableEq

/-- The loop `for i := range node.receiving` of the delivery closure in float64
arithmetic, started with `collisions`: the test
`gain-node.receiving[i].Gain < CollisionDecodeableLevel` is false when the
difference is `NaN`. -/
def countCollisionsF (timeFrame : receivedF α) (gain : F64 α) :
    List (receivedF α) → Nat → Nat
  | [], collisions => collisions
  | e :: rest, collisions =>
    if timeFrame.Start ≥ e.Start ∧ timeFrame.Start ≤ e.Stop
        ∧ (gain.sub e.Gain).lt (F64.fin CollisionDecodeableLevel) = true then
      countCollisionsF timeFrame gain rest (collisions + 1)
    else
      countCollisionsF timeFrame gain rest collisions

/-- The outcome of the delivery closure of `SendMessage` in float64 arithmetic, for
a receiver of which the closure reads `sendingUntil` and `receiving`: the event
it emits. -/
def deliverF (ignoreCollisions : Bool) (sendingUntil : Int) (receiving : List (receivedF α))
    (gain : F64 α) (timeFrame : receivedF α) : Event :=
  let collisions := 0
  let collisions := if timeFrame.Start ≤ sendingUntil then collisions + 1 else collisions
  let collisions := countCollisionsF timeFrame gain receiving collisions
  if ignoreCollisions = true ∨ collisions ≤ 1 then Event.NodeReceived else Event.NodeCollision

/-- A reception window with a finite gain as a window with a float64 gain. -/
def received.toF (r : received α) : receivedF α :=
  { Start := r.Start, Stop := r.Stop, Gain := F64.fin r.Gain }

/-- The engine together with its goroutines: `pending` are the goroutines started
and not yet run (the wait group counts them, `Wait` returns when there is none),
`log` holds every effect so far, oldest first. -/
structure World (α : Type) where
  emu : Emulator α
  pending : List (Goroutine α)
  log : List (Effect α)

/-- One scheduling step: a caller invokes `SendMessage`, or the pending goroutine
number `i` finishes its sleep and runs its body; `wallNow` is the clock reading
at that moment. -/
inductive Step where
  | call (wallNow : Int) (id : String) (msg : List Nat)
  | wake (wallNow : Int) (i : Nat)
deriving DecidableEq

def World.step (m : GoMath α) (w : World α) : Step → World α
  | Step.call wallNow id msg =>
    let r := w.emu.SendMessage m wallNow id msg
    { emu := r.emu, pending := w.pending ++ spawned r.effects, log := w.log ++ r.effects }
  | Step.wake wallNow i =>
    match w.pending.get? i with
    | none => w
    | some g =>
      let r := g.run m w.emu wallNow
      { emu := r.emu, pending := w.pending.eraseIdx i ++ spawned r.effects,
        log := w.log ++ r.effects }

def World.run (m : GoMath α) (w : World α) (steps : List Step) : World α :=
  steps.foldl (World.step m) w

/-- Whether an effect is the event `event` for a node whose `ID` is `id` (the test
of the `onEvent` callbacks in `emu/emu_test.go`). -/
def Effect.isEventAt (event : Event) (id : String) : Effect α → Bool
  | Effect.emit e n _ => decide (e = event ∧ n.ID = id)
  | Effect.onReceived _ _ => false
  | Effect.spawn _ => false

/-- How many times the log holds the event `event` for node `id`. -/
def eventsAt (event : Event) (id : String) (log : List (Effect α)) : Nat :=
  log.countP (Effect.isEventAt event id)

/-- The `(start, stop)` of a `NodeSending` event of node `id`. -/
def Effect.transmission (id : String) : Effect α → Option (Int × Int)
  | Effect.emit Event.NodeSending n (EventData.sending start stop _ _ _ _) =>
    if n.ID = id then some (start, stop) else none
  | _ => none

/-- The transmissions node `id` committed, oldest first: the `(start, stop)` of
its `NodeSending` events. -/
def transmissions (id : String) (log : List (Effect α)) : List (Int × Int) :=
  log.filterMap (Effect.transmission id)

/-- The clock reading of a step. -/
def Step.time : Step → Int
  | Step.call wallNow _ _ => wallNow
  | Step.wake wallNow _ => wallNow

/-- Two node values with the same id, online flag, position, transmit gain and
receive sensitivity: they differ at most in `SNR`, `Icon`, `Meta` and the two
private fields. -/
def sameRadio (x y : Node α) : Prop :=
  y.ID = x.ID ∧ y.Online = x.Online ∧ y.X = x.X ∧ y.Y = x.Y ∧ y.Z = x.Z
    ∧ y.TXGain = x.TXGain ∧ y.RXSens = x.RXSens

/-- The invariant of the queueing scenario, on an engine `e` and the log so far.
The engine has the settings and keys of `emu0` and every node has kept its
radio parameters; of every node the transmissions follow one another without
overlap and end by its busy mark; the receiver still has the busy mark it
started with, its windows follow one another without overlap and end by the
sender's busy mark; no collision has been reported for the receiver. -/
structure Serialized (emu0 : Emulator α) (S R : String) (nR0 : Node α)
    (e : Emulator α) (log : List (Effect α)) : Prop where
  freq : e.freq = emu0.freq
  gamma : e.gamma = emu0.gamma
  refDist : e.refDist = emu0.refDist
  timeScaling : e.timeScaling = emu0.timeScaling
  packetConfig : e.packetConfig = emu0.packetConfig
  startTime : e.startTime = emu0.startTime
  keys : e.nodes.map Prod.fst = emu0.nodes.map Prod.fst
  radio : ∀ k x, mapGet e.nodes k = some x → ∃ x0, mapGet emu0.nodes k = some x0 ∧ sameRadio x0 x
  bounded : ∀ k x, mapGet e.nodes k = some x → ∀ a ∈ transmissions k log, a.2 ≤ x.sendingUntil
  windows : ∀ k, (transmissions k log).Pairwise (fun a b => a.2 < b.1)
  ordered : ∀ k, ∀ a ∈ transmissions k log, a.1 ≤ a.2
  hearing : ∃ nS nR, mapGet e.nodes S = some nS ∧ mapGet e.nodes R = some nR
      ∧ nR.sendingUntil = nR0.sendingUntil
      ∧ nR.receiving.Pairwise (fun a b => a.Stop < b.Start)
      ∧ (∀ W ∈ nR.receiving, W.Stop ≤ nS.sendingUntil)
  quiet : eventsAt Event.NodeCollision R log = 0

/-- The zero value of `Node`, what a map read of a missing key gives. -/
def Node.zero : Node α :=
  { ID := "", Online := false, X := 0, Y := 0, Z := 0, TXGain := 0, RXSens := 0, SNR := 0,
    Icon := "", Meta := [], receiving := [], sendingUntil := 0 }

/-- Map removal `delete(nodes, id)`. -/
def mapDelete (nodes : List (String × Node α)) (id : String) : List (String × Node α) :=
  match nodes with
  | [] => []
  | (k, v) :: rest => if k = id then rest else (k, v) :: mapDelete rest id

/-- HasNode of `emu/emu.go`. -/
def Emulator.HasNode (emu : Emulator α) (id : String) : Bool :=
  match mapGet emu.nodes id with
  | some _ => true
  | none => false

/-- GetNode of `emu/emu.go`. -/
def Emulator.GetNode (emu : Emulator α) (id : String) : Node α :=
  match mapGet emu.nodes id with
  | some node => node
  | none => Node.zero

/-- SetTimeScaling of `emu/emu.go`. -/
def Emulator.SetTimeScaling (emu : Emulator α) (value : Int) : Outcome α :=
  if value ≤ 0 then
    { emu := emu, effects := [], err := some "scaling must be positive" }
  else if value > 1000 then
    { emu := emu, effects := [], err := some "scaling can\x27t be over 1000" }
  else
    { emu := { emu with timeScaling := value }, effects := [], err := none }

/-- UpdateNode of `emu/emu.go`.  The updater `func(node *Node) error` is a function
from the copy it is handed to the copy as it leaves it and the returned error. -/
def Emulator.UpdateNode (emu : Emulator α) (id : String)
    (updater : Node α → Node α × Option String) : Outcome α :=
  match mapGet emu.nodes id with
  | none => { emu := emu, effects := [], err := some "not found" }
  | some selectedNode =>
    match updater selectedNode with
    | (_, some err) => { emu := emu, effects := [], err := some err }
    | (selectedNode, none) =>
      let selectedNode := { selectedNode with ID := id }
      match selectedNode.Valid with
      | some err => { emu := emu, effects := [], err := some err }
      | none =>
        { emu := { emu with nodes := mapSet emu.nodes id selectedNode }
          effects := [emitEvent Event.NodeUpdated selectedNode EventData.null]
          err := none }

/-- RemoveNode of `emu/emu.go`. -/
def Emulator.RemoveNode (emu : Emulator α) (id : String) : Outcome α :=
  match mapGet emu.nodes id with
  | none => { emu := emu, effects := [], err := some "not found" }
  | some node =>
    { emu := { emu with nodes := mapDelete emu.nodes id }
      effects := [emitEvent Event.NodeRemoved node EventData.null]
      err := none }

/-- Clear of `emu/emu.go`. -/
def Emulator.Clear (emu : Emulator α) : Emulator α :=
  { emu with nodes := [] }

/-- One thing that happens to an engine: a call of `AddNode`, `UpdateNode`,
`RemoveNode` or `Clear`, or a scheduling step (a call of `SendMessage` or a
goroutine of `SendMessage` running its body). -/
inductive Action (α : Type) where
  | addNode (node : Node α)
  | updateNode (id : String) (updater : Node α → Node α × Option String)
  | removeNode (id : String)
  | clear
  | step (s : Step)

/-- The world after one action. -/
def World.act (m : GoMath α) (w : World α) : Action α → World α
  | Action.addNode node =>
    let r := w.emu.AddNode node
    { emu := r.emu, pending := w.pending, log := w.log ++ r.effects }
  | Action.updateNode id updater =>
    let r := w.emu.UpdateNode id updater
    { emu := r.emu, pending := w.pending, log := w.log ++ r.effects }
  | Action.removeNode id =>
    let r := w.emu.RemoveNode id
    { emu := r.emu, pending := w.pending, log := w.log ++ r.effects }
  | Action.clear => { emu := w.emu.Clear, pending := w.pending, log := w.log }
  | Action.step s => w.step m s

/-- The world after a sequence of actions. -/
def World.reach (m : GoMath α) (w : World α) (acts : List (Action α)) : World α :=
  acts.foldl (World.act m) w

/-- Node ids are unique and non-empty: the keys of the registry are pairwise
distinct, none is the empty string and each equals the `ID` of the node stored
under it. -/
def WellKeyed (nodes : List (String × Node α)) : Prop :=
  (nodes.map Prod.fst).Nodup ∧ ∀ k x, mapGet nodes k = some x → k ≠ "" ∧ x.ID = k

/-- The delivery closure of `SendMessage` without its half-duplex increment: the
body of `Emulator.deliver` with the statement
`if timeFrame.Start <= node.sendingUntil { collisions++ }` taken out. -/
def Emulator.deliverNoHalfDuplex (emu : Emulator α) (wallNow : Int) (id : String)
    (sleep gain : α) (timeFrame : received α) (msg : List Nat) (packet : PacketConfig α) :
    Delivered α :=
  match mapGet emu.nodes id with
  | none => { effects := [], unlocked := false }
  | some node =>
    let collisions := 0
    let collisions := countCollisions timeFrame gain node.receiving collisions
    if emu.ignoreCollisions ∨ collisions ≤ 1 then
      let rx : RxPacket α :=
        { RSSI := goInt gain
          SNR := goInt gain + node.SNR + emu.snrOffset
          Data := msg
          RecvTime := emu.getTime wallNow / 1000
          Airtime := sleep }
      { effects := [Effect.onReceived node rx, emitEvent Event.NodeReceived node (EventData.rx rx)],
        unlocked := true }
    else
      { effects := [emitEvent Event.NodeCollision node (EventData.config packet)],
        unlocked := true }

/-- LogEntry of `emu/emu.go`, a line of the trace; `Time` is the reading of the
simulator clock in milliseconds. -/
structure LogEntry (α : Type) where
  Time : Int
  Event : Event
  NodeID : String
  Data : EventData α

/-- The lines that `emitEvent` writes to the trace for the events among the effects
of one operation, performed on the engine `emu` when the wall clock reads
`wallNow`: each carries `emu.getTime()`. -/
def traceOf (emu : Emulator α) (wallNow : Int) : List (Effect α) → List (LogEntry α)
  | [] => []
  | Effect.emit event node data :: rest =>
    { Time := emu.getTime wallNow, Event := event, NodeID := node.ID, Data := data }
      :: traceOf emu wallNow rest
  | _ :: rest => traceOf emu wallNow rest

/-- An engine operation, to be performed at a wall-clock time that is given with
it: a call of `SetTimeScaling`, `AddNode`, `UpdateNode`, `RemoveNode`, `Clear`
or `SendMessage`, or the pending goroutine number `i` running its body. -/
inductive Op (α : Type) where
  | setTimeScaling (value : Int)
  | addNode (node : Node α)
  | updateNode (id : String) (updater : Node α → Node α × Option String)
  | removeNode (id : String)
  | clear
  | sendMessage (id : String) (msg : List Nat)
  | wake (i : Nat)

/-- The action an operation is when the wall clock reads `wallNow`; `SetTimeScaling`
is no action. -/
def Op.action (wallNow : Int) : Op α → Option (Action α)
  | Op.setTimeScaling _ => none
  | Op.addNode node => some (Action.addNode node)
  | Op.updateNode id updater => some (Action.updateNode id updater)
  | Op.removeNode id => some (Action.removeNode id)
  | Op.clear => some Action.clear
  | Op.sendMessage id msg => some (Action.step (Step.call wallNow id msg))
  | Op.wake i => some (Action.step (Step.wake wallNow i))

/-- The world of an engine with a trace writer, and the lines written to the trace,
oldest first. -/
structure Traced (α : Type) where
  world : World α
  trace : List (LogEntry α)

/-- The traced world after one operation performed when the wall clock reads
`wallNow`: the trace gets the lines for the events the operation adds to the
log. -/
def Traced.perform (m : GoMath α) (s : Traced α) (wallNow : Int) (op : Op α) : Traced α :=
  match op with
  | Op.setTimeScaling value =>
    { world := { emu := (s.world.emu.SetTimeScaling value).emu, pending := s.world.pending,
                 log := s.world.log },
      trace := s.trace }
  | op =>
    match op.action wallNow with
    | none => s
    | some a =>
      { world := s.world.act m a,
        trace := s.trace
          ++ traceOf s.world.emu wallNow ((s.world.act m a).log.drop s.world.log.length) }

/-- The traced world after a sequence of operations, each with the wall-clock time
at which it is performed. -/
def Traced.run (m : GoMath α) (s : Traced α) (ops : List (Int × Op α)) : Traced α :=
  ops.foldl (fun s p => s.perform m p.1 p.2) s

/-- The struct `Mobility` of `emu/mobility.go`: the fields that hold data; `emu` is
the engine the manager points to. -/
structure Mobility (α : Type) where
  emu : Emulator α
  tickrate : α
  timeScaling : Int
  loop : Bool
  commands : List (mobility.Command α)

/-- NewMobility of `emu/mobility.go`. -/
def NewMobility (emu : Emulator α) (commands : List (mobility.Command α)) : Mobility α :=
  { emu := emu, commands := commands, tickrate := 10, timeScaling := 1, loop := false }

/-- The updater closure of `setInitialPositions` for the command `set`: the switch
on its axis. -/
def setAxis (set : mobility.SetCommand α) (node : Node α) : Node α × Option String :=
  if set.Axis = mobility.XAxis then ({ node with X := set.Val / 1000 }, none)
  else if set.Axis = mobility.YAxis then ({ node with Y := set.Val / 1000 }, none)
  else if set.Axis = mobility.ZAxis then ({ node with Z := set.Val / 1000 }, none)
  else (node, none)

/-- The function `sort.SliceStable`: the stable insertion sort by `less`.  The
library sorts blocks by insertion and merges them in place; a stable sort by a
strict weak order has one result. -/
def SliceStable {β : Type} (less : β → β → Bool) (l : List β) : List β :=
  l.insertionSort (fun a b => less b a = false)

/-- What `setInitialPositions` has done: the manager with its engine, the effects
of the engine calls in program order, and the local `dests`. -/
structure Positions (α : Type) where
  mob : Mobility α
  effects : List (Effect α)
  dests : List (mobility.SetDestCommand α)

/-- The body of the loop `for i := range m.commands` of `setInitialPositions` for
the command `c`. -/
def setPosition (s : Positions α) (c : mobility.Command α) : Positions α :=
  match c.Set with
  | some set =>
    let r := s.mob.emu.UpdateNode set.Node (setAxis set)
    { mob := { s.mob with emu := r.emu }, effects := s.effects ++ r.effects, dests := s.dests }
  | none =>
    match c.SetDest with
    | some d =>
      let setDest := d
      let setDest := { setDest with X := setDest.X / 1000 }
      let setDest := { setDest with Y := setDest.Y / 1000 }
      let setDest := { setDest with Speed := setDest.Speed / 1000 }
      { mob := s.mob, effects := s.effects, dests := s.dests ++ [setDest] }
    | none => s

/-- The method `setInitialPositions` of `emu/mobility.go`. -/
def Mobility.setInitialPositions (m : Mobility α) : Positions α :=
  let s := m.commands.foldl setPosition { mob := m, effects := [], dests := [] }
  { mob := s.mob, effects := s.effects
    dests := SliceStable (fun a b => decide (a.Time < b.Time)) s.dests }

/-- Map read `active[id]` with the `ok` flag. -/
def activeGet (active : List (String × mobility.SetDestCommand α)) (id : String) :
    Option (mobility.SetDestCommand α) :=
  match active with
  | [] => none
  | (k, v) :: rest => if k = id then some v else activeGet rest id

/-- Map write `active[id] = d`. -/
def activeSet (active : List (String × mobility.SetDestCommand α)) (id : String)
    (d : mobility.SetDestCommand α) : List (String × mobility.SetDestCommand α) :=
  match active with
  | [] => [(id, d)]
  | (k, v) :: rest => if k = id then (k, d) :: rest else (k, v) :: activeSet rest id d

/-- Map removal `delete(active, id)`. -/
def activeDelete (active : List (String × mobility.SetDestCommand α)) (id : String) :
    List (String × mobility.SetDestCommand α) :=
  match active with
  | [] => []
  | (k, v) :: rest => if k = id then rest else (k, v) :: activeDelete rest id

/-- The promotion loop `for i := 0; i < len(dests); i++` of `Start` from the index
`i` on, with the locals `dests` and `active`: a promoted element is cut out of
`dests` and `i--` followed by `i++` leaves the index where it is. -/
def promote (elapsed : α) (i : Nat) (dests : List (mobility.SetDestCommand α))
    (active : List (String × mobility.SetDestCommand α)) :
    List (mobility.SetDestCommand α) × List (String × mobility.SetDestCommand α) :=
  if h : i < dests.length then
    if elapsed ≥ dests[i].Time then
      promote elapsed i (dests.take i ++ dests.drop (i + 1))
        (activeSet active dests[i].Node dests[i])
    else promote elapsed (i + 1) dests active
  else (dests, active)
termination_by dests.length - i
decreasing_by
  · simp only [List.length_append, List.length_take, List.length_drop]
    omega
  · omega

/-- The type `mgl64.Vec2`. -/
structure Vec2 (α : Type) where
  X : α
  Y : α

/-- The method `Len` of `mgl64.Vec2`: `math.Hypot` of the two components. -/
def Vec2.Len (m : GoMath α) (v : Vec2 α) : α := m.Sqrt (v.X * v.X + v.Y * v.Y)

/-- The method `Normalize` of `mgl64.Vec2`. -/
def Vec2.Normalize (m : GoMath α) (v : Vec2 α) : Vec2 α :=
  let l := 1 / v.Len m
  { X := v.X * l, Y := v.Y * l }

/-- The method `Mul` of `mgl64.Vec2`. -/
def Vec2.Mul (v : Vec2 α) (c : α) : Vec2 α := { X := v.X * c, Y := v.Y * c }

/-- The updater closure of the active loop of `Start`: the node as the closure
leaves it, and whether the closure ran `delete(active, nodeId)`. -/
def moveNode (m : GoMath α) (tickrate : α) (command : mobility.SetDestCommand α)
    (node : Node α) : Node α × Bool :=
  let stepSize := command.Speed / tickrate
  let diff : Vec2 α := { X := command.X - node.X, Y := command.Y - node.Y }
  if diff.Len m < stepSize then
    ({ node with X := command.X, Y := command.Y }, true)
  else
    let step := (diff.Normalize m).Mul stepSize
    ({ node with X := node.X + step.X, Y := node.Y + step.Y }, false)

/-- The locals of the tick loop of `Start` and the engine: the pending list
`dests`, the map `active`, `elapsed`, and the effects of the engine calls in
program order. -/
structure Ticking (α : Type) where
  emu : Emulator α
  dests : List (mobility.SetDestCommand α)
  active : List (String × mobility.SetDestCommand α)
  elapsed : α
  effects : List (Effect α)

/-- The body of the loop `for nodeId, command := range active` of `Start` for one
entry of the map. -/
def activeStep (m : GoMath α) (tickrate : α) (s : Ticking α) (nodeId : String)
    (command : mobility.SetDestCommand α) : Ticking α :=
  if command.Speed ≤ 0 then { s with active := activeDelete s.active nodeId }
  else
    let r := s.emu.UpdateNode nodeId (fun node => ((moveNode m tickrate command node).1, none))
    let active :=
      match mapGet s.emu.nodes nodeId with
      | some node =>
        if (moveNode m tickrate command node).2 then activeDelete s.active nodeId else s.active
      | none => s.active
    let active := if r.err ≠ none then activeDelete active nodeId else active
    { s with emu := r.emu, active := active, effects := s.effects ++ r.effects }

/-- One tick of `Start` that is not paused: the statements of the case
`<-ticker.C`, up to the test that ends the loop. -/
def Ticking.tick (m : GoMath α) (tickrate : α) (s : Ticking α) : Ticking α :=
  let elapsed := s.elapsed + 1000 / 1000 / tickrate
  let p := if s.dests.length > 0 then promote elapsed 0 s.dests s.active else (s.dests, s.active)
  p.2.foldl (fun s e => activeStep m tickrate s e.1 e.2)
    { s with dests := p.1, active := p.2, elapsed := elapsed }

/-- The loop `commandExec` of `Start` for `n` ticks that are not paused: it is left
after a tick with `len(active) == 0 && len(dests) == 0`. -/
def Ticking.run (m : GoMath α) (tickrate : α) : Nat → Ticking α → Ticking α
  | 0, s => s
  | n + 1, s =>
    let s := s.tick m tickrate
    if s.active.length = 0 ∧ s.dests.length = 0 then s else Ticking.run m tickrate n s

/-- The payload of the tests: the bytes of "HELLO WORLD", ten times. -/
def helloWorld10 : List Nat :=
  (List.replicate 10 [72, 69, 76, 76, 79, 32, 87, 79, 82, 76, 68]).flatten

/-- Whether a schedule runs every one of `n` pending goroutines and nothing else:
each step wakes a goroutine that is still pending. -/
def drains : Nat → List Step → Bool
  | 0, [] => true
  | n + 1, Step.wake _ i :: rest => decide (i < n + 1) && drains n rest
  | _, _ => false

/-- The node literal of the tests in `emu/emu_test.go`, with its id, x
coordinate and transmit gain. -/
def testNode (id : String) (x txGain : α) : Node α :=
  { ID := id, Online := true, X := x, Y := 1, Z := 0, TXGain := txGain, RXSens := -200,
    SNR := 0, Icon := "", Meta := [], receiving := [], sendingUntil := 0 }

/-- The engine of `TestEmulator_Collision` after its three `AddNode` calls, with
the path loss exponent and the transmit gain of node "3" left open
(`TestEmulator_CollisionPowerLevel` uses 80 for the latter). -/
def testEmulator (gamma txGain3 : α) (wallNow : Int) : Emulator α :=
  ((((New 868 gamma 1 10 PacketConfigDefault wallNow).AddNode (testNode "1" 1 40)).emu.AddNode
    (testNode "2" 1.2 40)).emu.AddNode (testNode "3" 1.4 txGain3)).emu

/-- The engine of `TestEmulator_MultipleSends` after its two `AddNode` calls, with
the path loss exponent left open. -/
def pairEmulator (gamma : α) (wallNow : Int) : Emulator α :=
  (((New 868 gamma 1 10 PacketConfigDefault wallNow).AddNode (testNode "1" 1 40)).emu.AddNode
    (testNode "2" 1.3 40)).emu

/-- The engine of `TestEmulator_MultipleSends` with its time scaling: `New`, then
`SetTimeScaling(scale)`, then the two `AddNode` calls; the path loss exponent is
left open. -/
def scaledEmulator (gamma : α) (wallNow : Int) (scale : Int) : Emulator α :=
  ((((New 868 gamma 1 10 PacketConfigDefault wallNow).SetTimeScaling scale).emu.AddNode
    (testNode "1" 1 40)).emu.AddNode (testNode "2" 1.3 40)).emu

/-- Node "2" of the tests in the middle of receptions: with the reception windows
`ws` and the busy mark `until`. -/
def hearingNode (ws : List (received α)) (busy : Int) : Node α :=
  { testNode "2" 1.2 40 with receiving := ws, sendingUntil := busy }

/-- An engine whose only node is `hearingNode ws busy`. -/
def hearingEmulator (ws : List (received α)) (busy : Int) : Emulator α :=
  { New 868 10 1 10 PacketConfigDefault 1000 with nodes := [("2", hearingNode ws busy)] }

/-- The tick loop of a manager whose only destination, for node "1" of the
two-node test engine, is active: the point (4, 5) at the speed 10. -/
def movingState : Ticking α :=
  { emu := pairEmulator 2 1000, dests := [],
    active := [("1", { Node := "1", Time := 0, X := 4, Y := 5, Speed := 10 })],
    elapsed := 0, effects := [] }

/-- The tick loop of a manager at its start, with two destinations for node "1" of
the two-node test engine: the point (4, 5) at the speed 10 from the time 0 on,
and a halt (speed 0) at the time 0.15. -/
def pacedState : Ticking α :=
  { emu := pairEmulator 2 1000,
    dests := [{ Node := "1", Time := 0, X := 4, Y := 5, Speed := 10 },
              { Node := "1", Time := 3 / 20, X := 4, Y := 5, Speed := 0 }],
    active := [], elapsed := 0, effects := [] }

/-! ## The delivery closure -/

/-- The counting loop adds to its start value the number of entries that contain
the start of the window and are less than 6 dB below the captured gain. -/
theorem countCollisions_eq (timeFrame : received α) (gain : α) (l : List (received α))
    (c : Nat) :
    countCollisions timeFrame gain l c
      = c + l.countP (fun E => decide (E.Start ≤ timeFrame.Start ∧ timeFrame.Start ≤ E.Stop
          ∧ gain - E.Gain < 6)) := by
  induction l generalizing c with
  | nil => simp [countCollisions]
  | cons e rest ih =>
    by_cases h : e.Start ≤ timeFrame.Start ∧ timeFrame.Start ≤ e.Stop ∧ gain - e.Gain < 6
    · have h2 : timeFrame.Start ≥ e.Start ∧ timeFrame.Start ≤ e.Stop
          ∧ gain - e.Gain < CollisionDecodeableLevel := h
      simp only [countCollisions, if_pos h2, ih]
      rw [List.countP_cons_of_pos]
      · omega
      · simpa using h
    · have h2 : ¬ (timeFrame.Start ≥ e.Start ∧ timeFrame.Start ≤ e.Stop
          ∧ gain - e.Gain < CollisionDecodeableLevel) := h
      simp only [countCollisions, if_neg h2, ih]
      rw [List.countP_cons_of_neg]
      simpa using h

/-- C1: a delivery task for window `W` with captured gain `g` that finds its
receiver `R` computes `collisions` as one for `W.Start ≤ R.sendingUntil` plus the
number of entries `E` of `R.receiving` with `E.Start ≤ W.Start ≤ E.Stop` and
`g - E.Gain < 6`; if `ignoreCollisions` is set or `collisions ≤ 1` its effects are
one call of `onReceived` followed by one `NodeReceived` event, both carrying the
same packet, otherwise they are a single `NodeCollision` event and no call of
`onReceived`. -/
theorem deliver_effects (emu : Emulator α) (wallNow : Int) (id : String) (sleep g : α)
    (W : received α) (msg : List Nat) (packet : PacketConfig α) (R : Node α)
    (hR : mapGet emu.nodes id = some R) :
    (emu.deliver wallNow id sleep g W msg packet).effects
      = if emu.ignoreCollisions = true
            ∨ (if W.Start ≤ R.sendingUntil then 1 else 0)
                + R.receiving.countP (fun E => decide (E.Start ≤ W.Start ∧ W.Start ≤ E.Stop
                    ∧ g - E.Gain < 6)) ≤ 1 then
          [Effect.onReceived R
              { RSSI := goInt g, SNR := goInt g + R.SNR + emu.snrOffset, Data := msg,
                RecvTime := emu.getTime wallNow / 1000, Airtime := sleep },
            Effect.emit Event.NodeReceived R
              (EventData.rx
                { RSSI := goInt g, SNR := goInt g + R.SNR + emu.snrOffset, Data := msg,
                  RecvTime := emu.getTime wallNow / 1000, Airtime := sleep })]
        else [Effect.emit Event.NodeCollision R (EventData.config packet)] := by
  simp only [Emulator.deliver, hR, countCollisions_eq, emitEvent, Nat.zero_add]
  split_ifs <;> rfl

/-- C1, example: a receiver holding two windows that start together, the second
one 1 dB weaker; the delivery of the first is a collision. -/
theorem deliver_effects_witness :
    mapGet (hearingEmulator [⟨1005, 1040, -100⟩, ⟨1005, 1040, -101⟩] 0 : Emulator ℚ).nodes "2"
      = some (hearingNode [⟨1005, 1040, -100⟩, ⟨1005, 1040, -101⟩] 0)
    ∧ ((hearingEmulator [⟨1005, 1040, -100⟩, ⟨1005, 1040, -101⟩] 0 : Emulator ℚ).deliver
          1041 "2" 35 (-100) ⟨1005, 1040, -100⟩ [72, 73] PacketConfigDefault).effects
        = [Effect.emit Event.NodeCollision
            (hearingNode [⟨1005, 1040, -100⟩, ⟨1005, 1040, -101⟩] 0)
            (EventData.config PacketConfigDefault)] := by
  have h : mapGet
      (hearingEmulator [⟨1005, 1040, -100⟩, ⟨1005, 1040, -101⟩] 0 : Emulator ℚ).nodes "2"
      = some (hearingNode [⟨1005, 1040, -100⟩, ⟨1005, 1040, -101⟩] 0) := rfl
  refine ⟨h, (deliver_effects _ _ _ _ _ _ _ _ _ h).trans ?_⟩
  norm_num [hearingEmulator, hearingNode, New, testNode, List.countP_cons]

/-- The tags a delivery closure emits, by the collision count. -/
theorem emitted_deliver (emu : Emulator α) (wallNow : Int) (id : String) (sleep g : α)
    (W : received α) (msg : List Nat) (packet : PacketConfig α) (R : Node α)
    (hR : mapGet emu.nodes id = some R) :
    emitted (emu.deliver wallNow id sleep g W msg packet).effects
      = if emu.ignoreCollisions = true
            ∨ (if W.Start ≤ R.sendingUntil then 1 else 0)
                + R.receiving.countP (fun E => decide (E.Start ≤ W.Start ∧ W.Start ≤ E.Stop
                    ∧ g - E.Gain < 6)) ≤ 1 then
          [Event.NodeReceived]
        else [Event.NodeCollision] := by
  simp only [Emulator.deliver, hR, countCollisions_eq, emitEvent, Nat.zero_add]
  split_ifs <;> rfl

/-- An entry that occurs once and satisfies `p` is counted apart from the rest of
the list, and the rest is the list without that entry. -/
theorem countP_of_count_one (p : received α → Bool) (W : received α) (l : List (received α))
    (hW : l.count W = 1) (hp : p W = true) :
    l.countP p = 1 + (l.erase W).countP p
    ∧ (∀ E, E ∈ l.erase W ↔ (E ∈ l ∧ E ≠ W)) := by
  have hmem : W ∈ l := List.count_pos_iff.mp (by omega)
  have hperm := List.perm_cons_erase hmem
  refine ⟨?_, ?_⟩
  · rw [hperm.countP_eq, List.countP_cons_of_pos _ _ hp]; omega
  · intro E
    by_cases hE : E = W
    · subst hE
      have h0 : (l.erase E).count E = 0 := by rw [List.count_erase_self]; omega
      have h1 : E ∉ l.erase E := List.count_eq_zero.mp h0
      simp [h1]
    · simp [List.mem_erase_of_ne hE, hE]

/-- Two different entries of a list that both satisfy `p` make `countP p` at least
two. -/
theorem two_le_countP (p : received α → Bool) (A B : received α) (l : List (received α))
    (rest : List (received α)) (hl : l.Perm (A :: B :: rest)) (hA : p A = true)
    (hB : p B = true) : 2 ≤ l.countP p := by
  rw [hl.countP_eq, List.countP_cons_of_pos _ _ hA, List.countP_cons_of_pos _ _ hB]
  omega

/-- The core of the collision rule: with collision detection on and the own window
once in the list, the delivery is received exactly when the receiver is not
sending at the start of the window and no other entry that contains that start
is within 6 dB; otherwise it is a collision. -/
theorem resolves_iff_clear (emu : Emulator α) (wallNow : Int) (id : String) (sleep : α)
    (W : received α) (msg : List Nat) (packet : PacketConfig α) (R : Node α)
    (hR : mapGet emu.nodes id = some R) (hcd : emu.ignoreCollisions = false)
    (hW : R.receiving.count W = 1) (hWs : W.Start ≤ W.Stop) :
    (emu.resolves wallNow id sleep W msg packet = [Event.NodeReceived]
      ↔ (R.sendingUntil < W.Start
          ∧ ∀ E ∈ R.receiving, E ≠ W → E.Start ≤ W.Start → W.Start ≤ E.Stop
              → W.Gain - E.Gain ≥ 6))
    ∧ (¬ (R.sendingUntil < W.Start
          ∧ ∀ E ∈ R.receiving, E ≠ W → E.Start ≤ W.Start → W.Start ≤ E.Stop
              → W.Gain - E.Gain ≥ 6)
        → emu.resolves wallNow id sleep W msg packet = [Event.NodeCollision]) := by
  have hp : (fun E : received α => decide (E.Start ≤ W.Start ∧ W.Start ≤ E.Stop
      ∧ W.Gain - E.Gain < 6)) W = true := by simp [hWs]
  obtain ⟨hc, hm⟩ := countP_of_count_one (fun E : received α => decide (E.Start ≤ W.Start
      ∧ W.Start ≤ E.Stop ∧ W.Gain - E.Gain < 6)) W R.receiving hW hp
  have hkey : (emu.ignoreCollisions = true
      ∨ (if W.Start ≤ R.sendingUntil then 1 else 0)
          + R.receiving.countP (fun E => decide (E.Start ≤ W.Start ∧ W.Start ≤ E.Stop
              ∧ W.Gain - E.Gain < 6)) ≤ 1)
      ↔ (R.sendingUntil < W.Start
          ∧ ∀ E ∈ R.receiving, E ≠ W → E.Start ≤ W.Start → W.Start ≤ E.Stop
              → W.Gain - E.Gain ≥ 6) := by
    rw [hc]
    constructor
    · rintro (h1 | h1)
      · simp [hcd] at h1
      · have hs : ¬ W.Start ≤ R.sendingUntil := by
          intro hs; rw [if_pos hs] at h1; omega
        have hz : (R.receiving.erase W).countP (fun E => decide (E.Start ≤ W.Start
            ∧ W.Start ≤ E.Stop ∧ W.Gain - E.Gain < 6)) = 0 := by
          rw [if_neg hs] at h1; omega
        refine ⟨lt_of_not_ge hs, ?_⟩
        intro E hE hne h2 h3
        rw [List.countP_eq_zero] at hz
        have h4 := hz E ((hm E).mpr ⟨hE, hne⟩)
        simp only [decide_eq_true_eq, not_and, not_lt] at h4
        exact h4 h2 h3
    · rintro ⟨hs, hall⟩
      have hz : (R.receiving.erase W).countP (fun E => decide (E.Start ≤ W.Start
          ∧ W.Start ≤ E.Stop ∧ W.Gain - E.Gain < 6)) = 0 := by
        rw [List.countP_eq_zero]
        intro E hE
        obtain ⟨hE1, hE2⟩ := (hm E).mp hE
        simp only [decide_eq_true_eq, not_and, not_lt]
        exact hall E hE1 hE2
      right
      rw [if_neg (not_le.mpr hs), hz]
  rw [Emulator.resolves, emitted_deliver emu wallNow id sleep W.Gain W msg packet R hR]
  by_cases hclear : (R.sendingUntil < W.Start
          ∧ ∀ E ∈ R.receiving, E ≠ W → E.Start ≤ W.Start → W.Start ≤ E.Stop
              → W.Gain - E.Gain ≥ 6)
  · rw [if_pos (hkey.mpr hclear)]
    exact ⟨⟨fun _ => hclear, fun _ => rfl⟩, fun h => absurd hclear h⟩
  · rw [if_neg (fun h => hclear (hkey.mp h))]
    exact ⟨⟨fun h => absurd h (by simp), fun h => absurd h hclear⟩, fun _ => rfl⟩

/-- With collision detection on, a delivery whose window start lies inside the
window of another entry that is less than 6 dB weaker is a collision. -/
theorem resolves_collision_of_hit (emu : Emulator α) (wallNow : Int) (id : String) (sleep : α)
    (A B : received α) (rest : List (received α)) (msg : List Nat) (packet : PacketConfig α)
    (R : Node α) (hR : mapGet emu.nodes id = some R) (hcd : emu.ignoreCollisions = false)
    (hl : R.receiving.Perm (A :: B :: rest)) (hBs : B.Start ≤ B.Stop)
    (h1 : A.Start ≤ B.Start) (h2 : B.Start ≤ A.Stop) (hg : B.Gain - A.Gain < 6) :
    emu.resolves wallNow id sleep B msg packet = [Event.NodeCollision] := by
  have h := two_le_countP (fun E : received α => decide (E.Start ≤ B.Start ∧ B.Start ≤ E.Stop
      ∧ B.Gain - E.Gain < 6)) A B R.receiving rest hl (by simp [h1, h2, hg]) (by simp [hBs])
  rw [Emulator.resolves, emitted_deliver emu wallNow id sleep B.Gain B msg packet R hR,
    if_neg]
  rintro (h3 | h3)
  · simp [hcd] at h3
  · omega

/-- Two different members of a list can be moved to its front. -/
theorem perm_of_two_mem (A B : received α) (l : List (received α)) (hA : A ∈ l) (hB : B ∈ l)
    (hne : B ≠ A) : l.Perm (A :: B :: (l.erase A).erase B) := by
  have h1 := List.perm_cons_erase hA
  have h2 : B ∈ l.erase A := (List.mem_erase_of_ne hne).mpr hB
  exact h1.trans ((List.perm_cons_erase h2).cons A)

/-- The collision rule on finite gains: for a receiver `R` with collision detection
on whose list holds the own window `W` once, `W.Stop ≥ W.Start`, all gains being
finite: the delivery of `W` is `NodeReceived` if and only if
`R.sendingUntil < W.Start` and every other entry that contains `W.Start` is at
least 6 dB weaker, and `NodeCollision` otherwise.  Consequently: two windows of
comparable strength that start together both collide; a receiver that is
sending at `W.Start` gets a collision; a window at least 6 dB above every
overlapping one is received; two windows separated in time are both received.
The own window counts because its gain minus itself is 0; for the gain `+Inf`
that difference is NaN and the own window does not count (`countCollisionsF`). -/
theorem delivery_received_iff (emu : Emulator α) (wallNow : Int) (id : String) (sleep : α)
    (W : received α) (msg : List Nat) (packet : PacketConfig α) (R : Node α)
    (hR : mapGet emu.nodes id = some R) (hcd : emu.ignoreCollisions = false)
    (hW : R.receiving.count W = 1) (hWs : W.Start ≤ W.Stop) :
    (emu.resolves wallNow id sleep W msg packet = [Event.NodeReceived]
      ↔ (R.sendingUntil < W.Start
          ∧ ∀ E ∈ R.receiving, E ≠ W → E.Start ≤ W.Start → W.Start ≤ E.Stop
              → W.Gain - E.Gain ≥ 6))
    ∧ (¬ (R.sendingUntil < W.Start
          ∧ ∀ E ∈ R.receiving, E ≠ W → E.Start ≤ W.Start → W.Start ≤ E.Stop
              → W.Gain - E.Gain ≥ 6)
        → emu.resolves wallNow id sleep W msg packet = [Event.NodeCollision])
    ∧ (∀ V ∈ R.receiving, V ≠ W → V.Start = W.Start → W.Start ≤ V.Stop
        → W.Gain - V.Gain < 6 → V.Gain - W.Gain < 6
        → emu.resolves wallNow id sleep W msg packet = [Event.NodeCollision]
          ∧ emu.resolves wallNow id sleep V msg packet = [Event.NodeCollision])
    ∧ (W.Start ≤ R.sendingUntil
        → emu.resolves wallNow id sleep W msg packet = [Event.NodeCollision])
    ∧ (R.sendingUntil < W.Start
        → (∀ E ∈ R.receiving, E ≠ W → E.Start ≤ W.Start → W.Start ≤ E.Stop
            → W.Gain - E.Gain ≥ 6)
        → emu.resolves wallNow id sleep W msg packet = [Event.NodeReceived])
    ∧ (∀ V, R.receiving.Perm [W, V] → V.Start ≤ V.Stop
        → (W.Stop < V.Start ∨ V.Stop < W.Start)
        → R.sendingUntil < W.Start → R.sendingUntil < V.Start
        → emu.resolves wallNow id sleep W msg packet = [Event.NodeReceived]
          ∧ emu.resolves wallNow id sleep V msg packet = [Event.NodeReceived]) := by
  obtain ⟨hiff, hcol⟩ := resolves_iff_clear emu wallNow id sleep W msg packet R hR hcd hW hWs
  have hmem : W ∈ R.receiving := List.count_pos_iff.mp (by omega)
  refine ⟨hiff, hcol, ?_, ?_, ?_, ?_⟩
  · intro V hV hne hst hstop hg1 hg2
    constructor
    · apply hcol
      rintro ⟨-, hall⟩
      have := hall V hV hne (le_of_eq hst) hstop
      exact absurd hg1 (not_lt.mpr this)
    · exact resolves_collision_of_hit emu wallNow id sleep W V _ msg packet R hR hcd
        (perm_of_two_mem W V R.receiving hmem hV hne) (by omega) (by omega) (by omega) hg2
  · intro hs
    apply hcol
    rintro ⟨h, -⟩
    omega
  · intro hs hall
    exact hiff.mpr ⟨hs, hall⟩
  · intro V hperm hVs hsep hsW hsV
    have hne : W ≠ V := by
      rintro rfl
      omega
    have hcV : R.receiving.count V = 1 := by
      rw [hperm.count_eq]
      simp [List.count_cons, hne]
    obtain ⟨hiffV, -⟩ := resolves_iff_clear emu wallNow id sleep V msg packet R hR hcd hcV hVs
    constructor
    · refine hiff.mpr ⟨hsW, ?_⟩
      intro E hE hEne h1 h2
      have hE2 : E ∈ [W, V] := hperm.mem_iff.mp hE
      simp only [List.mem_cons, List.mem_singleton, List.not_mem_nil, or_false] at hE2
      rcases hE2 with rfl | rfl
      · exact absurd rfl hEne
      · omega
    · refine hiffV.mpr ⟨hsV, ?_⟩
      intro E hE hEne h1 h2
      have hE2 : E ∈ [W, V] := hperm.mem_iff.mp hE
      simp only [List.mem_cons, List.mem_singleton, List.not_mem_nil, or_false] at hE2
      rcases hE2 with rfl | rfl
      · omega
      · exact absurd rfl hEne

/-- An example of the collision rule on finite gains: node "2" holds two windows
that start together, 1 dB apart; the delivery of the stronger one is a
collision. -/
theorem delivery_received_iff_witness :
    mapGet (hearingEmulator [⟨1005, 1040, -100⟩, ⟨1005, 1040, -101⟩] 0 : Emulator ℚ).nodes "2"
      = some (hearingNode [⟨1005, 1040, -100⟩, ⟨1005, 1040, -101⟩] 0)
    ∧ (hearingEmulator [⟨1005, 1040, -100⟩, ⟨1005, 1040, -101⟩] 0 : Emulator ℚ).ignoreCollisions
        = false
    ∧ (hearingNode [⟨1005, 1040, -100⟩, ⟨1005, 1040, -101⟩] 0 : Node ℚ).receiving.count
        ⟨1005, 1040, -100⟩ = 1
    ∧ (1005 : Int) ≤ 1040
    ∧ (hearingEmulator [⟨1005, 1040, -100⟩, ⟨1005, 1040, -101⟩] 0 : Emulator ℚ).resolves
        1041 "2" 35 ⟨1005, 1040, -100⟩ [72, 73] PacketConfigDefault = [Event.NodeCollision] := by
  have h1 : mapGet
      (hearingEmulator [⟨1005, 1040, -100⟩, ⟨1005, 1040, -101⟩] 0 : Emulator ℚ).nodes "2"
      = some (hearingNode [⟨1005, 1040, -100⟩, ⟨1005, 1040, -101⟩] 0) := rfl
  have h2 : (hearingEmulator [⟨1005, 1040, -100⟩, ⟨1005, 1040, -101⟩] 0 :
      Emulator ℚ).ignoreCollisions = false := rfl
  have h3 : (hearingNode [⟨1005, 1040, -100⟩, ⟨1005, 1040, -101⟩] 0 :
      Node ℚ).receiving.count ⟨1005, 1040, -100⟩ = 1 := by
    norm_num [hearingNode, List.count_cons]
  have h4 : (1005 : Int) ≤ 1040 := by decide
  refine ⟨h1, h2, h3, h4, ?_⟩
  exact (delivery_received_iff _ 1041 "2" 35 ⟨1005, 1040, -100⟩ [72, 73] PacketConfigDefault _
    h1 h2 h3 h4).2.2.1 ⟨1005, 1040, -101⟩ (by simp [hearingNode]) (by norm_num) rfl
      (by decide) (by norm_num) (by norm_num) |>.1

/-- The counting loop in float64 arithmetic on windows of finite gain is the
counting loop of the field. -/
theorem countCollisionsF_fin (W : received α) (g : α) (l : List (received α)) (c : Nat) :
    countCollisionsF W.toF (F64.fin g) (l.map received.toF) c = countCollisions W g l c := by
  induction l generalizing c with
  | nil => rfl
  | cons e rest ih =>
    simp only [List.map_cons, countCollisionsF, countCollisions, received.toF, F64.sub, F64.neg,
      F64.add, F64.lt, decide_eq_true_eq, ← sub_eq_add_neg]
    split_ifs
    · exact ih _
    · exact ih _

/-- The delivery closure in float64 arithmetic on a receiver whose windows have
finite gains, with a finite captured gain, emits the event of the closure of
the field. -/
theorem deliverF_fin (emu : Emulator α) (wallNow : Int) (id : String) (sleep g : α)
    (W : received α) (msg : List Nat) (packet : PacketConfig α) (R : Node α)
    (hR : mapGet emu.nodes id = some R) :
    emitted (emu.deliver wallNow id sleep g W msg packet).effects
      = [deliverF emu.ignoreCollisions R.sendingUntil (R.receiving.map received.toF)
          (F64.fin g) W.toF] := by
  rw [emitted_deliver emu wallNow id sleep g W msg packet R hR]
  simp only [deliverF, countCollisionsF_fin, countCollisions_eq, Nat.zero_add]
  have hS : (W.toF).Start = W.Start := rfl
  rw [hS]
  split_ifs <;> rfl

/-- The gain at a receiver in float64 arithmetic is the gain of the field when no
operation leaves the finite values: the sum of the three squares is not
negative, the distance in meters over the reference distance, the reference
distance and the frequency are positive. -/
theorem reachedGainF_fin (m : GoMath α) (emu : Emulator α) (sender receiver : Node α)
    (hsq : 0 ≤ m.Pow (sender.X - receiver.X) 2 + m.Pow (sender.Y - receiver.Y) 2
      + m.Pow (sender.Z - receiver.Z) 2)
    (hd : 0 < sender.DistanceTo m receiver * 1000 / emu.refDist)
    (hr : 0 < emu.refDist) (hf : 0 < emu.freq) :
    emu.reachedGainF m sender receiver = F64.fin (emu.reachedGain m sender receiver) := by
  have hr0 : ¬ emu.refDist = 0 := ne_of_gt hr
  have hd2 : 0 < m.Sqrt (m.Pow (sender.X - receiver.X) 2 + m.Pow (sender.Y - receiver.Y) 2
      + m.Pow (sender.Z - receiver.Z) 2) * 1000 / emu.refDist := hd
  simp only [Emulator.reachedGainF, Emulator.reachedGain, Node.PathLossF, Node.PathLoss,
    Node.DistanceToF, Node.DistanceTo, LogDistanceF, LogDistance, FSPLF, FSPL, F64.Sqrt,
    F64.mul, F64.div, F64.Log10, F64.add, F64.sub, F64.neg, if_pos hsq, if_neg hr0, if_pos hd2,
    if_pos hr, if_pos hf, ← sub_eq_add_neg]

/-- C2, failing input: nodes "1" and "2" of the tests at one position (x = 1, y = 1,
z = 0), frequency 868, path loss exponent 2, reference distance 1, the real
functions.  The gain of node "1" at node "2" is `+Inf` (the distance is 0 and
`Log10(0) = -Inf`), which is above the sensitivity of node "2", so a
transmission of node "1" is recorded at node "2" with the gain `+Inf`.  Both
nodes send two bytes at the clock reading 1005: node "2" is sending until 1028
and holds the window [1005, 1028] of node "1".  The delivery of that window at
node "2" is `NodeReceived` although node "2" is sending at its start: the test
of the own window, `Inf - Inf < 6`, is false.  With a finite gain in the same
state the delivery is `NodeCollision`. -/
theorem sending_receiver_receives :
    (New 868 2 1 10 PacketConfigDefault 1000 : Emulator ℝ).reachedGainF
        ⟨Real.sqrt, Real.logb 10, Real.rpow⟩ (testNode "1" 1 40) (testNode "2" 1 40)
      = F64.inf
    ∧ F64.lt (F64.fin (testNode "2" 1 40 : Node ℝ).RXSens) F64.inf = true
    ∧ (1005 : Int) ≤ 1028
    ∧ deliverF false 1028 [(⟨1005, 1028, F64.inf⟩ : receivedF ℝ)] F64.inf ⟨1005, 1028, F64.inf⟩
      = Event.NodeReceived
    ∧ deliverF false 1028 [(⟨1005, 1028, F64.fin (-100)⟩ : receivedF ℝ)] (F64.fin (-100))
        ⟨1005, 1028, F64.fin (-100)⟩
      = Event.NodeCollision := by
  refine ⟨?_, rfl, by decide, ?_, ?_⟩
  · have h0 : Real.rpow 0 2 = 0 := Real.zero_rpow (by norm_num)
    have hd : (testNode "1" 1 40 : Node ℝ).DistanceToF ⟨Real.sqrt, Real.logb 10, Real.rpow⟩
        (testNode "2" 1 40) = F64.fin 0 := by
      simp only [Node.DistanceToF, testNode, sub_self, h0, add_zero, F64.Sqrt, le_refl, if_true,
        Real.sqrt_zero]
    simp only [Emulator.reachedGainF, Node.PathLossF, hd, New, LogDistanceF, FSPLF, F64.mul,
      F64.div, F64.Log10, F64.add, F64.sub, F64.neg, F64.scaleInf]
    norm_num
  · simp [deliverF, countCollisionsF, F64.sub, F64.neg, F64.add, F64.lt]
  · simp [deliverF, countCollisionsF, F64.sub, F64.neg, F64.add, F64.lt,
      CollisionDecodeableLevel]

/-- C3, counterexample: node "2" (idle, collision detection on) holds the windows
[1000, 1040] and [1020, 1060] of equal gain, which overlap; the delivery of the
first is `NodeReceived`, only the delivery of the second is `NodeCollision`. -/
theorem overlap_not_both_collide :
    ((1000 : Int) ≤ 1060 ∧ (1020 : Int) ≤ 1040)
    ∧ |(-100 : ℚ) - (-100)| < 6
    ∧ (hearingEmulator [⟨1000, 1040, -100⟩, ⟨1020, 1060, -100⟩] 0 : Emulator ℚ).resolves
        1041 "2" 40 ⟨1000, 1040, -100⟩ [72, 73] PacketConfigDefault = [Event.NodeReceived]
    ∧ (hearingEmulator [⟨1000, 1040, -100⟩, ⟨1020, 1060, -100⟩] 0 : Emulator ℚ).resolves
        1061 "2" 40 ⟨1020, 1060, -100⟩ [72, 73] PacketConfigDefault = [Event.NodeCollision] := by
  have h : mapGet
      (hearingEmulator [⟨1000, 1040, -100⟩, ⟨1020, 1060, -100⟩] 0 : Emulator ℚ).nodes "2"
      = some (hearingNode [⟨1000, 1040, -100⟩, ⟨1020, 1060, -100⟩] 0) := rfl
  refine ⟨by decide, by norm_num, ?_, ?_⟩
  · rw [Emulator.resolves, emitted_deliver _ _ _ _ _ _ _ _ _ h]
    norm_num [hearingEmulator, hearingNode, New, testNode, List.countP_cons]
  · rw [Emulator.resolves, emitted_deliver _ _ _ _ _ _ _ _ _ h]
    norm_num [hearingEmulator, hearingNode, New, testNode, List.countP_cons]

/-- With collision detection on, a delivery whose receiver is not sending at the
start of the window is received when no entry but its own window (if that)
counts against it; an entry that starts after the window does not count. -/
theorem resolves_received_of_later (emu : Emulator α) (wallNow : Int) (id : String)
    (sleep : α) (A B : received α) (rest : List (received α)) (msg : List Nat)
    (packet : PacketConfig α) (R : Node α) (hR : mapGet emu.nodes id = some R)
    (hl : R.receiving.Perm (A :: B :: rest)) (hlt : A.Start < B.Start)
    (hs : R.sendingUntil < A.Start)
    (hrest : ∀ E ∈ rest, ¬ (E.Start ≤ A.Start ∧ A.Start ≤ E.Stop ∧ A.Gain - E.Gain < 6)) :
    emu.resolves wallNow id sleep A msg packet = [Event.NodeReceived] := by
  have hB : ¬ (B.Start ≤ A.Start ∧ A.Start ≤ B.Stop ∧ A.Gain - B.Gain < 6) := by
    rintro ⟨h, -⟩
    omega
  have hz : rest.countP (fun E => decide (E.Start ≤ A.Start ∧ A.Start ≤ E.Stop
      ∧ A.Gain - E.Gain < 6)) = 0 := by
    rw [List.countP_eq_zero]
    intro E hE
    simpa using hrest E hE
  have hc : R.receiving.countP (fun E => decide (E.Start ≤ A.Start ∧ A.Start ≤ E.Stop
      ∧ A.Gain - E.Gain < 6)) ≤ 1 := by
    rw [hl.countP_eq, List.countP_cons, List.countP_cons_of_neg _ _ (by simpa using hB), hz]
    split_ifs <;> omega
  rw [Emulator.resolves, emitted_deliver emu wallNow id sleep A.Gain A msg packet R hR,
    if_pos]
  right
  rw [if_neg (not_le.mpr hs)]
  omega

/-- C3, amended: within one receiver with collision detection on, for two recorded
transmissions `A` and `B` whose gains differ by less than 6 dB (both gains are
finite then), a delivery is `NodeCollision` whenever the start of its window
lies inside the window of the other one.  So of two overlapping transmissions
the one that starts later collides, and both collide when they start at the
same instant.  The transmission that started earlier is not turned into a
collision by the later one: when the receiver is not sending at its start and
no third recorded transmission counts against it, its delivery is
`NodeReceived`. -/
theorem later_start_collides (emu : Emulator α) (wallNow wallNow2 : Int) (id : String)
    (sleep sleep2 : α) (A B : received α) (rest : List (received α)) (msg msg2 : List Nat)
    (packet packet2 : PacketConfig α) (R : Node α)
    (hR : mapGet emu.nodes id = some R) (hcd : emu.ignoreCollisions = false)
    (hl : R.receiving.Perm (A :: B :: rest))
    (hAs : A.Start ≤ A.Stop) (hBs : B.Start ≤ B.Stop)
    (hg : |A.Gain - B.Gain| < 6) :
    (A.Start ≤ B.Start → B.Start ≤ A.Stop
      → emu.resolves wallNow2 id sleep2 B msg2 packet2 = [Event.NodeCollision])
    ∧ (B.Start ≤ A.Start → A.Start ≤ B.Stop
      → emu.resolves wallNow id sleep A msg packet = [Event.NodeCollision])
    ∧ (A.Start ≤ B.Stop → B.Start ≤ A.Stop
      → emu.resolves wallNow id sleep A msg packet = [Event.NodeCollision]
        ∨ emu.resolves wallNow2 id sleep2 B msg2 packet2 = [Event.NodeCollision])
    ∧ (A.Start = B.Start
      → emu.resolves wallNow id sleep A msg packet = [Event.NodeCollision]
        ∧ emu.resolves wallNow2 id sleep2 B msg2 packet2 = [Event.NodeCollision])
    ∧ (A.Start < B.Start → R.sendingUntil < A.Start
      → (∀ E ∈ rest, ¬ (E.Start ≤ A.Start ∧ A.Start ≤ E.Stop ∧ A.Gain - E.Gain < 6))
      → emu.resolves wallNow id sleep A msg packet = [Event.NodeReceived])
    ∧ (B.Start < A.Start → R.sendingUntil < B.Start
      → (∀ E ∈ rest, ¬ (E.Start ≤ B.Start ∧ B.Start ≤ E.Stop ∧ B.Gain - E.Gain < 6))
      → emu.resolves wallNow2 id sleep2 B msg2 packet2 = [Event.NodeReceived]) := by
  obtain ⟨hg1, hg2⟩ := abs_lt.mp hg
  have hB : A.Start ≤ B.Start → B.Start ≤ A.Stop
      → emu.resolves wallNow2 id sleep2 B msg2 packet2 = [Event.NodeCollision] :=
    fun h1 h2 => resolves_collision_of_hit emu wallNow2 id sleep2 A B rest msg2 packet2 R hR hcd
      hl hBs h1 h2 (by linarith)
  have hA : B.Start ≤ A.Start → A.Start ≤ B.Stop
      → emu.resolves wallNow id sleep A msg packet = [Event.NodeCollision] :=
    fun h1 h2 => resolves_collision_of_hit emu wallNow id sleep B A rest msg packet R hR hcd
      (hl.trans (List.Perm.swap B A rest)) hAs h1 h2 (by linarith)
  refine ⟨hB, hA, ?_, ?_, ?_, ?_⟩
  · intro h1 h2
    rcases le_total A.Start B.Start with h | h
    · exact Or.inr (hB h h2)
    · exact Or.inl (hA h h1)
  · intro h
    exact ⟨hA (by omega) (by omega), hB (by omega) (by omega)⟩
  · intro hlt hs hrest
    exact resolves_received_of_later emu wallNow id sleep A B rest msg packet R hR hl hlt hs
      hrest
  · intro hlt hs hrest
    exact resolves_received_of_later emu wallNow2 id sleep2 B A rest msg2 packet2 R hR
      (hl.trans (List.Perm.swap B A rest)) hlt hs hrest

/-- C3, example: the two overlapping windows of the counterexample; the delivery
of the later one is a collision. -/
theorem later_start_collides_witness :
    mapGet (hearingEmulator [⟨1000, 1040, -100⟩, ⟨1020, 1060, -100⟩] 0 : Emulator ℚ).nodes "2"
      = some (hearingNode [⟨1000, 1040, -100⟩, ⟨1020, 1060, -100⟩] 0)
    ∧ (hearingEmulator [⟨1000, 1040, -100⟩, ⟨1020, 1060, -100⟩] 0 : Emulator ℚ).ignoreCollisions
        = false
    ∧ (hearingNode [⟨1000, 1040, -100⟩, ⟨1020, 1060, -100⟩] 0 : Node ℚ).receiving.Perm
        [⟨1000, 1040, -100⟩, ⟨1020, 1060, -100⟩]
    ∧ (1000 : Int) ≤ 1040 ∧ (1020 : Int) ≤ 1060
    ∧ |(-100 : ℚ) - (-100)| < 6
    ∧ (hearingEmulator [⟨1000, 1040, -100⟩, ⟨1020, 1060, -100⟩] 0 : Emulator ℚ).resolves
        1061 "2" 40 ⟨1020, 1060, -100⟩ [72, 73] PacketConfigDefault = [Event.NodeCollision] := by
  have h1 : mapGet
      (hearingEmulator [⟨1000, 1040, -100⟩, ⟨1020, 1060, -100⟩] 0 : Emulator ℚ).nodes "2"
      = some (hearingNode [⟨1000, 1040, -100⟩, ⟨1020, 1060, -100⟩] 0) := rfl
  have h6 : |(-100 : ℚ) - (-100)| < 6 := by norm_num
  refine ⟨h1, rfl, List.Perm.refl _, by decide, by decide, h6, ?_⟩
  exact (later_start_collides _ 1041 1061 "2" 40 40 ⟨1000, 1040, -100⟩ ⟨1020, 1060, -100⟩ []
    [72, 73] [72, 73] PacketConfigDefault PacketConfigDefault _ h1 rfl (List.Perm.refl _)
    (by decide) (by decide) h6).1 (by decide) (by decide)

/-! ## SendMessage -/

/-- Reading a key just written gives the written node. -/
theorem mapGet_mapSet_self (l : List (String × Node α)) (id : String) (n : Node α) :
    mapGet (mapSet l id n) id = some n := by
  induction l with
  | nil => simp [mapSet, mapGet]
  | cons e rest ih =>
    obtain ⟨k, v⟩ := e
    by_cases h : k = id
    · simp [mapSet, mapGet, h]
    · simp [mapSet, mapGet, h, ih]

/-- Writing a key leaves the other keys as they were. -/
theorem mapGet_mapSet_ne (l : List (String × Node α)) (id : String) (n : Node α) (k : String)
    (hk : k ≠ id) : mapGet (mapSet l id n) k = mapGet l k := by
  induction l with
  | nil => simp [mapSet, mapGet, Ne.symm hk]
  | cons e rest ih =>
    obtain ⟨k2, v⟩ := e
    by_cases h : k2 = id
    · subst h
      simp [mapSet, mapGet, Ne.symm hk]
    · by_cases h2 : k2 = k
      · subst h2
        simp [mapSet, mapGet, h]
      · simp [mapSet, mapGet, h, h2, ih]

/-- Writing an existing key keeps the key list. -/
theorem keys_mapSet (l : List (String × Node α)) (id : String) (n x : Node α)
    (h : mapGet l id = some x) : (mapSet l id n).map Prod.fst = l.map Prod.fst := by
  induction l with
  | nil => simp [mapGet] at h
  | cons e rest ih =>
    obtain ⟨k, v⟩ := e
    by_cases hk : k = id
    · simp [mapSet, hk]
    · simp only [mapGet, if_neg hk] at h
      simp [mapSet, hk, ih h]

/-- A key reads as absent exactly when it is not in the key list. -/
theorem mapGet_eq_none_iff (l : List (String × Node α)) (k : String) :
    mapGet l k = none ↔ k ∉ l.map Prod.fst := by
  induction l with
  | nil => simp [mapGet]
  | cons e rest ih =>
    obtain ⟨k2, v⟩ := e
    by_cases h : k2 = k
    · simp [mapGet, h]
    · simp [mapGet, h, ih, Ne.symm h]

/-- The receiver loop appends the window to the online, in-range nodes other than
the sender and leaves every other node as it was. -/
theorem mapGet_receiverLoop (m : GoMath α) (emu : Emulator α) (id : String) (sender : Node α)
    (packet : PacketConfig α) (start stop : Int) (msg : List Nat)
    (l : List (String × Node α)) (k : String) :
    mapGet (receiverLoop m emu id sender packet start stop msg l).1 k
      = (mapGet l k).map (fun R =>
          if k ≠ id ∧ R.Online = true ∧ emu.reachedGain m sender R > R.RXSens then
            { R with receiving := R.receiving ++ [⟨start, stop, emu.reachedGain m sender R⟩] }
          else R) := by
  induction l with
  | nil => simp [receiverLoop, mapGet]
  | cons e rest ih =>
    obtain ⟨k2, R⟩ := e
    by_cases hk : k2 = k
    · subst hk
      simp only [receiverLoop, mapGet]
      by_cases h1 : k2 = id ∨ R.Online = false
      · have h2 : ¬ (k2 ≠ id ∧ R.Online = true ∧ emu.reachedGain m sender R > R.RXSens) := by
          rintro ⟨h3, h4, -⟩
          rcases h1 with h1 | h1
          · exact h3 h1
          · rw [h4] at h1; exact Bool.noConfusion h1
        simp [h1, h2, mapGet]
      · have h3 : k2 ≠ id ∧ R.Online = true := by
          constructor
          · exact fun h => h1 (Or.inl h)
          · cases hO : R.Online
            · exact absurd (Or.inr hO) h1
            · rfl
        by_cases h4 : emu.reachedGain m sender R > R.RXSens
        · simp [h1, h3, h4, mapGet]
        · simp [h1, h3, h4, mapGet]
    · simp only [receiverLoop, mapGet]
      split_ifs <;> simp_all [mapGet]

/-- The receiver loop keeps the key list. -/
theorem keys_receiverLoop (m : GoMath α) (emu : Emulator α) (id : String) (sender : Node α)
    (packet : PacketConfig α) (start stop : Int) (msg : List Nat)
    (l : List (String × Node α)) :
    (receiverLoop m emu id sender packet start stop msg l).1.map Prod.fst = l.map Prod.fst := by
  induction l with
  | nil => simp [receiverLoop]
  | cons e rest ih =>
    obtain ⟨k2, R⟩ := e
    simp only [receiverLoop]
    split_ifs <;> simp [ih]

/-- The receiver loop starts no delivery for a key that is not registered. -/
theorem deliveriesFor_receiverLoop_none (m : GoMath α) (emu : Emulator α) (id : String)
    (sender : Node α) (packet : PacketConfig α) (start stop : Int) (msg : List Nat)
    (l : List (String × Node α)) (k : String) (h : mapGet l k = none) :
    deliveriesFor k (receiverLoop m emu id sender packet start stop msg l).2 = [] := by
  induction l with
  | nil => simp [receiverLoop, deliveriesFor]
  | cons e rest ih =>
    obtain ⟨k2, R⟩ := e
    by_cases hk : k2 = k
    · simp [mapGet, hk] at h
    · simp only [mapGet, if_neg hk] at h
      have ih2 := ih h
      simp only [deliveriesFor] at ih2 ⊢
      simp only [receiverLoop]
      split_ifs <;> simp [ih2, hk, List.filter_cons, Goroutine.deliversTo]

/-- The receiver loop starts exactly one delivery for a registered, online,
in-range node other than the sender, and none for any other node. -/
theorem deliveriesFor_receiverLoop (m : GoMath α) (emu : Emulator α) (id : String)
    (sender : Node α) (packet : PacketConfig α) (start stop : Int) (msg : List Nat)
    (l : List (String × Node α)) (k : String) (R : Node α)
    (hnd : (l.map Prod.fst).Nodup) (h : mapGet l k = some R) :
    deliveriesFor k (receiverLoop m emu id sender packet start stop msg l).2
      = if k ≠ id ∧ R.Online = true ∧ emu.reachedGain m sender R > R.RXSens then
          [Goroutine.deliver k (packet.TimeTotal m / (emu.timeScaling : α))
            (emu.reachedGain m sender R) ⟨start, stop, emu.reachedGain m sender R⟩ msg packet]
        else [] := by
  induction l with
  | nil => simp [mapGet] at h
  | cons e rest ih =>
    obtain ⟨k2, R2⟩ := e
    simp only [List.map_cons, List.nodup_cons] at hnd
    by_cases hk : k2 = k
    · subst hk
      simp only [mapGet, if_true, Option.some.injEq] at h
      subst h
      have hrest := deliveriesFor_receiverLoop_none m emu id sender packet start stop msg rest k2
        ((mapGet_eq_none_iff rest k2).mpr hnd.1)
      simp only [deliveriesFor] at hrest ⊢
      simp only [receiverLoop]
      split_ifs <;> simp_all [List.filter_cons, Goroutine.deliversTo]
    · simp only [mapGet, if_neg hk] at h
      have ih2 := ih hnd.2 h
      simp only [deliveriesFor] at ih2 ⊢
      simp only [receiverLoop]
      split_ifs <;> simp_all [List.filter_cons, Goroutine.deliversTo]

/-- The receiver loop starts no resend closure. -/
theorem resends_receiverLoop (m : GoMath α) (emu : Emulator α) (id : String)
    (sender : Node α) (packet : PacketConfig α) (start stop : Int) (msg : List Nat)
    (l : List (String × Node α)) :
    resends (receiverLoop m emu id sender packet start stop msg l).2 = [] := by
  induction l with
  | nil => simp [receiverLoop, resends]
  | cons e rest ih =>
    obtain ⟨k2, R⟩ := e
    simp only [resends] at ih ⊢
    simp only [receiverLoop]
    split_ifs <;> simp [ih, List.filter_cons, Goroutine.isResend]

/-- The goroutines of a list of `go` statements. -/
theorem spawned_map_spawn (gs : List (Goroutine α)) : spawned (gs.map Effect.spawn) = gs := by
  induction gs with
  | nil => rfl
  | cons g rest ih => simp [spawned, ih]

/-- A list of `go` statements emits no event. -/
theorem emitted_map_spawn (gs : List (Goroutine α)) : emitted (gs.map Effect.spawn) = [] := by
  induction gs with
  | nil => rfl
  | cons g rest ih => simp [emitted, ih]

/-- The commit branch of `SendMessage`, written out. -/
theorem SendMessage_commit (m : GoMath α) (emu : Emulator α) (wallNow : Int) (id : String)
    (msg : List Nat) (S : Node α) (hS : mapGet emu.nodes id = some S) (hon : S.Online = true)
    (hsize : (msg.length : Int) + goInt emu.packetConfig.PreambleLen < 255)
    (hfree : S.sendingUntil < emu.getTime wallNow) :
    emu.SendMessage m wallNow id msg
      = { emu := { emu with nodes := (receiverLoop m emu id
                { S with sendingUntil := emu.stopTime m wallNow msg } (emu.packetFor msg)
                (emu.getTime wallNow) (emu.stopTime m wallNow msg) msg
                (mapSet emu.nodes id { S with sendingUntil := emu.stopTime m wallNow msg })).1 }
          effects := Effect.emit Event.NodeSending
                { S with sendingUntil := emu.stopTime m wallNow msg }
                (EventData.sending (emu.getTime wallNow) (emu.stopTime m wallNow msg)
                  ((emu.packetFor msg).TimeTotal m) S.X S.Y S.Z)
              :: (receiverLoop m emu id
                { S with sendingUntil := emu.stopTime m wallNow msg } (emu.packetFor msg)
                (emu.getTime wallNow) (emu.stopTime m wallNow msg) msg
                (mapSet emu.nodes id
                  { S with sendingUntil := emu.stopTime m wallNow msg })).2.map Effect.spawn
          err := none } := by
  have h1 : ¬ ((msg.length : Int) + goInt emu.packetConfig.PreambleLen ≥ MaxPacketLen) := by
    simp only [MaxPacketLen]; omega
  have h2 : ¬ (emu.getTime wallNow ≤ S.sendingUntil) := by omega
  simp only [Emulator.SendMessage, hS, hon, if_neg h1, if_neg h2, emitEvent]
  simp

/-- C4: when `SendMessage` commits a transmission of sender `S` (registered under
`id`, online, payload within the limit, not busy) in a registry with distinct
keys, every registered node `R` under a key other than `id` that is online and
has `S.TXGain - pathLoss(S, R) > R.RXSens` gets exactly the window
`{start, stop, that gain}` appended at the end of `receiving` and exactly one
delivery closure, sleeping `TimeTotal * 1000 / timeScaling` microseconds; every
other such node is unchanged and gets no delivery; the sender gets no window
and no delivery; no key appears and no other goroutine is started. -/
theorem SendMessage_receivers (m : GoMath α) (emu : Emulator α) (wallNow : Int) (id : String)
    (msg : List Nat) (S : Node α) (hS : mapGet emu.nodes id = some S) (hon : S.Online = true)
    (hsize : (msg.length : Int) + goInt emu.packetConfig.PreambleLen < 255)
    (hfree : S.sendingUntil < emu.getTime wallNow)
    (hnd : (emu.nodes.map Prod.fst).Nodup) :
    (∀ k R, mapGet emu.nodes k = some R → k ≠ id →
      mapGet (emu.SendMessage m wallNow id msg).emu.nodes k
          = some (if R.Online = true
                ∧ S.TXGain - S.PathLoss m R emu.refDist emu.gamma emu.freq > R.RXSens then
              { R with receiving := R.receiving ++
                  [⟨emu.getTime wallNow,
                    emu.getTime wallNow + goInt ((emu.packetFor msg).TimeTotal m),
                    S.TXGain - S.PathLoss m R emu.refDist emu.gamma emu.freq⟩] }
            else R)
      ∧ deliveriesFor k (spawned (emu.SendMessage m wallNow id msg).effects)
          = (if R.Online = true
                ∧ S.TXGain - S.PathLoss m R emu.refDist emu.gamma emu.freq > R.RXSens then
              [Goroutine.deliver k ((emu.packetFor msg).TimeTotal m / (emu.timeScaling : α))
                (S.TXGain - S.PathLoss m R emu.refDist emu.gamma emu.freq)
                ⟨emu.getTime wallNow,
                  emu.getTime wallNow + goInt ((emu.packetFor msg).TimeTotal m),
                  S.TXGain - S.PathLoss m R emu.refDist emu.gamma emu.freq⟩
                msg (emu.packetFor msg)]
            else []))
    ∧ mapGet (emu.SendMessage m wallNow id msg).emu.nodes id
        = some { S with
            sendingUntil := emu.getTime wallNow + goInt ((emu.packetFor msg).TimeTotal m) }
    ∧ deliveriesFor id (spawned (emu.SendMessage m wallNow id msg).effects) = []
    ∧ (∀ k, mapGet emu.nodes k = none →
        mapGet (emu.SendMessage m wallNow id msg).emu.nodes k = none
        ∧ deliveriesFor k (spawned (emu.SendMessage m wallNow id msg).effects) = [])
    ∧ resends (spawned (emu.SendMessage m wallNow id msg).effects) = []
    ∧ (∀ k gain w, (Goroutine.deliver k ((emu.packetFor msg).TimeTotal m / (emu.timeScaling : α))
          gain w msg (emu.packetFor msg)).sleepMicros
        = goInt ((emu.packetFor msg).TimeTotal m * 1000 / (emu.timeScaling : α))) := by
  rw [SendMessage_commit m emu wallNow id msg S hS hon hsize hfree]
  simp only [spawned, spawned_map_spawn]
  have hnd2 : ((mapSet emu.nodes id
      { S with sendingUntil := emu.stopTime m wallNow msg }).map Prod.fst).Nodup := by
    rw [keys_mapSet _ _ _ S hS]; exact hnd
  have hgain : ∀ (u : Int) (R : Node α),
      emu.reachedGain m { S with sendingUntil := u } R
        = S.TXGain - S.PathLoss m R emu.refDist emu.gamma emu.freq := fun _ _ => rfl
  refine ⟨?_, ?_, ?_, ?_, ?_, ?_⟩
  · intro k R hR hk
    have hR2 : mapGet (mapSet emu.nodes id
        { S with sendingUntil := emu.stopTime m wallNow msg }) k = some R := by
      rw [mapGet_mapSet_ne _ _ _ _ hk]; exact hR
    constructor
    · rw [mapGet_receiverLoop, hR2]
      simp only [Option.map_some', hgain, Emulator.stopTime, ne_eq, hk, not_false_eq_true,
        true_and]
    · rw [deliveriesFor_receiverLoop _ _ _ _ _ _ _ _ _ k R hnd2 hR2]
      simp only [hgain, Emulator.stopTime, ne_eq, hk, not_false_eq_true, true_and]
  · rw [mapGet_receiverLoop, mapGet_mapSet_self]
    simp [Emulator.stopTime]
  · rw [deliveriesFor_receiverLoop _ _ _ _ _ _ _ _ _ id _ hnd2 (mapGet_mapSet_self _ _ _)]
    simp
  · intro k hk
    have hkid : k ≠ id := by
      rintro rfl
      rw [hS] at hk
      exact Option.noConfusion hk
    have hk2 : mapGet (mapSet emu.nodes id
        { S with sendingUntil := emu.stopTime m wallNow msg }) k = none := by
      rw [mapGet_mapSet_ne _ _ _ _ hkid]; exact hk
    constructor
    · rw [mapGet_receiverLoop, hk2]; rfl
    · exact deliveriesFor_receiverLoop_none _ _ _ _ _ _ _ _ _ k hk2
  · exact resends_receiverLoop _ _ _ _ _ _ _ _ _
  · intro k gain w
    simp only [Goroutine.sleepMicros]
    congr 1
    ring

/-- The test engine written out. -/
theorem testEmulator_eq {α : Type} [LinearOrderedField α] [FloorRing α] (gamma txGain3 : α)
    (wallNow : Int) :
    testEmulator gamma txGain3 wallNow
      = { freq := 868, gamma := gamma, refDist := 1, kmRange := 10, ignoreCollisions := false,
          timeScaling := 1, packetConfig := PacketConfigDefault,
          nodes := [("1", testNode "1" 1 40), ("2", testNode "2" 1.2 40),
            ("3", testNode "3" 1.4 txGain3)],
          snrOffset := 0, startTime := wallNow } := rfl

/-- The preamble length of the default packet config as an `int`. -/
theorem goInt_six : goInt (6 : ℝ) = 6 := by
  norm_num [goInt]

/-- C4, example: node "1" of the test engine sends two bytes at clock 1005. -/
theorem SendMessage_receivers_witness :
    mapGet (testEmulator 10 40 1000 : Emulator ℝ).nodes "1" = some (testNode "1" 1 40)
    ∧ (testNode "1" 1 40 : Node ℝ).Online = true
    ∧ (([72, 73] : List Nat).length : Int)
        + goInt (testEmulator 10 40 1000 : Emulator ℝ).packetConfig.PreambleLen < 255
    ∧ (testNode "1" 1 40 : Node ℝ).sendingUntil
        < (testEmulator 10 40 1000 : Emulator ℝ).getTime 1005
    ∧ ((testEmulator 10 40 1000 : Emulator ℝ).nodes.map Prod.fst).Nodup
    ∧ deliveriesFor "1" (spawned ((testEmulator 10 40 1000 : Emulator ℝ).SendMessage
        ⟨Real.sqrt, Real.logb 10, Real.rpow⟩ 1005 "1" [72, 73]).effects) = []
    ∧ resends (spawned ((testEmulator 10 40 1000 : Emulator ℝ).SendMessage
        ⟨Real.sqrt, Real.logb 10, Real.rpow⟩ 1005 "1" [72, 73]).effects) = [] := by
  have h3 : (([72, 73] : List Nat).length : Int)
      + goInt (testEmulator 10 40 1000 : Emulator ℝ).packetConfig.PreambleLen < 255 := by
    rw [show (testEmulator 10 40 1000 : Emulator ℝ).packetConfig.PreambleLen = 6 from rfl,
      goInt_six]
    decide
  have h := SendMessage_receivers ⟨Real.sqrt, Real.logb 10, Real.rpow⟩
    (testEmulator 10 40 1000 : Emulator ℝ) 1005 "1" [72, 73] (testNode "1" 1 40) rfl rfl h3
    (by decide) (by decide)
  exact ⟨rfl, rfl, h3, by decide, by decide, h.2.2.1, h.2.2.2.2.1⟩

/-- C5: for a registered online sender `S`, a payload within the limit and a
simulator time `start > S.sendingUntil`, `SendMessage` stores the sender with
`sendingUntil = stop = start + int64(TimeTotal(packet))` and nothing else
changed, where `packet` is the engine's config with `PayloadLen = len(msg)`.
Its effects are one `NodeSending` event for the updated sender with data
`{start, stop, airtime = TimeTotal(packet), x, y, z}` followed only by the `go`
statements of delivery closures, so the event precedes whatever a delivery of
this transmission emits; it calls `onReceived` never and returns `nil`. -/
theorem SendMessage_sender (m : GoMath α) (emu : Emulator α) (wallNow : Int) (id : String)
    (msg : List Nat) (S : Node α) (hS : mapGet emu.nodes id = some S) (hon : S.Online = true)
    (hsize : (msg.length : Int) + goInt emu.packetConfig.PreambleLen < 255)
    (hfree : S.sendingUntil < emu.getTime wallNow) :
    mapGet (emu.SendMessage m wallNow id msg).emu.nodes id
        = some { S with
            sendingUntil := emu.getTime wallNow
              + goInt (({ emu.packetConfig with PayloadLen := (msg.length : α) } :
                  PacketConfig α).TimeTotal m) }
    ∧ (∃ gs : List (Goroutine α),
        (emu.SendMessage m wallNow id msg).effects
          = Effect.emit Event.NodeSending
              { S with
                sendingUntil := emu.getTime wallNow
                  + goInt (({ emu.packetConfig with PayloadLen := (msg.length : α) } :
                      PacketConfig α).TimeTotal m) }
              (EventData.sending (emu.getTime wallNow)
                (emu.getTime wallNow
                  + goInt (({ emu.packetConfig with PayloadLen := (msg.length : α) } :
                      PacketConfig α).TimeTotal m))
                (({ emu.packetConfig with PayloadLen := (msg.length : α) } :
                      PacketConfig α).TimeTotal m) S.X S.Y S.Z)
            :: gs.map Effect.spawn
        ∧ resends gs = [])
    ∧ emitted (emu.SendMessage m wallNow id msg).effects = [Event.NodeSending]
    ∧ receivedCalls (emu.SendMessage m wallNow id msg).effects = []
    ∧ (emu.SendMessage m wallNow id msg).err = none := by
  rw [SendMessage_commit m emu wallNow id msg S hS hon hsize hfree]
  refine ⟨?_, ⟨_, rfl, resends_receiverLoop _ _ _ _ _ _ _ _ _⟩, ?_, ?_, rfl⟩
  · rw [mapGet_receiverLoop, mapGet_mapSet_self]
    simp [Emulator.stopTime, Emulator.packetFor]
  · simp [emitted, emitted_map_spawn]
  · simp only [receivedCalls]
    generalize (receiverLoop m emu id _ _ _ _ msg _).2 = gs
    induction gs with
    | nil => rfl
    | cons g rest ih => simpa [receivedCalls] using ih

/-- C5, example: node "1" of the test engine sends two bytes at clock 1005. -/
theorem SendMessage_sender_witness :
    mapGet (testEmulator 10 40 1000 : Emulator ℝ).nodes "1" = some (testNode "1" 1 40)
    ∧ (testNode "1" 1 40 : Node ℝ).Online = true
    ∧ (([72, 73] : List Nat).length : Int)
        + goInt (testEmulator 10 40 1000 : Emulator ℝ).packetConfig.PreambleLen < 255
    ∧ (testNode "1" 1 40 : Node ℝ).sendingUntil
        < (testEmulator 10 40 1000 : Emulator ℝ).getTime 1005
    ∧ emitted ((testEmulator 10 40 1000 : Emulator ℝ).SendMessage
        ⟨Real.sqrt, Real.logb 10, Real.rpow⟩ 1005 "1" [72, 73]).effects = [Event.NodeSending] := by
  have h3 : (([72, 73] : List Nat).length : Int)
      + goInt (testEmulator 10 40 1000 : Emulator ℝ).packetConfig.PreambleLen < 255 := by
    rw [show (testEmulator 10 40 1000 : Emulator ℝ).packetConfig.PreambleLen = 6 from rfl,
      goInt_six]
    decide
  exact ⟨rfl, rfl, h3, by decide,
    (SendMessage_sender ⟨Real.sqrt, Real.logb 10, Real.rpow⟩
      (testEmulator 10 40 1000 : Emulator ℝ) 1005 "1" [72, 73] (testNode "1" 1 40) rfl rfl h3
      (by decide)).2.2.1⟩

/-- C6: for a registered online sender `S` and a payload within the limit, if
`start ≤ S.sendingUntil` then `SendMessage` returns the engine unchanged and
`nil`, emits no event and starts exactly one goroutine, the resend closure,
which sleeps `(sendingUntil - start + 1) * 1000 / timeScaling` microseconds and
then calls `SendMessage(id, msg)` once, dropping its error. -/
theorem SendMessage_busy (m : GoMath α) (emu : Emulator α) (wallNow : Int) (id : String)
    (msg : List Nat) (S : Node α) (hS : mapGet emu.nodes id = some S) (hon : S.Online = true)
    (hsize : (msg.length : Int) + goInt emu.packetConfig.PreambleLen < 255)
    (hbusy : emu.getTime wallNow ≤ S.sendingUntil) :
    emu.SendMessage m wallNow id msg
        = { emu := emu
            effects := [Effect.spawn (Goroutine.resend
              ((1000 * ((S.sendingUntil - emu.getTime wallNow + 1 : Int) : α))
                / (emu.timeScaling : α)) id msg)]
            err := none }
    ∧ (Goroutine.resend ((1000 * ((S.sendingUntil - emu.getTime wallNow + 1 : Int) : α))
          / (emu.timeScaling : α)) id msg).sleepMicros
        = goInt (((S.sendingUntil - emu.getTime wallNow + 1 : Int) : α) * 1000
            / (emu.timeScaling : α))
    ∧ (∀ (emu2 : Emulator α) (wallNow2 : Int),
        (Goroutine.resend ((1000 * ((S.sendingUntil - emu.getTime wallNow + 1 : Int) : α))
          / (emu.timeScaling : α)) id msg).run m emu2 wallNow2
        = { emu := (emu2.SendMessage m wallNow2 id msg).emu
            effects := (emu2.SendMessage m wallNow2 id msg).effects
            err := none }) := by
  have h1 : ¬ ((msg.length : Int) + goInt emu.packetConfig.PreambleLen ≥ MaxPacketLen) := by
    simp only [MaxPacketLen]; omega
  refine ⟨?_, ?_, fun _ _ => rfl⟩
  · simp only [Emulator.SendMessage, hS, hon, if_neg h1, if_pos hbusy]
    simp
  · simp only [Goroutine.sleepMicros]
    congr 1
    ring

/-- C6, example: node "2", busy until 1040, is asked to send at simulator time
1005; the resend closure sleeps 36000 microseconds. -/
theorem SendMessage_busy_witness :
    mapGet (hearingEmulator [] 1040 : Emulator ℝ).nodes "2" = some (hearingNode [] 1040)
    ∧ (hearingNode [] 1040 : Node ℝ).Online = true
    ∧ (([72, 73] : List Nat).length : Int)
        + goInt (hearingEmulator [] 1040 : Emulator ℝ).packetConfig.PreambleLen < 255
    ∧ (hearingEmulator [] 1040 : Emulator ℝ).getTime 1005
        ≤ (hearingNode [] 1040 : Node ℝ).sendingUntil
    ∧ (hearingEmulator [] 1040 : Emulator ℝ).SendMessage
          ⟨Real.sqrt, Real.logb 10, Real.rpow⟩ 1005 "2" [72, 73]
        = { emu := hearingEmulator [] 1040
            effects := [Effect.spawn (Goroutine.resend 36000 "2" [72, 73])]
            err := none } := by
  have h3 : (([72, 73] : List Nat).length : Int)
      + goInt (hearingEmulator [] 1040 : Emulator ℝ).packetConfig.PreambleLen < 255 := by
    rw [show (hearingEmulator [] 1040 : Emulator ℝ).packetConfig.PreambleLen = 6 from rfl,
      goInt_six]
    decide
  refine ⟨rfl, rfl, h3, by decide, ?_⟩
  rw [(SendMessage_busy ⟨Real.sqrt, Real.logb 10, Real.rpow⟩
      (hearingEmulator [] 1040 : Emulator ℝ) 1005 "2" [72, 73] (hearingNode [] 1040) rfl rfl h3
      (by decide)).1]
  norm_num [hearingEmulator, hearingNode, New, testNode, Emulator.getTime]

/-- C9: for a registered online sender, if `len(msg) + int(PreambleLen) ≥ 255` then
`SendMessage` returns the engine unchanged and `nil`, starts no goroutine and
emits exactly one `NodePayloadSizeExceeded` event with data
`{size = len(msg) + int(PreambleLen), theoretical_airtime = TimeTotal(packet)}`;
if the sum is below 255 it emits no such event. -/
theorem SendMessage_oversize (m : GoMath α) (emu : Emulator α) (wallNow : Int) (id : String)
    (msg : List Nat) (S : Node α) (hS : mapGet emu.nodes id = some S) (hon : S.Online = true) :
    ((msg.length : Int) + goInt emu.packetConfig.PreambleLen ≥ 255 →
      emu.SendMessage m wallNow id msg
        = { emu := emu
            effects := [Effect.emit Event.NodePayloadSizeExceeded S
              (EventData.exceeded ((msg.length : Int) + goInt emu.packetConfig.PreambleLen)
                (({ emu.packetConfig with PayloadLen := (msg.length : α) } :
                    PacketConfig α).TimeTotal m))]
            err := none })
    ∧ ((msg.length : Int) + goInt emu.packetConfig.PreambleLen < 255 →
      Event.NodePayloadSizeExceeded ∉ emitted (emu.SendMessage m wallNow id msg).effects) := by
  constructor
  · intro h
    have h1 : (msg.length : Int) + goInt emu.packetConfig.PreambleLen ≥ MaxPacketLen := h
    simp only [Emulator.SendMessage, hS, hon, if_pos h1, emitEvent, Emulator.packetFor]
    simp
  · intro h
    by_cases hb : emu.getTime wallNow ≤ S.sendingUntil
    · rw [(SendMessage_busy m emu wallNow id msg S hS hon h hb).1]
      simp [emitted]
    · rw [SendMessage_commit m emu wallNow id msg S hS hon h (by omega)]
      simp [emitted, emitted_map_spawn]

/-- C10: `SendMessage` returns an error in exactly two cases, "not found" when the
id is not registered and "sender not online" when the node is registered but
offline; in both the engine is unchanged and there is no effect (no event, no
goroutine).  For a registered online sender it returns `nil`, whatever the
payload size and the busy mark. -/
theorem SendMessage_error (m : GoMath α) (emu : Emulator α) (wallNow : Int) (id : String)
    (msg : List Nat) :
    (mapGet emu.nodes id = none →
      emu.SendMessage m wallNow id msg
        = { emu := emu, effects := [], err := some "not found" })
    ∧ (∀ S, mapGet emu.nodes id = some S → S.Online = false →
      emu.SendMessage m wallNow id msg
        = { emu := emu, effects := [], err := some "sender not online" })
    ∧ (∀ S, mapGet emu.nodes id = some S → S.Online = true →
      (emu.SendMessage m wallNow id msg).err = none)
    ∧ ((emu.SendMessage m wallNow id msg).err ≠ none
        ↔ (mapGet emu.nodes id = none
            ∨ ∃ S, mapGet emu.nodes id = some S ∧ S.Online = false)) := by
  have hgood : ∀ S, mapGet emu.nodes id = some S → S.Online = true →
      (emu.SendMessage m wallNow id msg).err = none := by
    intro S hS hon
    simp only [Emulator.SendMessage, hS, hon]
    simp only [Bool.true_eq_false, if_false]
    split_ifs <;> rfl
  refine ⟨?_, ?_, hgood, ?_⟩
  · intro h
    simp only [Emulator.SendMessage, h]
  · intro S hS hoff
    simp only [Emulator.SendMessage, hS, hoff, if_true]
  · constructor
    · intro herr
      cases hget : mapGet emu.nodes id with
      | none => exact Or.inl rfl
      | some S =>
        right
        refine ⟨S, rfl, ?_⟩
        cases hO : S.Online
        · rfl
        · exact absurd (hgood S hget hO) herr
    · rintro (h | ⟨S, hS, hoff⟩)
      · simp only [Emulator.SendMessage, h]
        simp
      · simp only [Emulator.SendMessage, hS, hoff, if_true]
        simp

/-- C9, example: node "2" sends 249 bytes, which with the preamble of 6 reaches
the limit of 255. -/
theorem SendMessage_oversize_witness :
    mapGet (hearingEmulator [] 0 : Emulator ℝ).nodes "2" = some (hearingNode [] 0)
    ∧ (hearingNode [] 0 : Node ℝ).Online = true
    ∧ emitted ((hearingEmulator [] 0 : Emulator ℝ).SendMessage
          ⟨Real.sqrt, Real.logb 10, Real.rpow⟩ 1005 "2" (List.replicate 249 72)).effects
        = [Event.NodePayloadSizeExceeded] := by
  refine ⟨rfl, rfl, ?_⟩
  rw [(SendMessage_oversize ⟨Real.sqrt, Real.logb 10, Real.rpow⟩
      (hearingEmulator [] 0 : Emulator ℝ) 1005 "2" (List.replicate 249 72) (hearingNode [] 0)
      rfl rfl).1]
  · rfl
  · rw [show (hearingEmulator [] 0 : Emulator ℝ).packetConfig.PreambleLen = 6 from rfl,
      goInt_six, List.length_replicate]
    decide

/-- C10, example: the test engine has no node "9". -/
theorem SendMessage_error_witness :
    mapGet (testEmulator 10 40 1000 : Emulator ℝ).nodes "9" = none
    ∧ (testEmulator 10 40 1000 : Emulator ℝ).SendMessage
          ⟨Real.sqrt, Real.logb 10, Real.rpow⟩ 1005 "9" [72, 73]
        = { emu := testEmulator 10 40 1000, effects := [], err := some "not found" } :=
  ⟨rfl, (SendMessage_error ⟨Real.sqrt, Real.logb 10, Real.rpow⟩
    (testEmulator 10 40 1000 : Emulator ℝ) 1005 "9" [72, 73]).1 rfl⟩

/-! ## Queueing -/

/-- Among windows that follow one another without overlap at most one contains a
given instant. -/
theorem countP_le_one_of_disjoint (x : Int) (g : α) (ws : List (received α))
    (hp : ws.Pairwise (fun a b => a.Stop < b.Start)) :
    ws.countP (fun E => decide (E.Start ≤ x ∧ x ≤ E.Stop ∧ g - E.Gain < 6)) ≤ 1 := by
  induction ws with
  | nil => simp
  | cons a rest ih =>
    rw [List.pairwise_cons] at hp
    by_cases ha : a.Start ≤ x ∧ x ≤ a.Stop ∧ g - a.Gain < 6
    · have hz : rest.countP (fun E => decide (E.Start ≤ x ∧ x ≤ E.Stop ∧ g - E.Gain < 6)) = 0 := by
        rw [List.countP_eq_zero]
        intro b hb
        have := hp.1 b hb
        simp only [decide_eq_true_eq, not_and]
        intro h1
        omega
      rw [List.countP_cons_of_pos _ _ (by simpa using ha), hz]
    · rw [List.countP_cons_of_neg _ _ (by simpa using ha)]
      exact ih hp.2

/-- Removing the goroutine at position `i` lowers the number of goroutines that
satisfy `p` by one exactly when that goroutine satisfies `p`. -/
theorem filter_eraseIdx_length (p : Goroutine α → Bool) (l : List (Goroutine α)) (i : Nat)
    (g : Goroutine α) (h : l.get? i = some g) :
    ((l.eraseIdx i).filter p).length + (if p g = true then 1 else 0) = (l.filter p).length := by
  induction l generalizing i with
  | nil => simp at h
  | cons a rest ih =>
    cases i with
    | zero =>
      simp only [List.get?_cons_zero, Option.some.injEq] at h
      subst h
      simp only [List.eraseIdx_cons_zero, List.filter_cons]
      split_ifs <;> simp
    | succ j =>
      simp only [List.get?_cons_succ] at h
      have := ih j h
      simp only [List.eraseIdx_cons_succ, List.filter_cons]
      split_ifs at this ⊢ <;> simp_all

/-- What is left after removing a position was there before. -/
theorem mem_of_mem_eraseIdx (l : List (Goroutine α)) (i : Nat) (g : Goroutine α)
    (h : g ∈ l.eraseIdx i) : g ∈ l := by
  induction l generalizing i with
  | nil => simp at h
  | cons a rest ih =>
    cases i with
    | zero => simp only [List.eraseIdx_cons_zero] at h; exact List.mem_cons_of_mem _ h
    | succ j =>
      simp only [List.eraseIdx_cons_succ, List.mem_cons] at h
      rcases h with h | h
      · simp [h]
      · exact List.mem_cons_of_mem _ (ih j h)

/-- The conversion to `int` of a non-negative float is non-negative. -/
theorem goInt_nonneg (x : α) (h : 0 ≤ x) : 0 ≤ goInt x := by
  simp only [goInt, if_pos h]
  exact Int.floor_nonneg.mpr h

/-- The registry after a committed transmission, key by key. -/
theorem commit_nodes (m : GoMath α) (e : Emulator α) (t : Int) (id : String)
    (msg : List Nat) (nX : Node α) (hX : mapGet e.nodes id = some nX) (hon : nX.Online = true)
    (hsize : (msg.length : Int) + goInt e.packetConfig.PreambleLen < 255)
    (hfree : nX.sendingUntil < e.getTime t) (k : String) :
    mapGet (e.SendMessage m t id msg).emu.nodes k
      = if k = id then some { nX with sendingUntil := e.stopTime m t msg }
        else (mapGet e.nodes k).map (fun x =>
          if x.Online = true ∧ e.reachedGain m nX x > x.RXSens then
            { x with receiving := x.receiving ++
                [⟨e.getTime t, e.stopTime m t msg, e.reachedGain m nX x⟩] }
          else x) := by
  rw [SendMessage_commit m e t id msg nX hX hon hsize hfree]
  show mapGet (receiverLoop m e id _ _ _ _ msg _).1 k = _
  rw [mapGet_receiverLoop]
  by_cases hk : k = id
  · subst hk
    rw [mapGet_mapSet_self]
    simp
  · rw [mapGet_mapSet_ne _ _ _ _ hk, if_neg hk]
    cases mapGet e.nodes k with
    | none => rfl
    | some x =>
      simp only [Option.map_some', ne_eq, hk, not_false_eq_true, true_and]
      rfl

/-- The busy branch of `SendMessage`, written out. -/
theorem SendMessage_busy_eq (m : GoMath α) (emu : Emulator α) (wallNow : Int) (id : String)
    (msg : List Nat) (S : Node α) (hS : mapGet emu.nodes id = some S) (hon : S.Online = true)
    (hsize : (msg.length : Int) + goInt emu.packetConfig.PreambleLen < 255)
    (hbusy : emu.getTime wallNow ≤ S.sendingUntil) :
    emu.SendMessage m wallNow id msg
        = { emu := emu
            effects := [Effect.spawn (Goroutine.resend
              ((1000 * ((S.sendingUntil - emu.getTime wallNow + 1 : Int) : α))
                / (emu.timeScaling : α)) id msg)]
            err := none } := by
  have h1 : ¬ ((msg.length : Int) + goInt emu.packetConfig.PreambleLen ≥ MaxPacketLen) := by
    simp only [MaxPacketLen]; omega
  simp only [Emulator.SendMessage, hS, hon, if_neg h1, if_pos hbusy]
  simp

/-- The oversize branch of `SendMessage`, written out. -/
theorem SendMessage_oversize_eq (m : GoMath α) (emu : Emulator α) (wallNow : Int)
    (id : String) (msg : List Nat) (S : Node α) (hS : mapGet emu.nodes id = some S)
    (hon : S.Online = true)
    (hsize : (msg.length : Int) + goInt emu.packetConfig.PreambleLen ≥ 255) :
    emu.SendMessage m wallNow id msg
        = { emu := emu
            effects := [Effect.emit Event.NodePayloadSizeExceeded S
              (EventData.exceeded ((msg.length : Int) + goInt emu.packetConfig.PreambleLen)
                ((emu.packetFor msg).TimeTotal m))]
            err := none } := by
  have h1 : (msg.length : Int) + goInt emu.packetConfig.PreambleLen ≥ MaxPacketLen := hsize
  simp only [Emulator.SendMessage, hS, hon, if_pos h1, emitEvent]
  simp

/-- The two error branches of `SendMessage`, written out. -/
theorem SendMessage_error_eq (m : GoMath α) (emu : Emulator α) (wallNow : Int) (id : String)
    (msg : List Nat) :
    (mapGet emu.nodes id = none →
      emu.SendMessage m wallNow id msg
        = { emu := emu, effects := [], err := some "not found" })
    ∧ (∀ S, mapGet emu.nodes id = some S → S.Online = false →
      emu.SendMessage m wallNow id msg
        = { emu := emu, effects := [], err := some "sender not online" }) := by
  constructor
  · intro h
    simp only [Emulator.SendMessage, h]
  · intro S hS hoff
    simp only [Emulator.SendMessage, hS, hoff, if_true]

/-- `SendMessage` changes no setting of the engine and no key of the registry. -/
theorem SendMessage_config (m : GoMath α) (e : Emulator α) (t : Int) (id : String)
    (msg : List Nat) :
    (e.SendMessage m t id msg).emu = { e with nodes := (e.SendMessage m t id msg).emu.nodes }
    ∧ (e.SendMessage m t id msg).emu.nodes.map Prod.fst = e.nodes.map Prod.fst := by
  cases hX : mapGet e.nodes id with
  | none => simp [Emulator.SendMessage, hX]
  | some nX =>
    cases hon : nX.Online with
    | false => simp [Emulator.SendMessage, hX, hon]
    | true =>
      by_cases hsize : (msg.length : Int) + goInt e.packetConfig.PreambleLen < 255
      · by_cases hbusy : e.getTime t ≤ nX.sendingUntil
        · rw [SendMessage_busy_eq m e t id msg nX hX hon hsize hbusy]
          exact ⟨rfl, rfl⟩
        · rw [SendMessage_commit m e t id msg nX hX hon hsize (by omega)]
          refine ⟨rfl, ?_⟩
          show (receiverLoop m e id _ _ _ _ msg _).1.map Prod.fst = _
          rw [keys_receiverLoop, keys_mapSet _ _ _ _ hX]
      · rw [SendMessage_oversize_eq m e t id msg nX hX hon (by omega)]
        exact ⟨rfl, rfl⟩

/-- A serialized engine has the clock of the engine it started from. -/
theorem Serialized.getTime {emu0 : Emulator α} {S R : String} {nR0 : Node α}
    {e : Emulator α} {log : List (Effect α)} (hI : Serialized emu0 S R nR0 e log) (t : Int) :
    e.getTime t = emu0.getTime t := by
  simp only [Emulator.getTime, hI.startTime, hI.timeScaling]

/-- A serialized engine builds the packets of the engine it started from. -/
theorem Serialized.packetFor {emu0 : Emulator α} {S R : String} {nR0 : Node α}
    {e : Emulator α} {log : List (Effect α)} (hI : Serialized emu0 S R nR0 e log)
    (msg : List Nat) : e.packetFor msg = emu0.packetFor msg := by
  simp only [Emulator.packetFor, hI.packetConfig]

/-- Removing a goroutine lowers the resends by one exactly when it is one. -/
theorem resends_eraseIdx (l : List (Goroutine α)) (i : Nat)
    (g : Goroutine α) (h : l.get? i = some g) :
    (resends (l.eraseIdx i)).length + (if g.isResend = true then 1 else 0)
      = (resends l).length :=
  filter_eraseIdx_length Goroutine.isResend l i g h

/-- The two-node test engine written out. -/
theorem pairEmulator_eq (gamma : α) (wallNow : Int) :
    pairEmulator gamma wallNow
      = { freq := 868, gamma := gamma, refDist := 1, kmRange := 10, ignoreCollisions := false,
          timeScaling := 1, packetConfig := PacketConfigDefault,
          nodes := [("1", testNode "1" 1 40), ("2", testNode "2" 1.3 40)],
          snrOffset := 0, startTime := wallNow } := rfl

/-- The airtime is non-negative when the power of two, the bandwidth, the
preamble length, the coding rate and the bits per symbol are. -/
theorem TimeTotal_nonneg (m : GoMath α) (pc : PacketConfig α)
    (h1 : 0 ≤ m.Pow 2 pc.SpreadingFactor) (h2 : 0 ≤ pc.BandWidth)
    (h3 : 0 ≤ pc.PreambleLen) (h4 : 0 ≤ pc.CodingRate)
    (h5 : 0 ≤ (if pc.LowDataRateOptimization then pc.SpreadingFactor - 2
      else pc.SpreadingFactor)) :
    0 ≤ pc.TimeTotal m := by
  have hst : 0 ≤ pc.SymbolTime m := div_nonneg h1 h2
  have hnp : 0 ≤ pc.NPreamble := by
    simp only [PacketConfig.NPreamble]
    have : (0 : α) ≤ 4.25 := by norm_num
    linarith
  have hpay : 0 ≤ pc.NPayload := by
    simp only [PacketConfig.NPayload]
    have hc : (0 : α) ≤ ((⌈max (if pc.ExplicitHeader = true then
        (if pc.CRC = true then 8 * pc.PayloadLen - 4 * pc.SpreadingFactor + 28 + 16
          else 8 * pc.PayloadLen - 4 * pc.SpreadingFactor + 28) + 20
        else (if pc.CRC = true then 8 * pc.PayloadLen - 4 * pc.SpreadingFactor + 28 + 16
          else 8 * pc.PayloadLen - 4 * pc.SpreadingFactor + 28)) 0 / 4
        / (if pc.LowDataRateOptimization = true then pc.SpreadingFactor - 2
            else pc.SpreadingFactor)⌉ : Int) : α) := by
      have : (0 : Int) ≤ ⌈max (if pc.ExplicitHeader = true then
        (if pc.CRC = true then 8 * pc.PayloadLen - 4 * pc.SpreadingFactor + 28 + 16
          else 8 * pc.PayloadLen - 4 * pc.SpreadingFactor + 28) + 20
        else (if pc.CRC = true then 8 * pc.PayloadLen - 4 * pc.SpreadingFactor + 28 + 16
          else 8 * pc.PayloadLen - 4 * pc.SpreadingFactor + 28)) 0 / 4
        / (if pc.LowDataRateOptimization = true then pc.SpreadingFactor - 2
            else pc.SpreadingFactor)⌉ := by
        apply Int.ceil_nonneg
        apply div_nonneg _ h5
        apply div_nonneg (le_max_right _ _)
        norm_num
      exact_mod_cast this
    have := mul_nonneg hc h4
    linarith
  simp only [PacketConfig.TimeTotal, PacketConfig.TimePreamble, PacketConfig.TimePayload]
  exact add_nonneg (mul_nonneg hnp hst) (mul_nonneg hpay hst)

/-- A run starts with its first step. -/
theorem run_cons (m : GoMath α) (w : World α) (s : Step) (rest : List Step) :
    World.run m w (s :: rest) = World.run m (w.step m s) rest := rfl

/-- The decimal logarithm of a positive real below 1000 is below 3. -/
theorem logb_ten_lt_three (x : ℝ) (h0 : 0 < x) (h : x < 1000) : Real.logb 10 x < 3 := by
  rw [Real.logb_lt_iff_lt_rpow (by norm_num) h0]
  have : (10 : ℝ) ^ (3 : ℝ) = 1000 := by
    rw [show (3 : ℝ) = ((3 : ℕ) : ℝ) by norm_num, Real.rpow_natCast]
    norm_num
  rw [this]; exact h

/-- With the real square root and power, two test nodes are as far apart as their
x coordinates. -/
theorem real_distance (x1 x2 : ℝ) (t1 t2 : ℝ) (i1 i2 : String) :
    Node.DistanceTo ⟨Real.sqrt, Real.logb 10, Real.rpow⟩ (testNode i1 x1 t1) (testNode i2 x2 t2)
      = |x1 - x2| := by
  simp only [Node.DistanceTo, testNode, Real.rpow_eq_pow, Real.rpow_two, sub_self]
  norm_num
  exact Real.sqrt_sq_eq_abs _

/-- With the real functions and path loss exponent 2, node "2" of the two-node test
engine is in range of node "1". -/
theorem pair_inRange :
    (pairEmulator 2 1000 : Emulator ℝ).reachedGain ⟨Real.sqrt, Real.logb 10, Real.rpow⟩
        (testNode "1" 1 40) (testNode "2" 1.3 40)
      > (testNode "2" 1.3 40 : Node ℝ).RXSens := by
  have h1 := logb_ten_lt_three 868 (by norm_num) (by norm_num)
  have h2 := logb_ten_lt_three 300 (by norm_num) (by norm_num)
  have hd : |(1 : ℝ) - 1.3| * 1000 / 1 = 300 := by
    rw [abs_of_neg (by norm_num)]; norm_num
  simp only [Emulator.reachedGain, Node.PathLoss, real_distance, LogDistance, FSPL,
    pairEmulator_eq, hd, Real.logb_one]
  simp only [testNode]
  norm_num
  linarith

/-- The receiver loop leaves a registry as it is and starts no goroutine when no
other online node is in range of the sender. -/
theorem receiverLoop_deaf (m : GoMath α) (emu : Emulator α) (id : String) (sender : Node α)
    (packet : PacketConfig α) (start stop : Int) (msg : List Nat)
    (l : List (String × Node α))
    (h : ∀ k x, (k, x) ∈ l → k ≠ id → x.Online = true →
      ¬ emu.reachedGain m sender x > x.RXSens) :
    receiverLoop m emu id sender packet start stop msg l = (l, []) := by
  induction l with
  | nil => rfl
  | cons e rest ih =>
    obtain ⟨k, x⟩ := e
    have ih2 := ih (fun k2 x2 h2 => h k2 x2 (List.mem_cons_of_mem _ h2))
    simp only [receiverLoop, ih2]
    by_cases h1 : k = id ∨ x.Online = false
    · rw [if_pos h1]
    · rw [if_neg h1]
      have h3 : k ≠ id := fun h3 => h1 (Or.inl h3)
      have h4 : x.Online = true := by
        cases hO : x.Online
        · exact absurd (Or.inr hO) h1
        · rfl
      rw [if_neg (h k x (List.mem_cons_self _ _) h3 h4)]

/-- A committed transmission that no other online node hears: only the sender entry
changes and the only effect is the NodeSending event. -/
theorem SendMessage_unheard (m : GoMath α) (e : Emulator α) (t : Int) (id : String)
    (msg : List Nat) (nX : Node α) (hX : mapGet e.nodes id = some nX) (hon : nX.Online = true)
    (hsize : (msg.length : Int) + goInt e.packetConfig.PreambleLen < 255)
    (hfree : nX.sendingUntil < e.getTime t)
    (hdeaf : ∀ k x, (k, x) ∈ mapSet e.nodes id { nX with sendingUntil := e.stopTime m t msg } →
      k ≠ id → x.Online = true → ¬ e.reachedGain m nX x > x.RXSens) :
    e.SendMessage m t id msg
      = { emu := { e with
            nodes := mapSet e.nodes id { nX with sendingUntil := e.stopTime m t msg } }
          effects := [Effect.emit Event.NodeSending
            { nX with sendingUntil := e.stopTime m t msg }
            (EventData.sending (e.getTime t) (e.stopTime m t msg)
              ((e.packetFor msg).TimeTotal m) nX.X nX.Y nX.Z)]
          err := none } := by
  have hd2 : ∀ k x,
      (k, x) ∈ mapSet e.nodes id { nX with sendingUntil := e.stopTime m t msg } →
      k ≠ id → x.Online = true →
      ¬ e.reachedGain m { nX with sendingUntil := e.stopTime m t msg } x > x.RXSens := hdeaf
  rw [SendMessage_commit m e t id msg nX hX hon hsize hfree,
    receiverLoop_deaf m e id { nX with sendingUntil := e.stopTime m t msg } _ _ _ msg _ hd2]
  rfl

/-- With the real square root and power, two nodes with equal y and z are as far
apart as their x coordinates. -/
theorem real_distance_x (a b : Node ℝ) (hy : a.Y = b.Y) (hz : a.Z = b.Z) :
    Node.DistanceTo ⟨Real.sqrt, Real.logb 10, Real.rpow⟩ a b = |a.X - b.X| := by
  simp only [Node.DistanceTo, Real.rpow_eq_pow, Real.rpow_two, hy, hz, sub_self]
  norm_num
  exact Real.sqrt_sq_eq_abs _

/-- The decimal logarithm of a real above 100 is above 2. -/
theorem two_lt_logb_ten (x : ℝ) (h : 100 < x) : 2 < Real.logb 10 x := by
  rw [Real.lt_logb_iff_rpow_lt (by norm_num) (by linarith)]
  have : (10 : ℝ) ^ (2 : ℝ) = 100 := by
    rw [Real.rpow_two]
    norm_num
  rw [this]; exact h

/-- With the real functions and path loss exponent 10, a node more than 100 m away
from a sender with transmit gain at most 40 is out of range. -/
theorem real_deaf (e : Emulator ℝ) (a b : Node ℝ) (hf : e.freq = 868) (hg : e.gamma = 10)
    (hr : e.refDist = 1) (hy : a.Y = b.Y) (hz : a.Z = b.Z) (htx : a.TXGain ≤ 40)
    (hrx : b.RXSens = -200) (hd0 : 0.1 < a.X - b.X ∨ 0.1 < b.X - a.X) :
    ¬ e.reachedGain ⟨Real.sqrt, Real.logb 10, Real.rpow⟩ a b > b.RXSens := by
  have hd : 0.1 < |a.X - b.X| := by
    rw [lt_abs]
    rcases hd0 with h | h
    · exact Or.inl h
    · exact Or.inr (by linarith)
  have h1 := two_lt_logb_ten 868 (by norm_num)
  have h2 := two_lt_logb_ten (|a.X - b.X| * 1000 / 1) (by linarith)
  simp only [Emulator.reachedGain, Node.PathLoss, real_distance_x a b hy hz, LogDistance, FSPL,
    hf, hg, hr, hrx, Real.logb_one]
  linarith

/-- An entry of a three-entry registry is one of the three. -/
theorem mapGet_triple {α : Type} (a b c k : String) (x y z : Node α)
    (u : Node α) (h : (k, u) ∈ [(a, x), (b, y), (c, z)]) :
    (k = a ∧ u = x) ∨ (k = b ∧ u = y) ∨ (k = c ∧ u = z) := by
  simp only [List.mem_cons, Prod.mk.injEq, List.mem_singleton, List.not_mem_nil, or_false] at h
  exact h

/-- C8, failing input: the engine of `TestEmulator_Collision` as the test builds it
(frequency 868, path loss exponent 10, reference distance 1, nodes "1", "2",
"3" at x = 1, 1.2, 1.4, transmit gain 40, sensitivity -200), with the real
square root, logarithm and power.  The two sends of the 110 bytes by nodes "1"
and "3" at the same clock reading schedule no delivery at all (every node is
out of range of every other), and the only events are the two NodeSending ones:
the four NodeCollision events the test asserts do not occur. -/
theorem collision_test_unheard :
    (World.run ⟨Real.sqrt, Real.logb 10, Real.rpow⟩
        ⟨(testEmulator 10 40 1000 : Emulator ℝ), [], []⟩
        [Step.call 1005 "1" helloWorld10, Step.call 1005 "3" helloWorld10]).pending = []
    ∧ emitted (World.run ⟨Real.sqrt, Real.logb 10, Real.rpow⟩
        ⟨(testEmulator 10 40 1000 : Emulator ℝ), [], []⟩
        [Step.call 1005 "1" helloWorld10, Step.call 1005 "3" helloWorld10]).log
      = [Event.NodeSending, Event.NodeSending]
    ∧ (emitted (World.run ⟨Real.sqrt, Real.logb 10, Real.rpow⟩
        ⟨(testEmulator 10 40 1000 : Emulator ℝ), [], []⟩
        [Step.call 1005 "1" helloWorld10, Step.call 1005 "3" helloWorld10]).log).count
          Event.NodeCollision ≠ 4 := by
  have hsz : ∀ e : Emulator ℝ, e.packetConfig = PacketConfigDefault →
      (helloWorld10.length : Int) + goInt e.packetConfig.PreambleLen < 255 := by
    intro e he
    rw [he, show (PacketConfigDefault : PacketConfig ℝ).PreambleLen = 6 from rfl, goInt_six]
    decide
  -- the first call
  have e1 := SendMessage_unheard ⟨Real.sqrt, Real.logb 10, Real.rpow⟩
    (testEmulator 10 40 1000 : Emulator ℝ) 1005 "1" helloWorld10 (testNode "1" 1 40) rfl rfl
    (hsz _ rfl) (by decide) (by
      intro k x hm hk _
      rcases mapGet_triple _ _ _ _ _ _ _ _ hm with ⟨h1, -⟩ | ⟨-, h2⟩ | ⟨-, h2⟩
      · exact absurd h1 hk
      · rw [h2]
        exact real_deaf _ _ _ rfl rfl rfl rfl rfl (le_refl _) rfl
          (Or.inr (by simp only [testNode]; norm_num))
      · rw [h2]
        exact real_deaf _ _ _ rfl rfl rfl rfl rfl (le_refl _) rfl
          (Or.inr (by simp only [testNode]; norm_num)))
  -- the second call, on the engine after the first
  have e2 := SendMessage_unheard ⟨Real.sqrt, Real.logb 10, Real.rpow⟩
    ((testEmulator 10 40 1000 : Emulator ℝ).SendMessage ⟨Real.sqrt, Real.logb 10, Real.rpow⟩
      1005 "1" helloWorld10).emu 1005 "3" helloWorld10 (testNode "3" 1.4 40)
    (by rw [e1]; rfl) rfl (hsz _ (by rw [e1]; rfl)) (by rw [e1]; decide) (by
      rw [e1]
      intro k x hm hk _
      rcases mapGet_triple _ _ _ _ _ _ _ _ hm with ⟨-, h2⟩ | ⟨-, h2⟩ | ⟨h1, -⟩
      · rw [h2]
        exact real_deaf _ _ _ rfl rfl rfl rfl rfl (le_refl _) rfl
          (Or.inl (by simp only [testNode]; norm_num))
      · rw [h2]
        exact real_deaf _ _ _ rfl rfl rfl rfl rfl (le_refl _) rfl
          (Or.inl (by simp only [testNode]; norm_num))
      · exact absurd h1 hk)
  simp only [World.run, List.foldl_cons, List.foldl_nil, World.step, List.nil_append]
  rw [e2, e1]
  exact ⟨rfl, rfl, by decide⟩

/-- The receiver loop skips the entry of the sender. -/
theorem receiverLoop_skip (m : GoMath α) (emu : Emulator α) (id : String) (sender : Node α)
    (packet : PacketConfig α) (start stop : Int) (msg : List Nat) (k : String) (x : Node α)
    (rest : List (String × Node α)) (h : k = id ∨ x.Online = false) :
    receiverLoop m emu id sender packet start stop msg ((k, x) :: rest)
      = ((k, x) :: (receiverLoop m emu id sender packet start stop msg rest).1,
          (receiverLoop m emu id sender packet start stop msg rest).2) := by
  simp only [receiverLoop, if_pos h]

/-- The receiver loop at an online node in range: the window is appended and one
delivery closure is started, ahead of those of the remaining entries. -/
theorem receiverLoop_hit (m : GoMath α) (emu : Emulator α) (id : String) (sender : Node α)
    (packet : PacketConfig α) (start stop : Int) (msg : List Nat) (k : String) (x : Node α)
    (rest : List (String × Node α)) (h1 : k ≠ id) (h2 : x.Online = true)
    (h3 : emu.reachedGain m sender x > x.RXSens) :
    receiverLoop m emu id sender packet start stop msg ((k, x) :: rest)
      = ((k, { x with receiving := x.receiving ++
              [⟨start, stop, emu.reachedGain m sender x⟩] })
            :: (receiverLoop m emu id sender packet start stop msg rest).1,
          Goroutine.deliver k (packet.TimeTotal m / (emu.timeScaling : α))
              (emu.reachedGain m sender x) ⟨start, stop, emu.reachedGain m sender x⟩ msg packet
            :: (receiverLoop m emu id sender packet start stop msg rest).2) := by
  have h : ¬ (k = id ∨ x.Online = false) := by
    rintro (h | h)
    · exact h1 h
    · rw [h2] at h; exact Bool.noConfusion h
  simp only [receiverLoop, if_neg h, if_pos h3]

/-- The event tags of a concatenated log. -/
theorem emitted_append (l1 l2 : List (Effect α)) :
    emitted (l1 ++ l2) = emitted l1 ++ emitted l2 := by
  induction l1 with
  | nil => rfl
  | cons a rest ih =>
    cases a <;> simp [emitted, ih]

/-- The preamble length of the default packet config as an `int`, in any ordered
field. -/
theorem goInt_six_field : goInt (6 : α) = 6 := by
  have h : (0 : α) ≤ 6 := by norm_num
  simp only [goInt, if_pos h]
  exact_mod_cast Int.floor_natCast (6 : ℕ)

/-- SendMessage by the first key of a three-entry registry whose other two nodes are
online and in range, written out. -/
theorem send3_first (m : GoMath α) (e : Emulator α) (t : Int) (msg : List Nat)
    (k1 k2 k3 : String) (x1 x2 x3 : Node α)
    (hn : e.nodes = [(k1, x1), (k2, x2), (k3, x3)]) (h21 : k2 ≠ k1) (h31 : k3 ≠ k1)
    (o1 : x1.Online = true) (o2 : x2.Online = true) (o3 : x3.Online = true)
    (hsize : (msg.length : Int) + goInt e.packetConfig.PreambleLen < 255)
    (hfree : x1.sendingUntil < e.getTime t)
    (g2 : e.reachedGain m x1 x2 > x2.RXSens) (g3 : e.reachedGain m x1 x3 > x3.RXSens) :
    e.SendMessage m t k1 msg
      = { emu := { e with
            nodes := [(k1, { x1 with sendingUntil := e.stopTime m t msg }),
              (k2, { x2 with receiving := x2.receiving ++
                [⟨e.getTime t, e.stopTime m t msg, e.reachedGain m x1 x2⟩] }),
              (k3, { x3 with receiving := x3.receiving ++
                [⟨e.getTime t, e.stopTime m t msg, e.reachedGain m x1 x3⟩] })] }
          effects := [Effect.emit Event.NodeSending
              { x1 with sendingUntil := e.stopTime m t msg }
              (EventData.sending (e.getTime t) (e.stopTime m t msg)
                ((e.packetFor msg).TimeTotal m) x1.X x1.Y x1.Z),
            Effect.spawn (Goroutine.deliver k2
              ((e.packetFor msg).TimeTotal m / (e.timeScaling : α)) (e.reachedGain m x1 x2)
              ⟨e.getTime t, e.stopTime m t msg, e.reachedGain m x1 x2⟩ msg (e.packetFor msg)),
            Effect.spawn (Goroutine.deliver k3
              ((e.packetFor msg).TimeTotal m / (e.timeScaling : α)) (e.reachedGain m x1 x3)
              ⟨e.getTime t, e.stopTime m t msg, e.reachedGain m x1 x3⟩ msg (e.packetFor msg))]
          err := none } := by
  have hX : mapGet e.nodes k1 = some x1 := by rw [hn]; simp [mapGet]
  have hms : mapSet e.nodes k1 { x1 with sendingUntil := e.stopTime m t msg }
      = [(k1, { x1 with sendingUntil := e.stopTime m t msg }), (k2, x2), (k3, x3)] := by
    rw [hn]; simp [mapSet]
  rw [SendMessage_commit m e t k1 msg x1 hX o1 hsize hfree, hms,
    receiverLoop_skip m e k1 { x1 with sendingUntil := e.stopTime m t msg } _ _ _ msg k1 _ _
      (Or.inl rfl),
    receiverLoop_hit m e k1 { x1 with sendingUntil := e.stopTime m t msg } _ _ _ msg k2 x2 _
      h21 o2 g2,
    receiverLoop_hit m e k1 { x1 with sendingUntil := e.stopTime m t msg } _ _ _ msg k3 x3 _
      h31 o3 g3]
  rfl

/-- SendMessage by the third key of a three-entry registry whose other two nodes are
online and in range, written out. -/
theorem send3_last (m : GoMath α) (e : Emulator α) (t : Int) (msg : List Nat)
    (k1 k2 k3 : String) (x1 x2 x3 : Node α)
    (hn : e.nodes = [(k1, x1), (k2, x2), (k3, x3)]) (h13 : k1 ≠ k3) (h23 : k2 ≠ k3)
    (o1 : x1.Online = true) (o2 : x2.Online = true) (o3 : x3.Online = true)
    (hsize : (msg.length : Int) + goInt e.packetConfig.PreambleLen < 255)
    (hfree : x3.sendingUntil < e.getTime t)
    (g1 : e.reachedGain m x3 x1 > x1.RXSens) (g2 : e.reachedGain m x3 x2 > x2.RXSens) :
    e.SendMessage m t k3 msg
      = { emu := { e with
            nodes := [(k1, { x1 with receiving := x1.receiving ++
                [⟨e.getTime t, e.stopTime m t msg, e.reachedGain m x3 x1⟩] }),
              (k2, { x2 with receiving := x2.receiving ++
                [⟨e.getTime t, e.stopTime m t msg, e.reachedGain m x3 x2⟩] }),
              (k3, { x3 with sendingUntil := e.stopTime m t msg })] }
          effects := [Effect.emit Event.NodeSending
              { x3 with sendingUntil := e.stopTime m t msg }
              (EventData.sending (e.getTime t) (e.stopTime m t msg)
                ((e.packetFor msg).TimeTotal m) x3.X x3.Y x3.Z),
            Effect.spawn (Goroutine.deliver k1
              ((e.packetFor msg).TimeTotal m / (e.timeScaling : α)) (e.reachedGain m x3 x1)
              ⟨e.getTime t, e.stopTime m t msg, e.reachedGain m x3 x1⟩ msg (e.packetFor msg)),
            Effect.spawn (Goroutine.deliver k2
              ((e.packetFor msg).TimeTotal m / (e.timeScaling : α)) (e.reachedGain m x3 x2)
              ⟨e.getTime t, e.stopTime m t msg, e.reachedGain m x3 x2⟩ msg (e.packetFor msg))]
          err := none } := by
  have hX : mapGet e.nodes k3 = some x3 := by rw [hn]; simp [mapGet, h13, h23]
  have hms : mapSet e.nodes k3 { x3 with sendingUntil := e.stopTime m t msg }
      = [(k1, x1), (k2, x2), (k3, { x3 with sendingUntil := e.stopTime m t msg })] := by
    rw [hn]; simp [mapSet, h13, h23]
  rw [SendMessage_commit m e t k3 msg x3 hX o3 hsize hfree, hms,
    receiverLoop_hit m e k3 { x3 with sendingUntil := e.stopTime m t msg } _ _ _ msg k1 x1 _
      h13 o1 g1,
    receiverLoop_hit m e k3 { x3 with sendingUntil := e.stopTime m t msg } _ _ _ msg k2 x2 _
      h23 o2 g2,
    receiverLoop_skip m e k3 { x3 with sendingUntil := e.stopTime m t msg } _ _ _ msg k3 _ _
      (Or.inl rfl)]
  rfl

/-- Reading the first key of a three-entry registry. -/
theorem mapGet3_first (k1 k2 k3 : String) (a b c : Node α) :
    mapGet [(k1, a), (k2, b), (k3, c)] k1 = some a := by
  simp [mapGet]

/-- Reading the second key of a three-entry registry. -/
theorem mapGet3_second (k1 k2 k3 : String) (a b c : Node α) (h12 : k1 ≠ k2) :
    mapGet [(k1, a), (k2, b), (k3, c)] k2 = some b := by
  simp [mapGet, h12]

/-- Reading the third key of a three-entry registry. -/
theorem mapGet3_third (k1 k2 k3 : String) (a b c : Node α) (h13 : k1 ≠ k3) (h23 : k2 ≠ k3) :
    mapGet [(k1, a), (k2, b), (k3, c)] k3 = some c := by
  simp [mapGet, h13, h23]

/-- A delivery resolves as a collision when the receiver is itself sending at the
start of the window and the window is in its list. -/
theorem resolves_collision_of_busy (emu : Emulator α) (wallNow : Int) (id : String) (sleep : α)
    (W : received α) (msg : List Nat) (packet : PacketConfig α) (R : Node α)
    (hR : mapGet emu.nodes id = some R) (hcd : emu.ignoreCollisions = false)
    (hmem : W ∈ R.receiving) (hWs : W.Start ≤ W.Stop) (hbusy : W.Start ≤ R.sendingUntil) :
    emu.resolves wallNow id sleep W msg packet = [Event.NodeCollision] := by
  have h : 0 < R.receiving.countP (fun E => decide (E.Start ≤ W.Start ∧ W.Start ≤ E.Stop
      ∧ W.Gain - E.Gain < 6)) := by
    rw [List.countP_pos_iff]
    exact ⟨W, hmem, by simp [hWs]⟩
  rw [Emulator.resolves, emitted_deliver emu wallNow id sleep W.Gain W msg packet R hR,
    if_neg]
  rintro (h3 | h3)
  · simp [hcd] at h3
  · rw [if_pos hbusy] at h3
    omega

/-- A delivery closure starts no goroutine. -/
theorem spawned_deliver (e : Emulator α) (t : Int) (k : String) (sleep gain : α)
    (tf : received α) (msg : List Nat) (pk : PacketConfig α) :
    spawned (e.deliver t k sleep gain tf msg pk).effects = [] := by
  simp only [Emulator.deliver, emitEvent]
  split
  · rfl
  · split_ifs <;> rfl

/-- Waking a pending delivery runs its closure on the engine and removes it from the
pending goroutines. -/
theorem step_wake_deliver (m : GoMath α) (w : World α) (t : Int) (i : Nat) (k : String)
    (sleep gain : α) (tf : received α) (msg : List Nat) (pk : PacketConfig α)
    (hp : w.pending.get? i = some (Goroutine.deliver k sleep gain tf msg pk)) :
    w.step m (Step.wake t i)
      = { emu := w.emu, pending := w.pending.eraseIdx i,
          log := w.log ++ (w.emu.deliver t k sleep gain tf msg pk).effects } := by
  simp only [World.step, hp, Goroutine.run, spawned_deliver, List.append_nil]

/-- Running every pending goroutine, in any order, when all of them are deliveries
that resolve as collisions on the engine as it is. -/
theorem run_wakes_collide (m : GoMath α) (e : Emulator α) :
    ∀ (n : Nat) (ds : List (Goroutine α)) (log : List (Effect α)) (fires : List Step),
    ds.length = n → drains n fires = true →
    (∀ d ∈ ds, ∃ k sleep W msg pk, d = Goroutine.deliver k sleep W.Gain W msg pk
        ∧ ∀ t, e.resolves t k sleep W msg pk = [Event.NodeCollision]) →
    (World.run m ⟨e, ds, log⟩ fires).pending = []
    ∧ emitted (World.run m ⟨e, ds, log⟩ fires).log
        = emitted log ++ List.replicate n Event.NodeCollision := by
  intro n
  induction n with
  | zero =>
    intro ds log fires hl hf _
    cases fires with
    | nil => simp [World.run, List.length_eq_zero.mp hl]
    | cons s rest => simp [drains] at hf
  | succ n ih =>
    intro ds log fires hl hf h
    cases fires with
    | nil => simp [drains] at hf
    | cons s rest =>
      cases s with
      | call t id msg => simp [drains] at hf
      | wake t i =>
        simp only [drains, Bool.and_eq_true, decide_eq_true_eq] at hf
        have hi : i < ds.length := by omega
        have hmem : ds.get ⟨i, hi⟩ ∈ ds := List.get_mem ds i hi
        obtain ⟨k, sleep, W, msg, pk, hd, hres⟩ := h _ hmem
        have hget : ds.get? i = some (Goroutine.deliver k sleep W.Gain W msg pk) := by
          rw [List.get?_eq_get hi, hd]
        have hstep := step_wake_deliver m ⟨e, ds, log⟩ t i k sleep W.Gain W msg pk hget
        have ih2 := ih (ds.eraseIdx i) (log ++ (e.deliver t k sleep W.Gain W msg pk).effects)
          rest (by rw [List.length_eraseIdx, if_pos hi, hl]; rfl) hf.2
          (fun d2 hd2 => h d2 (mem_of_mem_eraseIdx _ _ _ hd2))
        rw [run_cons, hstep]
        refine ⟨ih2.1, ?_⟩
        rw [ih2.2, emitted_append]
        have : emitted (e.deliver t k sleep W.Gain W msg pk).effects = [Event.NodeCollision] :=
          hres t
        rw [this, List.replicate_succ]
        simp

/-- Two transmissions at the same instant by the first and the third node of a
three-node registry, every node online and in range of both senders and the two
gains at the middle node less than the decodeable level apart: once the four
deliveries have run, in any order, the events are two NodeSending and four
NodeCollision. -/
theorem three_node_collision (m : GoMath α) (e : Emulator α) (t : Int) (msg : List Nat)
    (k1 k2 k3 : String) (x1 x2 x3 : Node α)
    (hn : e.nodes = [(k1, x1), (k2, x2), (k3, x3)])
    (h12 : k1 ≠ k2) (h13 : k1 ≠ k3) (h23 : k2 ≠ k3)
    (o1 : x1.Online = true) (o2 : x2.Online = true) (o3 : x3.Online = true)
    (hcd : e.ignoreCollisions = false)
    (hsize : (msg.length : Int) + goInt e.packetConfig.PreambleLen < 255)
    (hfree1 : x1.sendingUntil < e.getTime t) (hfree3 : x3.sendingUntil < e.getTime t)
    (hstop : e.getTime t ≤ e.stopTime m t msg)
    (g12 : e.reachedGain m x1 x2 > x2.RXSens) (g13 : e.reachedGain m x1 x3 > x3.RXSens)
    (g31 : e.reachedGain m x3 x1 > x1.RXSens) (g32 : e.reachedGain m x3 x2 > x2.RXSens)
    (hclose : |e.reachedGain m x1 x2 - e.reachedGain m x3 x2| < 6)
    (fires : List Step) (hf : drains 4 fires = true) :
    (World.run m ⟨e, [], []⟩
        (Step.call t k1 msg :: Step.call t k3 msg :: fires)).pending = []
    ∧ emitted (World.run m ⟨e, [], []⟩
        (Step.call t k1 msg :: Step.call t k3 msg :: fires)).log
      = [Event.NodeSending, Event.NodeSending, Event.NodeCollision, Event.NodeCollision,
          Event.NodeCollision, Event.NodeCollision] := by
  obtain ⟨hc1, hc2⟩ := abs_lt.mp hclose
  have e1 := send3_first m e t msg k1 k2 k3 x1 x2 x3 hn (Ne.symm h12) (Ne.symm h13) o1 o2 o3
    hsize hfree1 g12 g13
  have e2 := send3_last m (e.SendMessage m t k1 msg).emu t msg k1 k2 k3
    { x1 with sendingUntil := e.stopTime m t msg }
    { x2 with receiving := x2.receiving ++
        [⟨e.getTime t, e.stopTime m t msg, e.reachedGain m x1 x2⟩] }
    { x3 with receiving := x3.receiving ++
        [⟨e.getTime t, e.stopTime m t msg, e.reachedGain m x1 x3⟩] }
    (by rw [e1]) h13 h23 o1 o2 o3 (by rw [e1]; exact hsize) (by rw [e1]; exact hfree3)
    (by rw [e1]; exact g31) (by rw [e1]; exact g32)
  rw [e1] at e2
  rw [run_cons, run_cons]
  simp only [World.step, e1, List.nil_append, e2, spawned, List.append_eq, List.cons_append,
    List.nil_append]
  refine run_wakes_collide m _ 4 _ _ fires rfl hf ?_
  intro d hd
  simp only [List.mem_cons, List.mem_singleton, List.not_mem_nil, or_false] at hd
  rcases hd with rfl | rfl | rfl | rfl
  · refine ⟨k2, _, ⟨e.getTime t, e.stopTime m t msg, e.reachedGain m x1 x2⟩, _, _, rfl, fun t2 => ?_⟩
    refine resolves_collision_of_hit _ _ _ _
      ⟨e.getTime t, e.stopTime m t msg, e.reachedGain m x3 x2⟩ _ x2.receiving _ _ _
      (mapGet3_second _ _ _ _ _ _ h12) hcd ?_ hstop (le_refl _) hstop (by linarith)
    show (x2.receiving ++ [_] ++ [_]).Perm _
    rw [List.append_assoc]
    exact (List.perm_append_comm).trans (List.Perm.swap _ _ _)
  · refine ⟨k3, _, ⟨e.getTime t, e.stopTime m t msg, e.reachedGain m x1 x3⟩, _, _, rfl, fun t2 => ?_⟩
    refine resolves_collision_of_busy _ _ _ _ _ _ _ _
      (mapGet3_third _ _ _ _ _ _ h13 h23) hcd ?_ hstop hstop
    exact List.mem_append_right _ (List.mem_singleton.mpr rfl)
  · refine ⟨k1, _, ⟨e.getTime t, e.stopTime m t msg, e.reachedGain m x3 x1⟩, _, _, rfl, fun t2 => ?_⟩
    refine resolves_collision_of_busy _ _ _ _ _ _ _ _
      (mapGet3_first _ _ _ _ _ _) hcd ?_ hstop hstop
    exact List.mem_append_right _ (List.mem_singleton.mpr rfl)
  · refine ⟨k2, _, ⟨e.getTime t, e.stopTime m t msg, e.reachedGain m x3 x2⟩, _, _, rfl, fun t2 => ?_⟩
    refine resolves_collision_of_hit _ _ _ _
      ⟨e.getTime t, e.stopTime m t msg, e.reachedGain m x1 x2⟩ _ x2.receiving _ _ _
      (mapGet3_second _ _ _ _ _ _ h12) hcd ?_ hstop (le_refl _) hstop (by linarith)
    show (x2.receiving ++ [_] ++ [_]).Perm _
    rw [List.append_assoc]
    exact List.perm_append_comm

/-- With the real functions and path loss exponent 2, two test nodes less than a
kilometre apart are in range of each other. -/
theorem test_inRange (i1 i2 : String) (x1 x2 : ℝ) (w0 : Int) (h0 : 0 < |x1 - x2|)
    (h1 : |x1 - x2| < 1) :
    (testEmulator 2 40 w0 : Emulator ℝ).reachedGain ⟨Real.sqrt, Real.logb 10, Real.rpow⟩
        (testNode i1 x1 40) (testNode i2 x2 40)
      > (testNode i2 x2 40 : Node ℝ).RXSens := by
  have h2 := logb_ten_lt_three 868 (by norm_num) (by norm_num)
  have h3 := logb_ten_lt_three (|x1 - x2| * 1000 / 1) (by positivity) (by linarith)
  simp only [Emulator.reachedGain, Node.PathLoss, real_distance, LogDistance, FSPL,
    testEmulator_eq, Real.logb_one]
  simp only [testNode]
  norm_num
  norm_num at h3
  linarith

/-- The three-node collision in range: in the engine of `TestEmulator_Collision`
(frequency 868, reference distance 1, default packet config, nodes "1", "2",
"3" at x = 1, 1.2, 1.4) with any path loss exponent, if both other nodes are in range of node "1"
and of node "3", the gains of the two senders at node "2" are less than the
decodeable level (6 dB) apart and the power function is not negative at (2, 7),
then sending the 110 bytes from node "1" and from node "3" at the same clock
reading and running the four scheduled deliveries, in any order, leaves no
goroutine pending and gives the events NodeSending, NodeSending and four times
NodeCollision: exactly 4 NodeCollision and 0 NodeReceived events. -/
theorem collision_test_in_range (m : GoMath α) (gamma : α) (w0 t : Int) (fires : List Step)
    (ht : 0 < t) (hpow : 0 ≤ m.Pow 2 7)
    (g12 : (testEmulator gamma 40 w0).reachedGain m (testNode "1" 1 40) (testNode "2" 1.2 40)
      > -200)
    (g13 : (testEmulator gamma 40 w0).reachedGain m (testNode "1" 1 40) (testNode "3" 1.4 40)
      > -200)
    (g31 : (testEmulator gamma 40 w0).reachedGain m (testNode "3" 1.4 40) (testNode "1" 1 40)
      > -200)
    (g32 : (testEmulator gamma 40 w0).reachedGain m (testNode "3" 1.4 40) (testNode "2" 1.2 40)
      > -200)
    (hclose : |(testEmulator gamma 40 w0).reachedGain m (testNode "1" 1 40) (testNode "2" 1.2 40)
      - (testEmulator gamma 40 w0).reachedGain m (testNode "3" 1.4 40) (testNode "2" 1.2 40)|
      < CollisionDecodeableLevel)
    (hf : drains 4 fires = true) :
    (World.run m ⟨testEmulator gamma 40 w0, [], []⟩
        (Step.call t "1" helloWorld10 :: Step.call t "3" helloWorld10 :: fires)).pending = []
    ∧ emitted (World.run m ⟨testEmulator gamma 40 w0, [], []⟩
        (Step.call t "1" helloWorld10 :: Step.call t "3" helloWorld10 :: fires)).log
      = [Event.NodeSending, Event.NodeSending, Event.NodeCollision, Event.NodeCollision,
          Event.NodeCollision, Event.NodeCollision] := by
  have hT : 0 ≤ ((testEmulator gamma 40 w0).packetFor helloWorld10).TimeTotal m := by
    apply TimeTotal_nonneg
    · exact hpow
    · show (0 : α) ≤ 125
      norm_num
    · show (0 : α) ≤ 6
      norm_num
    · show (0 : α) ≤ 5
      norm_num
    · show (0 : α) ≤ 7
      norm_num
  have hget : (testEmulator gamma 40 w0).getTime t = t := by
    show w0 + (t - w0) * 1 = t
    ring
  refine three_node_collision m (testEmulator gamma 40 w0) t helloWorld10 "1" "2" "3"
    (testNode "1" 1 40) (testNode "2" 1.2 40) (testNode "3" 1.4 40) rfl (by decide) (by decide)
    (by decide) rfl rfl rfl rfl ?_ ?_ ?_ ?_ g12 g13 g31 g32 hclose fires hf
  · rw [show (testEmulator gamma 40 w0).packetConfig.PreambleLen = 6 from rfl, goInt_six_field]
    decide
  · rw [hget]; exact ht
  · rw [hget]; exact ht
  · have := goInt_nonneg _ hT
    simp only [Emulator.stopTime]
    omega

/-- An example of the three-node collision in range: the test engine with the
real square root, logarithm and power and path loss exponent 2; the four
deliveries run in a mixed order. -/
theorem collision_test_in_range_witness :
    (World.run ⟨Real.sqrt, Real.logb 10, Real.rpow⟩
        ⟨(testEmulator 2 40 1000 : Emulator ℝ), [], []⟩
        [Step.call 1005 "1" helloWorld10, Step.call 1005 "3" helloWorld10,
          Step.wake 1300 3, Step.wake 1300 0, Step.wake 1301 1, Step.wake 1301 0]).pending = []
    ∧ emitted (World.run ⟨Real.sqrt, Real.logb 10, Real.rpow⟩
        ⟨(testEmulator 2 40 1000 : Emulator ℝ), [], []⟩
        [Step.call 1005 "1" helloWorld10, Step.call 1005 "3" helloWorld10,
          Step.wake 1300 3, Step.wake 1300 0, Step.wake 1301 1, Step.wake 1301 0]).log
      = [Event.NodeSending, Event.NodeSending, Event.NodeCollision, Event.NodeCollision,
          Event.NodeCollision, Event.NodeCollision] :=
  (collision_test_in_range ⟨Real.sqrt, Real.logb 10, Real.rpow⟩ 2 1000 1005
    [Step.wake 1300 3, Step.wake 1300 0, Step.wake 1301 1, Step.wake 1301 0] (by decide)
    (Real.rpow_nonneg (by norm_num) _)
    (test_inRange "1" "2" 1 1.2 1000 (by norm_num) (by rw [abs_lt]; constructor <;> norm_num))
    (test_inRange "1" "3" 1 1.4 1000 (by norm_num) (by rw [abs_lt]; constructor <;> norm_num))
    (test_inRange "3" "1" 1.4 1 1000 (by norm_num) (by rw [abs_lt]; constructor <;> norm_num))
    (test_inRange "3" "2" 1.4 1.2 1000 (by norm_num) (by rw [abs_lt]; constructor <;> norm_num))
    (by
      simp only [Emulator.reachedGain, Node.PathLoss, real_distance]
      rw [show |(1 : ℝ) - 1.2| = |(1.4 : ℝ) - 1.2| by
        rw [abs_of_neg (by norm_num), abs_of_pos (by norm_num)]; norm_num]
      simp [CollisionDecodeableLevel, testNode])
    rfl)

/-- A string has length 0 exactly when it is empty. -/
theorem length_eq_zero_iff_empty (s : String) : s.length = 0 ↔ s = "" := by
  constructor
  · intro h
    cases s with
    | mk data =>
      have : data = [] := List.length_eq_zero.mp h
      rw [this]
  · intro h
    rw [h]
    rfl

/-- The method `Valid` accepts exactly the nodes with a non-empty id. -/
theorem Valid_eq_none_iff (n : Node α) : n.Valid = none ↔ n.ID ≠ "" := by
  simp only [Node.Valid]
  rw [← not_iff_not]
  simp [length_eq_zero_iff_empty]

/-- Map removal leaves the reads of other keys as they are. -/
theorem mapGet_mapDelete_ne (l : List (String × Node α)) (id k : String) (hk : k ≠ id) :
    mapGet (mapDelete l id) k = mapGet l k := by
  induction l with
  | nil => rfl
  | cons e rest ih =>
    obtain ⟨a, v⟩ := e
    simp only [mapDelete]
    by_cases h : a = id
    · rw [if_pos h]
      simp only [mapGet]
      rw [if_neg (by rw [h]; exact Ne.symm hk)]
    · rw [if_neg h]
      simp only [mapGet, ih]

/-- After map removal the key is gone. -/
theorem mapGet_mapDelete_self (l : List (String × Node α)) (id : String)
    (hkeys : (l.map Prod.fst).Nodup) : mapGet (mapDelete l id) id = none := by
  induction l with
  | nil => rfl
  | cons e rest ih =>
    obtain ⟨a, v⟩ := e
    simp only [List.map_cons, List.nodup_cons] at hkeys
    simp only [mapDelete]
    by_cases h : a = id
    · rw [if_pos h, mapGet_eq_none_iff, ← h]
      exact hkeys.1
    · rw [if_neg h]
      simp only [mapGet]
      rw [if_neg h]
      exact ih hkeys.2

/-- Map removal of a present key drops one entry. -/
theorem length_mapDelete (l : List (String × Node α)) (id : String) (n : Node α)
    (h : mapGet l id = some n) : (mapDelete l id).length + 1 = l.length := by
  induction l with
  | nil => simp [mapGet] at h
  | cons e rest ih =>
    obtain ⟨a, v⟩ := e
    simp only [mapGet] at h
    simp only [mapDelete]
    by_cases ha : a = id
    · rw [if_pos ha]
      rfl
    · rw [if_neg ha] at h
      rw [if_neg ha]
      simp only [List.length_cons]
      rw [ih h]

/-- The keys after map removal are among the keys before. -/
theorem keys_mapDelete (l : List (String × Node α)) (id : String) :
    ((mapDelete l id).map Prod.fst).Sublist (l.map Prod.fst) := by
  induction l with
  | nil => exact List.Sublist.refl _
  | cons e rest ih =>
    obtain ⟨a, v⟩ := e
    simp only [mapDelete]
    by_cases ha : a = id
    · rw [if_pos ha]
      exact List.sublist_cons_self _ _
    · rw [if_neg ha]
      exact List.Sublist.cons₂ _ ih

/-- C11: AddNode returns an error exactly when the id of the node is empty or
already registered, and then leaves the engine as it is and emits no event;
otherwise GetNode of the id gives the node, every other key reads as before, no
other field of the engine changes and the only effect is one NodeAdded event
carrying the node. -/
theorem AddNode_contract (emu : Emulator α) (n : Node α) :
    ((emu.AddNode n).err ≠ none ↔ n.ID = "" ∨ emu.HasNode n.ID = true)
    ∧ ((emu.AddNode n).err ≠ none → (emu.AddNode n).emu = emu ∧ (emu.AddNode n).effects = [])
    ∧ ((emu.AddNode n).err = none →
        (emu.AddNode n).emu.GetNode n.ID = n
        ∧ (∀ k, k ≠ n.ID → mapGet (emu.AddNode n).emu.nodes k = mapGet emu.nodes k)
        ∧ (emu.AddNode n).emu = { emu with nodes := (emu.AddNode n).emu.nodes }
        ∧ (emu.AddNode n).effects = [Effect.emit Event.NodeAdded n EventData.null]) := by
  by_cases hv : n.ID = ""
  · have hV : n.Valid = some "no id" := by
      simp only [Node.Valid]
      rw [if_pos ((length_eq_zero_iff_empty _).mpr hv)]
    have hr : emu.AddNode n = { emu := emu, effects := [], err := some "no id" } := by
      simp only [Emulator.AddNode, hV]
    rw [hr]
    simp [hv]
  · have hV : n.Valid = none := (Valid_eq_none_iff n).mpr hv
    cases hg : mapGet emu.nodes n.ID with
    | some x =>
      have hr : emu.AddNode n = { emu := emu, effects := [], err := some "already exists" } := by
        simp only [Emulator.AddNode, hV, hg]
      rw [hr]
      simp [hv, Emulator.HasNode, hg]
    | none =>
      have hr : emu.AddNode n = { emu := { emu with nodes := mapSet emu.nodes n.ID n }
                                  effects := [emitEvent Event.NodeAdded n EventData.null]
                                  err := none } := by
        simp only [Emulator.AddNode, hV, hg]
      rw [hr]
      refine ⟨by simp [hv, Emulator.HasNode, hg], by simp, fun _ => ⟨?_, ?_, rfl, rfl⟩⟩
      · simp only [Emulator.GetNode, mapGet_mapSet_self]
      · intro k hk
        exact mapGet_mapSet_ne _ _ _ _ hk

/-- C13: RemoveNode of an id that is not registered returns the not-found error,
leaves the engine as it is and emits nothing; of a registered id it returns no
error, HasNode of the id becomes false, the number of nodes drops by one, every
other key reads as before, no other field changes and the only effect is one
NodeRemoved event carrying the removed node.  The keys of the registry are
pairwise distinct, as those of a Go map are. -/
theorem RemoveNode_contract (emu : Emulator α) (id : String)
    (hkeys : (emu.nodes.map Prod.fst).Nodup) :
    (emu.HasNode id = false →
      emu.RemoveNode id = { emu := emu, effects := [], err := some "not found" })
    ∧ (emu.HasNode id = true →
        (emu.RemoveNode id).err = none
        ∧ (emu.RemoveNode id).emu.HasNode id = false
        ∧ (emu.RemoveNode id).emu.nodes.length + 1 = emu.nodes.length
        ∧ (∀ k, k ≠ id → mapGet (emu.RemoveNode id).emu.nodes k = mapGet emu.nodes k)
        ∧ (emu.RemoveNode id).emu = { emu with nodes := (emu.RemoveNode id).emu.nodes }
        ∧ (emu.RemoveNode id).effects
            = [Effect.emit Event.NodeRemoved (emu.GetNode id) EventData.null]) := by
  cases hg : mapGet emu.nodes id with
  | none =>
    refine ⟨fun _ => by simp only [Emulator.RemoveNode, hg], fun h => ?_⟩
    simp [Emulator.HasNode, hg] at h
  | some x =>
    have hr : emu.RemoveNode id = { emu := { emu with nodes := mapDelete emu.nodes id }
                                    effects := [emitEvent Event.NodeRemoved x EventData.null]
                                    err := none } := by
      simp only [Emulator.RemoveNode, hg]
    refine ⟨fun h => by simp [Emulator.HasNode, hg] at h, fun _ => ?_⟩
    rw [hr]
    refine ⟨rfl, ?_, length_mapDelete _ _ _ hg, fun k hk => mapGet_mapDelete_ne _ _ _ hk, rfl, ?_⟩
    · simp only [Emulator.HasNode, mapGet_mapDelete_self _ _ hkeys]
    · simp only [Emulator.GetNode, hg]
      rfl

/-- A call of `SendMessage` keeps the `ID` of every registered node. -/
theorem SendMessage_ids (m : GoMath α) (e : Emulator α) (t : Int) (id : String)
    (msg : List Nat) (k : String) (x : Node α)
    (h : mapGet (e.SendMessage m t id msg).emu.nodes k = some x) :
    ∃ x0, mapGet e.nodes k = some x0 ∧ x.ID = x0.ID := by
  cases hX : mapGet e.nodes id with
  | none =>
    rw [(SendMessage_error_eq m e t id msg).1 hX] at h
    exact ⟨x, h, rfl⟩
  | some nX =>
    cases hon : nX.Online with
    | false =>
      rw [(SendMessage_error_eq m e t id msg).2 nX hX hon] at h
      exact ⟨x, h, rfl⟩
    | true =>
      by_cases hsize : (msg.length : Int) + goInt e.packetConfig.PreambleLen < 255
      · by_cases hbusy : e.getTime t ≤ nX.sendingUntil
        · rw [SendMessage_busy_eq m e t id msg nX hX hon hsize hbusy] at h
          exact ⟨x, h, rfl⟩
        · rw [commit_nodes m e t id msg nX hX hon hsize (not_le.mp hbusy) k] at h
          by_cases hk : k = id
          · rw [if_pos hk] at h
            refine ⟨nX, by rw [hk]; exact hX, ?_⟩
            rw [← Option.some.inj h]
          · rw [if_neg hk] at h
            cases hg : mapGet e.nodes k with
            | none => rw [hg] at h; simp at h
            | some x0 =>
              rw [hg] at h
              simp only [Option.map] at h
              refine ⟨x0, rfl, ?_⟩
              rw [← Option.some.inj h]
              split_ifs <;> rfl
      · rw [SendMessage_oversize_eq m e t id msg nX hX hon (not_lt.mp hsize)] at h
        exact ⟨x, h, rfl⟩

/-- A call of `SendMessage` keeps the ids unique and non-empty. -/
theorem SendMessage_wellKeyed (m : GoMath α) (e : Emulator α) (t : Int) (id : String)
    (msg : List Nat) (h : WellKeyed e.nodes) : WellKeyed (e.SendMessage m t id msg).emu.nodes := by
  refine ⟨by rw [(SendMessage_config m e t id msg).2]; exact h.1, fun k x hk => ?_⟩
  obtain ⟨x0, h0, hid⟩ := SendMessage_ids m e t id msg k x hk
  have := h.2 k x0 h0
  exact ⟨this.1, by rw [hid]; exact this.2⟩

/-- The keys after a map write under a missing key. -/
theorem keys_mapSet_none (l : List (String × Node α)) (id : String) (n : Node α)
    (h : mapGet l id = none) : (mapSet l id n).map Prod.fst = l.map Prod.fst ++ [id] := by
  induction l with
  | nil => rfl
  | cons e rest ih =>
    obtain ⟨a, v⟩ := e
    simp only [mapGet] at h
    by_cases ha : a = id
    · rw [if_pos ha] at h; exact Option.noConfusion h
    · rw [if_neg ha] at h
      simp only [mapSet]
      rw [if_neg ha]
      simp only [List.map_cons, List.cons_append, ih h]

/-- AddNode keeps the ids unique and non-empty. -/
theorem AddNode_wellKeyed (e : Emulator α) (n : Node α) (h : WellKeyed e.nodes) :
    WellKeyed (e.AddNode n).emu.nodes := by
  simp only [Emulator.AddNode]
  cases hV : n.Valid with
  | some err => exact h
  | none =>
    have hne : n.ID ≠ "" := (Valid_eq_none_iff n).mp hV
    cases hg : mapGet e.nodes n.ID with
    | some x => exact h
    | none =>
      refine ⟨?_, fun k x hk => ?_⟩
      · show ((mapSet e.nodes n.ID n).map Prod.fst).Nodup
        rw [keys_mapSet_none _ _ _ hg]
        exact List.Nodup.append h.1 (List.nodup_singleton _)
          (by simpa using (mapGet_eq_none_iff _ _).mp hg)
      · have hk2 : mapGet (mapSet e.nodes n.ID n) k = some x := hk
        by_cases hkn : k = n.ID
        · rw [hkn, mapGet_mapSet_self] at hk2
          rw [hkn, ← Option.some.inj hk2]
          exact ⟨hne, rfl⟩
        · rw [mapGet_mapSet_ne _ _ _ _ hkn] at hk2
          exact h.2 k x hk2

/-- UpdateNode for an id that is not registered. -/
theorem UpdateNode_missing (e : Emulator α) (id : String)
    (f : Node α → Node α × Option String) (hg : mapGet e.nodes id = none) :
    e.UpdateNode id f = { emu := e, effects := [], err := some "not found" } := by
  simp only [Emulator.UpdateNode, hg]

/-- UpdateNode when the updater returns an error. -/
theorem UpdateNode_refused (e : Emulator α) (id : String)
    (f : Node α → Node α × Option String) (x y : Node α) (err : String)
    (hg : mapGet e.nodes id = some x) (hf : f x = (y, some err)) :
    e.UpdateNode id f = { emu := e, effects := [], err := some err } := by
  simp only [Emulator.UpdateNode, hg, hf]

/-- UpdateNode for the empty id when the updater succeeds. -/
theorem UpdateNode_invalid (e : Emulator α) (id : String)
    (f : Node α → Node α × Option String) (x y : Node α)
    (hg : mapGet e.nodes id = some x) (hf : f x = (y, none)) (hid : id = "") :
    e.UpdateNode id f = { emu := e, effects := [], err := some "no id" } := by
  have hV : Node.Valid { y with ID := id } = some "no id" := by
    simp only [Node.Valid]
    rw [if_pos ((length_eq_zero_iff_empty _).mpr hid)]
  simp only [Emulator.UpdateNode, hg, hf, hV]

/-- UpdateNode for a registered, non-empty id when the updater succeeds. -/
theorem UpdateNode_done (e : Emulator α) (id : String)
    (f : Node α → Node α × Option String) (x y : Node α)
    (hg : mapGet e.nodes id = some x) (hf : f x = (y, none)) (hid : id ≠ "") :
    e.UpdateNode id f
      = { emu := { e with nodes := mapSet e.nodes id { y with ID := id } }
          effects := [Effect.emit Event.NodeUpdated { y with ID := id } EventData.null]
          err := none } := by
  have hV : Node.Valid { y with ID := id } = none := (Valid_eq_none_iff _).mpr hid
  simp only [Emulator.UpdateNode, hg, hf, hV]
  rfl

/-- UpdateNode keeps the ids unique and non-empty. -/
theorem UpdateNode_wellKeyed (e : Emulator α) (id : String)
    (f : Node α → Node α × Option String) (h : WellKeyed e.nodes) :
    WellKeyed (e.UpdateNode id f).emu.nodes := by
  cases hg : mapGet e.nodes id with
  | none => rw [UpdateNode_missing e id f hg]; exact h
  | some x =>
    rcases hf : f x with ⟨y, _ | err⟩
    · rw [UpdateNode_done e id f x y hg hf (h.2 id x hg).1]
      refine ⟨?_, fun k z hk => ?_⟩
      · show ((mapSet e.nodes id { y with ID := id }).map Prod.fst).Nodup
        rw [keys_mapSet _ _ _ x hg]
        exact h.1
      · have hk2 : mapGet (mapSet e.nodes id { y with ID := id }) k = some z := hk
        by_cases hkn : k = id
        · rw [hkn, mapGet_mapSet_self] at hk2
          rw [hkn, ← Option.some.inj hk2]
          exact ⟨(h.2 id x hg).1, rfl⟩
        · rw [mapGet_mapSet_ne _ _ _ _ hkn] at hk2
          exact h.2 k z hk2
    · rw [UpdateNode_refused e id f x y err hg hf]; exact h

/-- RemoveNode keeps the ids unique and non-empty. -/
theorem RemoveNode_wellKeyed (e : Emulator α) (id : String) (h : WellKeyed e.nodes) :
    WellKeyed (e.RemoveNode id).emu.nodes := by
  simp only [Emulator.RemoveNode]
  cases hg : mapGet e.nodes id with
  | none => exact h
  | some x =>
    refine ⟨List.Nodup.sublist (keys_mapDelete _ _) h.1, fun k z hk => ?_⟩
    have hk2 : mapGet (mapDelete e.nodes id) k = some z := hk
    by_cases hkn : k = id
    · rw [hkn, mapGet_mapDelete_self _ _ h.1] at hk2
      exact Option.noConfusion hk2
    · rw [mapGet_mapDelete_ne _ _ _ hkn] at hk2
      exact h.2 k z hk2

/-- A scheduling step keeps the ids unique and non-empty. -/
theorem step_wellKeyed (m : GoMath α) (w : World α) (s : Step) (h : WellKeyed w.emu.nodes) :
    WellKeyed (w.step m s).emu.nodes := by
  cases s with
  | call t id msg => exact SendMessage_wellKeyed m w.emu t id msg h
  | wake t i =>
    simp only [World.step]
    cases hg : w.pending.get? i with
    | none => exact h
    | some g =>
      cases g with
      | resend wait id msg => exact SendMessage_wellKeyed m w.emu t id msg h
      | deliver k sleep gain tf msg pk => exact h

/-- Every action keeps the ids unique and non-empty. -/
theorem act_wellKeyed (m : GoMath α) (w : World α) (a : Action α) (h : WellKeyed w.emu.nodes) :
    WellKeyed (w.act m a).emu.nodes := by
  cases a with
  | addNode n => exact AddNode_wellKeyed w.emu n h
  | updateNode id f => exact UpdateNode_wellKeyed w.emu id f h
  | removeNode id => exact RemoveNode_wellKeyed w.emu id h
  | clear => exact ⟨List.nodup_nil, fun k x hk => by simp [World.act, Emulator.Clear, mapGet] at hk⟩
  | step s => exact step_wellKeyed m w s h

/-- Every sequence of actions keeps the ids unique and non-empty. -/
theorem reach_wellKeyed (m : GoMath α) (acts : List (Action α)) :
    ∀ (w : World α), WellKeyed w.emu.nodes → WellKeyed (w.reach m acts).emu.nodes := by
  induction acts with
  | nil => intro w h; exact h
  | cons a rest ih =>
    intro w h
    exact ih (w.act m a) (act_wellKeyed m w a h)

/-- The registry of a new engine is empty. -/
theorem New_wellKeyed (freq gamma refDist kmRange : α) (config : PacketConfig α) (wallNow : Int) :
    WellKeyed (New freq gamma refDist kmRange config wallNow).nodes :=
  ⟨List.nodup_nil, fun k x hk => by simp [New, mapGet] at hk⟩

/-- C14: in every state reached from New by any sequence of AddNode, UpdateNode,
RemoveNode, Clear, SendMessage calls and runs of delivery and resend closures,
the registry keys are pairwise distinct, none is empty and each equals the `ID`
of the node stored under it. -/
theorem registry_ids_unique (m : GoMath α) (freq gamma refDist kmRange : α)
    (config : PacketConfig α) (wallNow : Int) (acts : List (Action α)) :
    WellKeyed
      (World.reach m ⟨New freq gamma refDist kmRange config wallNow, [], []⟩ acts).emu.nodes :=
  reach_wellKeyed m acts _ (New_wellKeyed freq gamma refDist kmRange config wallNow)

/-- C13, example: node "2" of the three-node test engine is removed. -/
theorem RemoveNode_contract_witness :
    ((testEmulator (10 : ℚ) 40 1000).RemoveNode "2").err = none
    ∧ ((testEmulator (10 : ℚ) 40 1000).RemoveNode "2").emu.HasNode "2" = false
    ∧ ((testEmulator (10 : ℚ) 40 1000).RemoveNode "2").emu.nodes.length + 1 = 3
    ∧ ((testEmulator (10 : ℚ) 40 1000).RemoveNode "2").effects
        = [Effect.emit Event.NodeRemoved (testNode "2" 1.2 40 : Node ℚ) EventData.null] :=
  have h := (RemoveNode_contract (testEmulator (10 : ℚ) 40 1000) "2" (by decide)).2 rfl
  ⟨h.1, h.2.1, h.2.2.1, h.2.2.2.2.2⟩

/-- A delivery at a receiver that is not sending at the start of the window and
whose windows do not overlap: the packet handed on, written out. -/
theorem deliver_received_eq (emu : Emulator α) (wallNow : Int) (id : String)
    (sleep g : α) (W : received α) (msg : List Nat) (packet : PacketConfig α) (R : Node α)
    (hR : mapGet emu.nodes id = some R)
    (hp : R.receiving.Pairwise (fun a b => a.Stop < b.Start))
    (hs : R.sendingUntil < W.Start) :
    (emu.deliver wallNow id sleep g W msg packet).effects
      = [Effect.onReceived R
          { RSSI := goInt g, SNR := goInt g + R.SNR + emu.snrOffset, Data := msg,
            RecvTime := emu.getTime wallNow / 1000, Airtime := sleep },
        Effect.emit Event.NodeReceived R (EventData.rx
          { RSSI := goInt g, SNR := goInt g + R.SNR + emu.snrOffset, Data := msg,
            RecvTime := emu.getTime wallNow / 1000, Airtime := sleep })] := by
  have h1 := countP_le_one_of_disjoint W.Start g R.receiving hp
  have h2 : ¬ W.Start ≤ R.sendingUntil := by omega
  simp only [Emulator.deliver, hR, countCollisions_eq, emitEvent, Nat.zero_add, if_neg h2]
  rw [if_pos (Or.inr h1)]

/-- The scaled two-node test engine written out. -/
theorem scaledEmulator_eq (gamma : α) (wallNow : Int) :
    scaledEmulator gamma wallNow 10
      = { freq := 868, gamma := gamma, refDist := 1, kmRange := 10, ignoreCollisions := false,
          timeScaling := 10, packetConfig := PacketConfigDefault,
          nodes := [("1", testNode "1" 1 40), ("2", testNode "2" 1.3 40)],
          snrOffset := 0, startTime := wallNow } := rfl

/-- The airtime of a two-byte packet with the default packet config and the real
power function: 23.808 ms. -/
theorem TimeTotal_two_bytes (e : Emulator ℝ) (h : e.packetConfig = PacketConfigDefault) :
    (e.packetFor [72, 73]).TimeTotal ⟨Real.sqrt, Real.logb 10, Real.rpow⟩ = 23.808 := by
  have hp : Real.rpow 2 7 = 128 := by
    show (2 : ℝ) ^ (7 : ℝ) = 128
    rw [show (7 : ℝ) = ((7 : ℕ) : ℝ) by norm_num, Real.rpow_natCast]
    norm_num
  have hc : ⌈(4 : ℝ) / 7⌉ = 1 := by
    rw [Int.ceil_eq_iff]
    constructor <;> norm_num
  simp only [PacketConfig.TimeTotal, PacketConfig.TimePreamble, PacketConfig.TimePayload,
    PacketConfig.NPreamble, PacketConfig.NPayload, PacketConfig.SymbolTime, Emulator.packetFor,
    h, PacketConfigDefault, hp]
  norm_num
  rw [hc]
  norm_num

/-- SendMessage by the first key of a two-entry registry whose other node is online
and in range, written out. -/
theorem send2_first (m : GoMath α) (e : Emulator α) (t : Int) (msg : List Nat)
    (k1 k2 : String) (x1 x2 : Node α)
    (hn : e.nodes = [(k1, x1), (k2, x2)]) (h21 : k2 ≠ k1)
    (o1 : x1.Online = true) (o2 : x2.Online = true)
    (hsize : (msg.length : Int) + goInt e.packetConfig.PreambleLen < 255)
    (hfree : x1.sendingUntil < e.getTime t)
    (g2 : e.reachedGain m x1 x2 > x2.RXSens) :
    e.SendMessage m t k1 msg
      = { emu := { e with
            nodes := [(k1, { x1 with sendingUntil := e.stopTime m t msg }),
              (k2, { x2 with receiving := x2.receiving ++
                [⟨e.getTime t, e.stopTime m t msg, e.reachedGain m x1 x2⟩] })] }
          effects := [Effect.emit Event.NodeSending
              { x1 with sendingUntil := e.stopTime m t msg }
              (EventData.sending (e.getTime t) (e.stopTime m t msg)
                ((e.packetFor msg).TimeTotal m) x1.X x1.Y x1.Z),
            Effect.spawn (Goroutine.deliver k2
              ((e.packetFor msg).TimeTotal m / (e.timeScaling : α)) (e.reachedGain m x1 x2)
              ⟨e.getTime t, e.stopTime m t msg, e.reachedGain m x1 x2⟩ msg (e.packetFor msg))]
          err := none } := by
  have hX : mapGet e.nodes k1 = some x1 := by rw [hn]; simp [mapGet]
  have hms : mapSet e.nodes k1 { x1 with sendingUntil := e.stopTime m t msg }
      = [(k1, { x1 with sendingUntil := e.stopTime m t msg }), (k2, x2)] := by
    rw [hn]; simp [mapSet]
  rw [SendMessage_commit m e t k1 msg x1 hX o1 hsize hfree, hms,
    receiverLoop_skip m e k1 { x1 with sendingUntil := e.stopTime m t msg } _ _ _ msg k1 _ _
      (Or.inl rfl),
    receiverLoop_hit m e k1 { x1 with sendingUntil := e.stopTime m t msg } _ _ _ msg k2 x2 _
      h21 o2 g2]
  rfl

/-- The calls of `onReceived` of a concatenated log. -/
theorem receivedCalls_append (l1 l2 : List (Effect α)) :
    receivedCalls (l1 ++ l2) = receivedCalls l1 ++ receivedCalls l2 := by
  induction l1 with
  | nil => rfl
  | cons a rest ih =>
    cases a <;> simp [receivedCalls, ih]

/-- One transmission between the two nodes of a two-entry registry, the receiver
idle and without windows, followed by the run of its delivery: the one call of
`onReceived` carries as `Airtime` the airtime divided by the time scaling. -/
theorem send2_received (m : GoMath α) (e : Emulator α) (t t2 : Int) (msg : List Nat)
    (k1 k2 : String) (x1 x2 : Node α)
    (hn : e.nodes = [(k1, x1), (k2, x2)]) (h21 : k2 ≠ k1)
    (o1 : x1.Online = true) (o2 : x2.Online = true)
    (hsize : (msg.length : Int) + goInt e.packetConfig.PreambleLen < 255)
    (hfree : x1.sendingUntil < e.getTime t)
    (g2 : e.reachedGain m x1 x2 > x2.RXSens)
    (hidle : x2.sendingUntil < e.getTime t) (hfresh : x2.receiving = []) :
    (receivedCalls (World.run m ⟨e, [], []⟩ [Step.call t k1 msg, Step.wake t2 0]).log).map
        (fun p => p.2.Airtime)
      = [(e.packetFor msg).TimeTotal m / (e.timeScaling : α)] := by
  have e1 := send2_first m e t msg k1 k2 x1 x2 hn h21 o1 o2 hsize hfree g2
  have hpend : (World.step m ⟨e, [], []⟩ (Step.call t k1 msg)).pending
      = [Goroutine.deliver k2 ((e.packetFor msg).TimeTotal m / (e.timeScaling : α))
          (e.reachedGain m x1 x2) ⟨e.getTime t, e.stopTime m t msg, e.reachedGain m x1 x2⟩ msg
          (e.packetFor msg)] := by
    simp only [World.step, e1, spawned, List.nil_append]
  have hnodes : (World.step m ⟨e, [], []⟩ (Step.call t k1 msg)).emu.nodes
      = [(k1, { x1 with sendingUntil := e.stopTime m t msg }),
          (k2, { x2 with receiving := x2.receiving ++
            [⟨e.getTime t, e.stopTime m t msg, e.reachedGain m x1 x2⟩] })] := by
    simp only [World.step, e1]
  have hlog : receivedCalls (World.step m ⟨e, [], []⟩ (Step.call t k1 msg)).log = [] := by
    simp only [World.step, e1, List.nil_append, receivedCalls]
  have hR : mapGet (World.step m ⟨e, [], []⟩ (Step.call t k1 msg)).emu.nodes k2
      = some { x2 with receiving := x2.receiving ++
            [⟨e.getTime t, e.stopTime m t msg, e.reachedGain m x1 x2⟩] } := by
    rw [hnodes]
    simp [mapGet, Ne.symm h21]
  rw [run_cons, run_cons,
    step_wake_deliver m _ t2 0 k2 _ _ _ _ _ (by rw [hpend]; rfl),
    deliver_received_eq _ t2 k2 _ _ _ _ _ _ hR (by rw [hfresh]; simp) hidle]
  simp only [World.run, List.foldl_nil, receivedCalls_append, hlog, List.nil_append,
    receivedCalls, List.map_cons, List.map_nil]

/-- C15, failing input: the two-node test engine with the real functions, path loss
exponent 2 and time scaling 10.  Node "1" sends two bytes, the delivery to node
"2" runs: the `RxPacket` handed to `onReceived` carries `Airtime` 2.3808, while
the airtime of the packet, which the NodeSending event reports, is 23.808. -/
theorem rx_airtime_scaled :
    (receivedCalls (World.run ⟨Real.sqrt, Real.logb 10, Real.rpow⟩
        ⟨(scaledEmulator 2 1000 10 : Emulator ℝ), [], []⟩
        [Step.call 1005 "1" [72, 73], Step.wake 1100 0]).log).map (fun p => p.2.Airtime)
      = [2.3808]
    ∧ ((scaledEmulator 2 1000 10 : Emulator ℝ).packetFor [72, 73]).TimeTotal
        ⟨Real.sqrt, Real.logb 10, Real.rpow⟩ = 23.808 := by
  have hT := TimeTotal_two_bytes (scaledEmulator 2 1000 10 : Emulator ℝ) rfl
  refine ⟨?_, hT⟩
  have hsize : (([72, 73] : List Nat).length : Int)
      + goInt (scaledEmulator 2 1000 10 : Emulator ℝ).packetConfig.PreambleLen < 255 := by
    rw [show (scaledEmulator 2 1000 10 : Emulator ℝ).packetConfig.PreambleLen = 6 from rfl,
      goInt_six]
    decide
  have hstart : (scaledEmulator 2 1000 10 : Emulator ℝ).getTime 1005 = 1050 := by decide
  rw [send2_received ⟨Real.sqrt, Real.logb 10, Real.rpow⟩
    (scaledEmulator 2 1000 10 : Emulator ℝ) 1005 1100 [72, 73] "1" "2" (testNode "1" 1 40)
    (testNode "2" 1.3 40) rfl (by decide) rfl rfl hsize (by rw [hstart]; decide) pair_inRange
    (by rw [hstart]; decide) rfl, hT]
  rw [show (((scaledEmulator 2 1000 10 : Emulator ℝ).timeScaling : Int) : ℝ) = 10 by
    rw [show (scaledEmulator 2 1000 10 : Emulator ℝ).timeScaling = 10 from rfl]; norm_num]
  norm_num

/-! ## Path loss -/

/-- C18: for two nodes at distinct positions, a positive reference distance and a
positive frequency, PathLoss is 20 log10(dref) + 20 log10(f) + 32.45
+ 10 gamma log10(1000 dist / dref) with dist the Euclidean distance of the two
positions (kilometers, so the log-distance model gets meters). -/
theorem PathLoss_formula (A B : Node ℝ) (dref gamma f : ℝ)
    (_hpos : (A.X, A.Y, A.Z) ≠ (B.X, B.Y, B.Z)) (_hd : 0 < dref) (_hf : 0 < f) :
    A.PathLoss ⟨Real.sqrt, Real.logb 10, Real.rpow⟩ B dref gamma f
      = 20 * Real.logb 10 dref + 20 * Real.logb 10 f + 32.45
        + 10 * gamma * Real.logb 10
            (1000 * Real.sqrt ((A.X - B.X) ^ 2 + (A.Y - B.Y) ^ 2 + (A.Z - B.Z) ^ 2) / dref) := by
  simp only [Node.PathLoss, LogDistance, FSPL, Node.DistanceTo, Real.rpow_eq_pow, Real.rpow_two,
    mul_comm _ (1000 : ℝ)]

/-- C18, example: nodes "1" and "2" of the tests with the settings of the test engine. -/
theorem PathLoss_formula_witness :
    (testNode "1" 1 40 : Node ℝ).PathLoss ⟨Real.sqrt, Real.logb 10, Real.rpow⟩
        (testNode "2" 1.2 40) 1 10 868
      = 20 * Real.logb 10 1 + 20 * Real.logb 10 868 + 32.45
        + 10 * 10 * Real.logb 10
            (1000 * Real.sqrt (((1 : ℝ) - 1.2) ^ 2 + ((1 : ℝ) - 1) ^ 2 + ((0 : ℝ) - 0) ^ 2) / 1) :=
  PathLoss_formula (testNode "1" 1 40) (testNode "2" 1.2 40) 1 10 868
    (by simp [testNode]; norm_num) (by norm_num) (by norm_num)


/-! ## Removed receivers and node updates -/

/-- The delivery closure for a receiver that is no longer registered: no effect, and
the read lock it took is still held when it returns. -/
theorem deliver_missing (emu : Emulator α) (wallNow : Int) (id : String) (sleep gain : α)
    (timeFrame : received α) (msg : List Nat) (packet : PacketConfig α)
    (h : mapGet emu.nodes id = none) :
    emu.deliver wallNow id sleep gain timeFrame msg packet
      = { effects := [], unlocked := false } := by
  simp only [Emulator.deliver, h]

/-- C22, failing input: in the two-node test engine with the real functions and
path loss exponent 2, node "1" sends two bytes, which starts the delivery to
node "2"; node "2" is removed; the delivery closure then runs: it has no effect
and returns with the read lock still held. -/
theorem deliver_removed_keeps_lock :
    spawned ((pairEmulator 2 1000 : Emulator ℝ).SendMessage ⟨Real.sqrt, Real.logb 10, Real.rpow⟩
        1005 "1" [72, 73]).effects
      = [Goroutine.deliver "2"
          (((pairEmulator 2 1000 : Emulator ℝ).packetFor [72, 73]).TimeTotal
            ⟨Real.sqrt, Real.logb 10, Real.rpow⟩ / ((1 : Int) : ℝ))
          ((pairEmulator 2 1000 : Emulator ℝ).reachedGain ⟨Real.sqrt, Real.logb 10, Real.rpow⟩
            (testNode "1" 1 40) (testNode "2" 1.3 40))
          ⟨1005, (pairEmulator 2 1000 : Emulator ℝ).stopTime ⟨Real.sqrt, Real.logb 10, Real.rpow⟩
              1005 [72, 73],
            (pairEmulator 2 1000 : Emulator ℝ).reachedGain ⟨Real.sqrt, Real.logb 10, Real.rpow⟩
              (testNode "1" 1 40) (testNode "2" 1.3 40)⟩
          [72, 73] ((pairEmulator 2 1000 : Emulator ℝ).packetFor [72, 73])]
    ∧ ((((pairEmulator 2 1000 : Emulator ℝ).SendMessage ⟨Real.sqrt, Real.logb 10, Real.rpow⟩
        1005 "1" [72, 73]).emu.RemoveNode "2").emu.deliver 1100 "2"
          (((pairEmulator 2 1000 : Emulator ℝ).packetFor [72, 73]).TimeTotal
            ⟨Real.sqrt, Real.logb 10, Real.rpow⟩ / ((1 : Int) : ℝ))
          ((pairEmulator 2 1000 : Emulator ℝ).reachedGain ⟨Real.sqrt, Real.logb 10, Real.rpow⟩
            (testNode "1" 1 40) (testNode "2" 1.3 40))
          ⟨1005, (pairEmulator 2 1000 : Emulator ℝ).stopTime ⟨Real.sqrt, Real.logb 10, Real.rpow⟩
              1005 [72, 73],
            (pairEmulator 2 1000 : Emulator ℝ).reachedGain ⟨Real.sqrt, Real.logb 10, Real.rpow⟩
              (testNode "1" 1 40) (testNode "2" 1.3 40)⟩
          [72, 73] ((pairEmulator 2 1000 : Emulator ℝ).packetFor [72, 73]))
      = { effects := [], unlocked := false } := by
  have hsize : (([72, 73] : List Nat).length : Int)
      + goInt (pairEmulator 2 1000 : Emulator ℝ).packetConfig.PreambleLen < 255 := by
    rw [show (pairEmulator 2 1000 : Emulator ℝ).packetConfig.PreambleLen = 6 from rfl, goInt_six]
    decide
  have e1 := send2_first ⟨Real.sqrt, Real.logb 10, Real.rpow⟩
    (pairEmulator 2 1000 : Emulator ℝ) 1005 [72, 73] "1" "2" (testNode "1" 1 40)
    (testNode "2" 1.3 40) rfl (by decide) rfl rfl hsize (by decide) pair_inRange
  constructor
  · rw [e1]
    rfl
  · apply deliver_missing
    rw [e1]
    simp [Emulator.RemoveNode, mapGet, mapDelete]

/-- The transmission of two bytes that starts at the clock reading 1005 in the
two-node test engine stops at 1028. -/
theorem pair_stopTime :
    (pairEmulator 2 1000 : Emulator ℝ).stopTime ⟨Real.sqrt, Real.logb 10, Real.rpow⟩ 1005
      [72, 73] = 1028 := by
  have hT := TimeTotal_two_bytes (pairEmulator 2 1000 : Emulator ℝ) rfl
  have hg : goInt (23.808 : ℝ) = 23 := by
    unfold goInt
    rw [if_pos (by norm_num), Int.floor_eq_iff]
    constructor <;> norm_num
  simp only [Emulator.stopTime]
  rw [hT, hg]
  decide

/-- C29, counterexample: in the two-node test engine with the real functions and
path loss exponent 2, node "1" sends two bytes at the clock reading 1005: node
"1" is busy until 1028 and node "2" holds one reception window.  An updater
that replaces the whole node by a node with the same public fields, as the PUT
handler of the server does with a node decoded from JSON, succeeds for either
node, and leaves node "1" with the busy mark 0 and node "2" without reception
window. -/
theorem UpdateNode_resets_radio :
    (((pairEmulator 2 1000 : Emulator ℝ).SendMessage ⟨Real.sqrt, Real.logb 10, Real.rpow⟩
        1005 "1" [72, 73]).emu.GetNode "1").sendingUntil = 1028
    ∧ (((pairEmulator 2 1000 : Emulator ℝ).SendMessage ⟨Real.sqrt, Real.logb 10, Real.rpow⟩
        1005 "1" [72, 73]).emu.GetNode "2").receiving
      = [⟨1005, 1028, (pairEmulator 2 1000 : Emulator ℝ).reachedGain
            ⟨Real.sqrt, Real.logb 10, Real.rpow⟩ (testNode "1" 1 40) (testNode "2" 1.3 40)⟩]
    ∧ (((pairEmulator 2 1000 : Emulator ℝ).SendMessage ⟨Real.sqrt, Real.logb 10, Real.rpow⟩
        1005 "1" [72, 73]).emu.UpdateNode "1" (fun _ => (testNode "1" 1 40, none))).err = none
    ∧ ((((pairEmulator 2 1000 : Emulator ℝ).SendMessage ⟨Real.sqrt, Real.logb 10, Real.rpow⟩
        1005 "1" [72, 73]).emu.UpdateNode "1"
          (fun _ => (testNode "1" 1 40, none))).emu.GetNode "1").sendingUntil = 0
    ∧ (((pairEmulator 2 1000 : Emulator ℝ).SendMessage ⟨Real.sqrt, Real.logb 10, Real.rpow⟩
        1005 "1" [72, 73]).emu.UpdateNode "2" (fun _ => (testNode "2" 1.3 40, none))).err = none
    ∧ ((((pairEmulator 2 1000 : Emulator ℝ).SendMessage ⟨Real.sqrt, Real.logb 10, Real.rpow⟩
        1005 "1" [72, 73]).emu.UpdateNode "2"
          (fun _ => (testNode "2" 1.3 40, none))).emu.GetNode "2").receiving = [] := by
  have hsize : (([72, 73] : List Nat).length : Int)
      + goInt (pairEmulator 2 1000 : Emulator ℝ).packetConfig.PreambleLen < 255 := by
    rw [show (pairEmulator 2 1000 : Emulator ℝ).packetConfig.PreambleLen = 6 from rfl, goInt_six]
    decide
  have e1 := send2_first ⟨Real.sqrt, Real.logb 10, Real.rpow⟩
    (pairEmulator 2 1000 : Emulator ℝ) 1005 [72, 73] "1" "2" (testNode "1" 1 40)
    (testNode "2" 1.3 40) rfl (by decide) rfl rfl hsize (by decide) pair_inRange
  rw [e1, pair_stopTime]
  have hget : (pairEmulator 2 1000 : Emulator ℝ).getTime 1005 = 1005 := by decide
  rw [hget]
  have h1 : ¬ "1".length = 0 := by decide
  have h2 : ¬ "2".length = 0 := by decide
  refine ⟨?_, ?_, ?_, ?_, ?_, ?_⟩
  · simp [Emulator.GetNode, mapGet]
  · simp [Emulator.GetNode, mapGet, testNode]
  · simp [Emulator.UpdateNode, mapGet, testNode, Node.Valid, h1]
  · simp [Emulator.UpdateNode, mapGet, mapSet, testNode, Node.Valid, Emulator.GetNode, h1]
  · simp [Emulator.UpdateNode, mapGet, testNode, Node.Valid, h2]
  · simp [Emulator.UpdateNode, mapGet, mapSet, testNode, Node.Valid, Emulator.GetNode, h2]

/-- C29, amended: a successful UpdateNode whose updater leaves `sendingUntil` and
`receiving` of the copy as they are keeps both for the node, and every delivery
closure resolves on the engine afterwards as it does on the engine before. -/
theorem UpdateNode_keeps_radio (e : Emulator α) (id : String)
    (f : Node α → Node α × Option String) (x : Node α)
    (hg : mapGet e.nodes id = some x)
    (hr : (f x).1.receiving = x.receiving) (hs : (f x).1.sendingUntil = x.sendingUntil)
    (hok : (e.UpdateNode id f).err = none) :
    ((e.UpdateNode id f).emu.GetNode id).sendingUntil = (e.GetNode id).sendingUntil
    ∧ ((e.UpdateNode id f).emu.GetNode id).receiving = (e.GetNode id).receiving
    ∧ ∀ (wallNow : Int) (k : String) (sleep : α) (W : received α) (msg : List Nat)
        (packet : PacketConfig α),
        (e.UpdateNode id f).emu.resolves wallNow k sleep W msg packet
          = e.resolves wallNow k sleep W msg packet := by
  rcases hf : f x with ⟨y, _ | err⟩
  · rw [hf] at hr hs
    have hr2 : y.receiving = x.receiving := hr
    have hs2 : y.sendingUntil = x.sendingUntil := hs
    by_cases hid : id = ""
    · rw [UpdateNode_invalid e id f x y hg hf hid] at hok
      exact Option.noConfusion hok
    · rw [UpdateNode_done e id f x y hg hf hid]
      have hG : e.GetNode id = x := by simp only [Emulator.GetNode, hg]
      refine ⟨?_, ?_, ?_⟩
      · simp only [Emulator.GetNode, mapGet_mapSet_self, hg]
        exact hs
      · simp only [Emulator.GetNode, mapGet_mapSet_self, hg]
        exact hr
      · intro wallNow k sleep W msg packet
        by_cases hk : k = id
        · subst hk
          rw [Emulator.resolves, Emulator.resolves,
            emitted_deliver _ wallNow k sleep W.Gain W msg packet { y with ID := k }
              (mapGet_mapSet_self _ _ _),
            emitted_deliver e wallNow k sleep W.Gain W msg packet x hg]
          simp only [hr2, hs2]
        · simp only [Emulator.resolves, Emulator.deliver, mapGet_mapSet_ne _ _ _ _ hk]
          rfl
  · rw [UpdateNode_refused e id f x y err hg hf] at hok
    exact Option.noConfusion hok

/-- C29, example: an updater that moves node "2" while it is receiving and
sending. -/
theorem UpdateNode_keeps_radio_witness :
    (((hearingEmulator [⟨1005, 1040, -100⟩] 1040 : Emulator ℚ).UpdateNode "2"
        (fun n => ({ n with X := 5 }, none))).emu.GetNode "2").sendingUntil = 1040
    ∧ (((hearingEmulator [⟨1005, 1040, -100⟩] 1040 : Emulator ℚ).UpdateNode "2"
        (fun n => ({ n with X := 5 }, none))).emu.GetNode "2").receiving
      = [⟨1005, 1040, -100⟩] :=
  have h := UpdateNode_keeps_radio (hearingEmulator [⟨1005, 1040, -100⟩] 1040 : Emulator ℚ) "2"
    (fun n => ({ n with X := 5 }, none)) (hearingNode [⟨1005, 1040, -100⟩] 1040) rfl rfl rfl rfl
  ⟨h.1, h.2.1⟩

/-! ## The half-duplex increment -/

/-- The tags a delivery closure without the half-duplex increment emits, by the
collision count. -/
theorem emitted_deliverNoHalfDuplex (emu : Emulator α) (wallNow : Int) (id : String)
    (sleep g : α) (W : received α) (msg : List Nat) (packet : PacketConfig α) (R : Node α)
    (hR : mapGet emu.nodes id = some R) :
    emitted (emu.deliverNoHalfDuplex wallNow id sleep g W msg packet).effects
      = if emu.ignoreCollisions = true
            ∨ R.receiving.countP (fun E => decide (E.Start ≤ W.Start ∧ W.Start ≤ E.Stop
                    ∧ g - E.Gain < 6)) ≤ 1 then
          [Event.NodeReceived]
        else [Event.NodeCollision] := by
  simp only [Emulator.deliverNoHalfDuplex, hR, countCollisions_eq, Nat.zero_add, emitEvent]
  split_ifs <;> rfl

/-- The delivery closure with and without the half-duplex increment, by cases. -/
theorem half_duplex_cases (emu : Emulator α) (wallNow : Int) (id : String) (sleep g : α)
    (W : received α) (msg : List Nat) (packet : PacketConfig α) (R : Node α)
    (hR : mapGet emu.nodes id = some R) :
    (emu.ignoreCollisions = true ∨ R.sendingUntil < W.Start
        ∨ R.receiving.countP (fun E => decide (E.Start ≤ W.Start ∧ W.Start ≤ E.Stop
            ∧ g - E.Gain < 6)) ≠ 1 →
      emu.deliverNoHalfDuplex wallNow id sleep g W msg packet
        = emu.deliver wallNow id sleep g W msg packet)
    ∧ (emu.ignoreCollisions = false ∧ W.Start ≤ R.sendingUntil
        ∧ R.receiving.countP (fun E => decide (E.Start ≤ W.Start ∧ W.Start ≤ E.Stop
            ∧ g - E.Gain < 6)) = 1 →
      emitted (emu.deliver wallNow id sleep g W msg packet).effects = [Event.NodeCollision]
      ∧ emitted (emu.deliverNoHalfDuplex wallNow id sleep g W msg packet).effects
          = [Event.NodeReceived]) := by
  constructor
  · intro h
    simp only [Emulator.deliverNoHalfDuplex, Emulator.deliver, hR, countCollisions_eq,
      Nat.zero_add]
    rcases h with h | h | h
    · rw [if_pos (Or.inl h), if_pos (Or.inl h)]
    · rw [if_neg (not_le.mpr h)]
      simp only [Nat.zero_add]
    · by_cases hb : W.Start ≤ R.sendingUntil
      · rw [if_pos hb]
        by_cases hc : R.receiving.countP (fun E => decide (E.Start ≤ W.Start ∧ W.Start ≤ E.Stop
            ∧ g - E.Gain < 6)) = 0
        · rw [hc, if_pos (Or.inr (by omega)), if_pos (Or.inr (by omega))]
        · by_cases hi : emu.ignoreCollisions = true
          · rw [if_pos (Or.inl hi), if_pos (Or.inl hi)]
          · rw [if_neg, if_neg]
            · rintro (h1 | h1)
              · exact hi h1
              · omega
            · rintro (h1 | h1)
              · exact hi h1
              · omega
      · rw [if_neg hb]
        simp only [Nat.zero_add]
  · rintro ⟨hi, hb, hc⟩
    rw [emitted_deliver emu wallNow id sleep g W msg packet R hR,
      emitted_deliverNoHalfDuplex emu wallNow id sleep g W msg packet R hR, hc, if_pos hb]
    simp [hi]

/-- C24, amended: the delivery closure without the half-duplex increment does what
the closure with it does when collisions are ignored, when the receiver is not
sending at the start of the window, or when the number of reception windows
that count against the delivery is not exactly one; when the receiver is
sending at the start of the window and exactly one window counts, the closure
with the increment reports a collision and the closure without it a
reception. -/
theorem half_duplex_effect (emu : Emulator α) (wallNow : Int) (id : String) (sleep g : α)
    (W : received α) (msg : List Nat) (packet : PacketConfig α) (R : Node α)
    (hR : mapGet emu.nodes id = some R) :
    (emu.ignoreCollisions = true ∨ R.sendingUntil < W.Start
        ∨ R.receiving.countP (fun E => decide (E.Start ≤ W.Start ∧ W.Start ≤ E.Stop
            ∧ g - E.Gain < 6)) ≠ 1 →
      emu.deliverNoHalfDuplex wallNow id sleep g W msg packet
        = emu.deliver wallNow id sleep g W msg packet)
    ∧ (emu.ignoreCollisions = false ∧ W.Start ≤ R.sendingUntil
        ∧ R.receiving.countP (fun E => decide (E.Start ≤ W.Start ∧ W.Start ≤ E.Stop
            ∧ g - E.Gain < 6)) = 1 →
      emitted (emu.deliver wallNow id sleep g W msg packet).effects = [Event.NodeCollision]
      ∧ emitted (emu.deliverNoHalfDuplex wallNow id sleep g W msg packet).effects
          = [Event.NodeReceived]) :=
  half_duplex_cases emu wallNow id sleep g W msg packet R hR

/-- C24, example: node "2" of the tests with one reception window, its own, and the
busy mark 1040, in an engine of its own. -/
theorem half_duplex_effect_witness :
    emitted ((hearingEmulator [⟨1005, 1040, -100⟩] 1040 : Emulator ℚ).deliver 1040 "2" 35 (-100)
        ⟨1005, 1040, -100⟩ [72, 73] PacketConfigDefault).effects = [Event.NodeCollision]
    ∧ emitted ((hearingEmulator [⟨1005, 1040, -100⟩] 1040 : Emulator ℚ).deliverNoHalfDuplex 1040
        "2" 35 (-100) ⟨1005, 1040, -100⟩ [72, 73] PacketConfigDefault).effects
      = [Event.NodeReceived] :=
  (half_duplex_effect (hearingEmulator [⟨1005, 1040, -100⟩] 1040 : Emulator ℚ) 1040 "2" 35 (-100)
    ⟨1005, 1040, -100⟩ [72, 73] PacketConfigDefault (hearingNode [⟨1005, 1040, -100⟩] 1040)
    rfl).2 ⟨rfl, by decide, by
      norm_num [hearingNode, testNode, List.countP_cons]⟩

/-- After the first and the third node of a three-node registry have both sent at
the same instant, every node in range of both: the delivery of the third
node's transmission to the first is pending, and the first node has the window
of that transmission and its own busy mark. -/
theorem three_node_state (m : GoMath α) (e : Emulator α) (t : Int) (msg : List Nat)
    (k1 k2 k3 : String) (x1 x2 x3 : Node α)
    (hn : e.nodes = [(k1, x1), (k2, x2), (k3, x3)])
    (h12 : k1 ≠ k2) (h13 : k1 ≠ k3) (h23 : k2 ≠ k3)
    (o1 : x1.Online = true) (o2 : x2.Online = true) (o3 : x3.Online = true)
    (hsize : (msg.length : Int) + goInt e.packetConfig.PreambleLen < 255)
    (hfree1 : x1.sendingUntil < e.getTime t) (hfree3 : x3.sendingUntil < e.getTime t)
    (g12 : e.reachedGain m x1 x2 > x2.RXSens) (g13 : e.reachedGain m x1 x3 > x3.RXSens)
    (g31 : e.reachedGain m x3 x1 > x1.RXSens) (g32 : e.reachedGain m x3 x2 > x2.RXSens) :
    Goroutine.deliver k1 ((e.packetFor msg).TimeTotal m / (e.timeScaling : α))
        (e.reachedGain m x3 x1) ⟨e.getTime t, e.stopTime m t msg, e.reachedGain m x3 x1⟩ msg
        (e.packetFor msg)
      ∈ (World.run m ⟨e, [], []⟩ [Step.call t k1 msg, Step.call t k3 msg]).pending
    ∧ mapGet (World.run m ⟨e, [], []⟩ [Step.call t k1 msg, Step.call t k3 msg]).emu.nodes k1
        = some { x1 with
            sendingUntil := e.stopTime m t msg
            receiving := x1.receiving ++
              [⟨e.getTime t, e.stopTime m t msg, e.reachedGain m x3 x1⟩] }
    ∧ (World.run m ⟨e, [], []⟩ [Step.call t k1 msg, Step.call t k3 msg]).emu.ignoreCollisions
        = e.ignoreCollisions := by
  have e1 := send3_first m e t msg k1 k2 k3 x1 x2 x3 hn (Ne.symm h12) (Ne.symm h13) o1 o2 o3
    hsize hfree1 g12 g13
  have e2 := send3_last m (e.SendMessage m t k1 msg).emu t msg k1 k2 k3
    { x1 with sendingUntil := e.stopTime m t msg }
    { x2 with receiving := x2.receiving ++
        [⟨e.getTime t, e.stopTime m t msg, e.reachedGain m x1 x2⟩] }
    { x3 with receiving := x3.receiving ++
        [⟨e.getTime t, e.stopTime m t msg, e.reachedGain m x1 x3⟩] }
    (by rw [e1]) h13 h23 o1 o2 o3 (by rw [e1]; exact hsize) (by rw [e1]; exact hfree3)
    (by rw [e1]; exact g31) (by rw [e1]; exact g32)
  rw [e1] at e2
  rw [run_cons, run_cons]
  simp only [World.step, e1, List.nil_append, e2, spawned, List.append_eq, List.cons_append,
    List.nil_append, World.run, List.foldl_nil]
  refine ⟨?_, ?_, trivial⟩
  · exact List.mem_cons_of_mem _ (List.mem_cons_of_mem _ (List.mem_cons_self _ _))
  · exact mapGet3_first _ _ _ _ _ _

/-- The engine and the pending goroutines after a run do not depend on the log the
run starts with. -/
theorem run_forgets_log (m : GoMath α) (steps : List Step) :
    ∀ (e : Emulator α) (p : List (Goroutine α)) (l1 l2 : List (Effect α)),
    (World.run m ⟨e, p, l1⟩ steps).emu = (World.run m ⟨e, p, l2⟩ steps).emu
    ∧ (World.run m ⟨e, p, l1⟩ steps).pending = (World.run m ⟨e, p, l2⟩ steps).pending := by
  induction steps with
  | nil => intro e p l1 l2; exact ⟨rfl, rfl⟩
  | cons s rest ih =>
    intro e p l1 l2
    rw [run_cons, run_cons]
    cases s with
    | call t id msg => exact ih _ _ _ _
    | wake t i =>
      simp only [World.step]
      cases hg : p.get? i with
      | none => exact ih _ _ _ _
      | some g => exact ih _ _ _ _

/-- C24, counterexample: the three-node test engine with the real functions and
path loss exponent 2, reached from `New` by three `AddNode` calls, after nodes
"1" and "3" have both sent at clock reading 1005.  The delivery of the
transmission of node "3" to node "1" is pending; run with the half-duplex
increment it reports a collision, run without it a reception. -/
theorem half_duplex_needed :
    ∃ (sleep : ℝ) (W : received ℝ) (packet : PacketConfig ℝ),
      Goroutine.deliver "1" sleep W.Gain W helloWorld10 packet
        ∈ (World.reach ⟨Real.sqrt, Real.logb 10, Real.rpow⟩
            ⟨New 868 2 1 10 PacketConfigDefault 1000, [], []⟩
            [Action.addNode (testNode "1" 1 40), Action.addNode (testNode "2" 1.2 40),
              Action.addNode (testNode "3" 1.4 40),
              Action.step (Step.call 1005 "1" helloWorld10),
              Action.step (Step.call 1005 "3" helloWorld10)]).pending
      ∧ emitted ((World.reach ⟨Real.sqrt, Real.logb 10, Real.rpow⟩
            ⟨New 868 2 1 10 PacketConfigDefault 1000, [], []⟩
            [Action.addNode (testNode "1" 1 40), Action.addNode (testNode "2" 1.2 40),
              Action.addNode (testNode "3" 1.4 40),
              Action.step (Step.call 1005 "1" helloWorld10),
              Action.step (Step.call 1005 "3" helloWorld10)]).emu.deliver 1300 "1" sleep W.Gain W
            helloWorld10 packet).effects = [Event.NodeCollision]
      ∧ emitted ((World.reach ⟨Real.sqrt, Real.logb 10, Real.rpow⟩
            ⟨New 868 2 1 10 PacketConfigDefault 1000, [], []⟩
            [Action.addNode (testNode "1" 1 40), Action.addNode (testNode "2" 1.2 40),
              Action.addNode (testNode "3" 1.4 40),
              Action.step (Step.call 1005 "1" helloWorld10),
              Action.step (Step.call 1005 "3" helloWorld10)]).emu.deliverNoHalfDuplex 1300 "1"
            sleep W.Gain W helloWorld10 packet).effects = [Event.NodeReceived] := by
  have hT : 0 ≤ ((testEmulator 2 40 1000 : Emulator ℝ).packetFor helloWorld10).TimeTotal
      ⟨Real.sqrt, Real.logb 10, Real.rpow⟩ := by
    apply TimeTotal_nonneg
    · exact Real.rpow_nonneg (by norm_num) _
    · show (0 : ℝ) ≤ 125
      norm_num
    · show (0 : ℝ) ≤ 6
      norm_num
    · show (0 : ℝ) ≤ 5
      norm_num
    · show (0 : ℝ) ≤ 7
      norm_num
  have hstop : (testEmulator 2 40 1000 : Emulator ℝ).getTime 1005
      ≤ (testEmulator 2 40 1000 : Emulator ℝ).stopTime ⟨Real.sqrt, Real.logb 10, Real.rpow⟩ 1005
          helloWorld10 := by
    have := goInt_nonneg _ hT
    simp only [Emulator.stopTime]
    omega
  have hst := three_node_state ⟨Real.sqrt, Real.logb 10, Real.rpow⟩
    (testEmulator 2 40 1000 : Emulator ℝ) 1005 helloWorld10 "1" "2" "3"
    (testNode "1" 1 40) (testNode "2" 1.2 40) (testNode "3" 1.4 40) rfl (by decide) (by decide)
    (by decide) rfl rfl rfl
    (by
      rw [show (testEmulator 2 40 1000 : Emulator ℝ).packetConfig.PreambleLen = 6 from rfl,
        goInt_six]
      decide)
    (by decide) (by decide)
    (test_inRange "1" "2" 1 1.2 1000 (by norm_num) (by rw [abs_lt]; constructor <;> norm_num))
    (test_inRange "1" "3" 1 1.4 1000 (by norm_num) (by rw [abs_lt]; constructor <;> norm_num))
    (test_inRange "3" "1" 1.4 1 1000 (by norm_num) (by rw [abs_lt]; constructor <;> norm_num))
    (test_inRange "3" "2" 1.4 1.2 1000 (by norm_num) (by rw [abs_lt]; constructor <;> norm_num))
  have hw : World.reach ⟨Real.sqrt, Real.logb 10, Real.rpow⟩
      ⟨New 868 2 1 10 PacketConfigDefault 1000, [], []⟩
      [Action.addNode (testNode "1" 1 40), Action.addNode (testNode "2" 1.2 40),
        Action.addNode (testNode "3" 1.4 40),
        Action.step (Step.call 1005 "1" helloWorld10),
        Action.step (Step.call 1005 "3" helloWorld10)]
      = World.run ⟨Real.sqrt, Real.logb 10, Real.rpow⟩
          ⟨(testEmulator 2 40 1000 : Emulator ℝ),
            [], [Effect.emit Event.NodeAdded (testNode "1" 1 40) EventData.null,
              Effect.emit Event.NodeAdded (testNode "2" 1.2 40) EventData.null,
              Effect.emit Event.NodeAdded (testNode "3" 1.4 40) EventData.null]⟩
          [Step.call 1005 "1" helloWorld10, Step.call 1005 "3" helloWorld10] := rfl
  rw [hw]
  obtain ⟨hl1, hl2⟩ := run_forgets_log ⟨Real.sqrt, Real.logb 10, Real.rpow⟩
    [Step.call 1005 "1" helloWorld10, Step.call 1005 "3" helloWorld10]
    (testEmulator 2 40 1000 : Emulator ℝ) []
    [Effect.emit Event.NodeAdded (testNode "1" 1 40) EventData.null,
      Effect.emit Event.NodeAdded (testNode "2" 1.2 40) EventData.null,
      Effect.emit Event.NodeAdded (testNode "3" 1.4 40) EventData.null] []
  rw [hl1, hl2]
  obtain ⟨hp, hn, hi⟩ := hst
  refine ⟨_, ⟨(testEmulator 2 40 1000 : Emulator ℝ).getTime 1005,
    (testEmulator 2 40 1000 : Emulator ℝ).stopTime ⟨Real.sqrt, Real.logb 10, Real.rpow⟩ 1005
      helloWorld10,
    (testEmulator 2 40 1000 : Emulator ℝ).reachedGain ⟨Real.sqrt, Real.logb 10, Real.rpow⟩
      (testNode "3" 1.4 40) (testNode "1" 1 40)⟩, _, hp, ?_⟩
  refine (half_duplex_cases _ 1300 "1" _ _ _ helloWorld10 _ _ hn).2 ⟨?_, hstop, ?_⟩
  · rw [hi]
    rfl
  · simp only [testNode, List.nil_append, List.countP_cons, List.countP_nil]
    simp [hstop]

/-! ## The simulator clock -/

/-- The scaled two-node test engine at time scaling 10 written out, with the path
loss exponent 10. -/
theorem scaledEmulator_ten (wallNow : Int) :
    (scaledEmulator 10 wallNow 10 : Emulator ℝ)
      = { freq := 868, gamma := 10, refDist := 1, kmRange := 10, ignoreCollisions := false,
          timeScaling := 10, packetConfig := PacketConfigDefault,
          nodes := [("1", testNode "1" 1 40), ("2", testNode "2" 1.3 40)],
          snrOffset := 0, startTime := wallNow } := rfl

/-- The loop of `setInitialPositions` never writes the fields of the manager other
than the engine, applies the Set commands to the engine in order and collects
the converted SetDest commands in order. -/
theorem foldl_setPosition (cs : List (mobility.Command α)) (s : Positions α) :
    (cs.foldl setPosition s).mob.commands = s.mob.commands
    ∧ (cs.foldl setPosition s).mob.tickrate = s.mob.tickrate
    ∧ (cs.foldl setPosition s).mob.timeScaling = s.mob.timeScaling
    ∧ (cs.foldl setPosition s).mob.loop = s.mob.loop
    ∧ (cs.foldl setPosition s).mob.emu
        = (cs.filterMap (fun c => c.Set)).foldl
            (fun e set => (e.UpdateNode set.Node (setAxis set)).emu) s.mob.emu
    ∧ (cs.foldl setPosition s).dests
        = s.dests ++ cs.filterMap (fun c =>
            match c.Set, c.SetDest with
            | none, some d =>
              some { Node := d.Node, Time := d.Time, X := d.X / 1000, Y := d.Y / 1000,
                     Speed := d.Speed / 1000 }
            | _, _ => none) := by
  induction cs generalizing s with
  | nil => simp
  | cons c cs ih =>
    rw [List.foldl_cons]
    obtain ⟨h1, h2, h3, h4, h5, h6⟩ := ih (setPosition s c)
    rw [h1, h2, h3, h4, h5, h6]
    rcases c with ⟨_ | set, _ | d⟩ <;> simp [setPosition]

/-- The order of `sort.SliceStable` by time is total. -/
theorem timeOrder_total :
    IsTotal (mobility.SetDestCommand α)
      (fun a b => (fun a b : mobility.SetDestCommand α => decide (a.Time < b.Time)) b a = false) :=
  ⟨fun a b => by
    simp only [decide_eq_false_iff_not, not_lt]
    exact le_total _ _⟩

/-- The order of `sort.SliceStable` by time is transitive. -/
theorem timeOrder_trans :
    IsTrans (mobility.SetDestCommand α)
      (fun a b => (fun a b : mobility.SetDestCommand α => decide (a.Time < b.Time)) b a = false) :=
  ⟨fun a b c => by
    simp only [decide_eq_false_iff_not, not_lt]
    exact le_trans⟩

/-- The result of the stable sort by time: a permutation in which the times do not
decrease and the elements of one time keep their order. -/
theorem SliceStable_time (l : List (mobility.SetDestCommand α)) :
    (SliceStable (fun a b => decide (a.Time < b.Time)) l).Perm l
    ∧ (SliceStable (fun a b => decide (a.Time < b.Time)) l).Pairwise
        (fun a b => a.Time ≤ b.Time)
    ∧ ∀ t : α, (SliceStable (fun a b => decide (a.Time < b.Time)) l).filter
          (fun d => decide (d.Time = t))
        = l.filter (fun d => decide (d.Time = t)) := by
  haveI := timeOrder_total (α := α)
  haveI := timeOrder_trans (α := α)
  have hperm := List.perm_insertionSort
    (fun a b => (fun a b : mobility.SetDestCommand α => decide (a.Time < b.Time)) b a = false) l
  refine ⟨hperm, ?_, ?_⟩
  · have hs := List.sorted_insertionSort
      (fun a b => (fun a b : mobility.SetDestCommand α => decide (a.Time < b.Time)) b a = false) l
    refine List.Pairwise.imp ?_ hs
    intro a b hab
    simpa using hab
  · intro t
    have hsub : List.Sublist (l.filter (fun d => decide (d.Time = t)))
        (SliceStable (fun a b => decide (a.Time < b.Time)) l) := by
      apply List.sublist_insertionSort
      · rw [List.pairwise_iff_forall_sublist]
        intro a b hab
        have ha := hab.subset (List.mem_cons_self _ _)
        have hb := hab.subset (List.mem_cons_of_mem _ (List.mem_singleton_self _))
        simp only [List.mem_filter, decide_eq_true_eq] at ha hb
        simp [ha.2, hb.2]
      · exact List.filter_sublist _
    have hsub2 : List.Sublist (l.filter (fun d => decide (d.Time = t)))
        ((SliceStable (fun a b => decide (a.Time < b.Time)) l).filter
            (fun d => decide (d.Time = t))) := by
      have := hsub.filter (fun d => decide (d.Time = t))
      rwa [List.filter_filter, show (fun a : mobility.SetDestCommand α =>
        (decide (a.Time = t) && decide (a.Time = t))) = fun d => decide (d.Time = t) from
          funext fun a => Bool.and_self _] at this
    have hlen := (hperm.filter (fun d => decide (d.Time = t))).length_eq
    exact (hsub2.eq_of_length hlen.symm).symm

/-- C25: `setInitialPositions` returns the SetDest commands of the script (the
commands whose `Set` is nil and whose `SetDest` is not), each with x, y and speed
divided by 1000 and with its node and time, stably sorted by time: a
permutation of them in which the times do not decrease and the commands of one
time keep their script order.  The engine it leaves is the engine after the
`UpdateNode` calls for the Set commands in script order, each with the updater
that stores value/1000 in the axis of the command and returns no error, and the
fields of the manager, the command list among them, are as before. -/
theorem setInitialPositions_contract (m : Mobility α) :
    m.setInitialPositions.dests.Perm
        (m.commands.filterMap (fun c =>
          match c.Set, c.SetDest with
          | none, some d =>
            some { Node := d.Node, Time := d.Time, X := d.X / 1000, Y := d.Y / 1000,
                   Speed := d.Speed / 1000 }
          | _, _ => none))
    ∧ m.setInitialPositions.dests.Pairwise (fun a b => a.Time ≤ b.Time)
    ∧ (∀ t : α, m.setInitialPositions.dests.filter (fun d => decide (d.Time = t))
        = (m.commands.filterMap (fun c =>
            match c.Set, c.SetDest with
            | none, some d =>
              some { Node := d.Node, Time := d.Time, X := d.X / 1000, Y := d.Y / 1000,
                     Speed := d.Speed / 1000 }
            | _, _ => none)).filter (fun d => decide (d.Time = t)))
    ∧ m.setInitialPositions.mob.emu
        = (m.commands.filterMap (fun c => c.Set)).foldl
            (fun e set => (e.UpdateNode set.Node (setAxis set)).emu) m.emu
    ∧ (∀ (set : mobility.SetCommand α) (node : Node α),
        (setAxis set node).2 = none
        ∧ (set.Axis = mobility.XAxis → (setAxis set node).1 = { node with X := set.Val / 1000 })
        ∧ (set.Axis = mobility.YAxis → (setAxis set node).1 = { node with Y := set.Val / 1000 })
        ∧ (set.Axis = mobility.ZAxis → (setAxis set node).1 = { node with Z := set.Val / 1000 }))
    ∧ m.setInitialPositions.mob.commands = m.commands
    ∧ m.setInitialPositions.mob = { m with emu := m.setInitialPositions.mob.emu } := by
  obtain ⟨h1, h2, h3, h4, h5, h6⟩ :=
    foldl_setPosition m.commands { mob := m, effects := [], dests := [] }
  have hd : m.setInitialPositions.dests
      = SliceStable (fun a b => decide (a.Time < b.Time))
          (m.commands.filterMap (fun c =>
            match c.Set, c.SetDest with
            | none, some d =>
              some { Node := d.Node, Time := d.Time, X := d.X / 1000, Y := d.Y / 1000,
                     Speed := d.Speed / 1000 }
            | _, _ => none)) := by
    simp only [Mobility.setInitialPositions, h6, List.nil_append]
  obtain ⟨p1, p2, p3⟩ := SliceStable_time (m.commands.filterMap (fun c =>
            match c.Set, c.SetDest with
            | none, some d =>
              some { Node := d.Node, Time := d.Time, X := d.X / 1000, Y := d.Y / 1000,
                     Speed := d.Speed / 1000 }
            | _, _ => none))
  refine ⟨hd ▸ p1, hd ▸ p2, fun t => hd ▸ p3 t, h5, ?_, h1, ?_⟩
  · intro set node
    unfold setAxis
    refine ⟨?_, ?_, ?_, ?_⟩
    · split_ifs <;> rfl
    · intro h
      simp [h]
    · intro h
      simp [h, mobility.YAxis, mobility.XAxis]
    · intro h
      simp [h, mobility.YAxis, mobility.XAxis, mobility.ZAxis]
  · show (_ : Mobility α) = _
    simp only [Mobility.setInitialPositions] at h1 h2 h3 h4 ⊢
    rcases hm : (List.foldl setPosition { mob := m, effects := [], dests := [] } m.commands).mob
      with ⟨e, t, ts, lp, cs⟩
    rw [hm] at h1 h2 h3 h4
    simp only at h1 h2 h3 h4
    subst h1 h2 h3 h4
    rfl

/-! ## The mobility manager: promotion -/

/-- Reading a key of the active map that was just written gives the written
destination. -/
theorem activeGet_activeSet_self (active : List (String × mobility.SetDestCommand α))
    (id : String) (d : mobility.SetDestCommand α) :
    activeGet (activeSet active id d) id = some d := by
  induction active with
  | nil => simp [activeSet, activeGet]
  | cons p rest ih =>
    rcases p with ⟨k, v⟩
    by_cases h : k = id
    · simp [activeSet, activeGet, h]
    · simp [activeSet, activeGet, h, ih]

/-- Writing a key of the active map leaves the other keys as they were. -/
theorem activeGet_activeSet_ne (active : List (String × mobility.SetDestCommand α))
    (id k : String) (d : mobility.SetDestCommand α) (h : k ≠ id) :
    activeGet (activeSet active id d) k = activeGet active k := by
  induction active with
  | nil => simp [activeSet, activeGet, Ne.symm h]
  | cons p rest ih =>
    rcases p with ⟨j, v⟩
    by_cases hj : j = id
    · subst hj
      simp [activeSet, activeGet, Ne.symm h]
    · by_cases hk : j = k
      · subst hk
        simp [activeSet, activeGet, hj]
      · simp [activeSet, activeGet, hj, hk, ih]

/-- The promotion loop from the index `i` on keeps the elements before `i`, keeps
the later ones that are not due, and writes the due ones to the map in order. -/
theorem promote_eq (elapsed : α) (n : Nat) :
    ∀ (i : Nat) (dests : List (mobility.SetDestCommand α))
      (active : List (String × mobility.SetDestCommand α)), dests.length - i = n →
      promote elapsed i dests active
        = (dests.take i ++ (dests.drop i).filter (fun d => decide (elapsed < d.Time)),
            ((dests.drop i).filter (fun d => decide (d.Time ≤ elapsed))).foldl
              (fun a d => activeSet a d.Node d) active) := by
  induction n using Nat.strong_induction_on with
  | _ n ih =>
    intro i dests active hn
    rw [promote]
    by_cases h : i < dests.length
    · rw [dif_pos h]
      have hdrop : dests.drop i = dests[i] :: dests.drop (i + 1) := List.drop_eq_getElem_cons h
      by_cases hp : elapsed ≥ dests[i].Time
      · rw [if_pos hp]
        have hlen : (dests.take i ++ dests.drop (i + 1)).length - i < n := by
          simp only [List.length_append, List.length_take, List.length_drop]
          omega
        rw [ih _ hlen i _ _ rfl]
        have ht : (dests.take i ++ dests.drop (i + 1)).take i = dests.take i := by
          rw [List.take_append_of_le_length (by simp [List.length_take]; omega)]
          rw [List.take_take]
          simp
        have hd : (dests.take i ++ dests.drop (i + 1)).drop i = dests.drop (i + 1) := by
          rw [List.drop_append_of_le_length (by simp [List.length_take]; omega)]
          rw [List.drop_eq_nil_of_le (by simp [List.length_take])]
          simp
        rw [ht, hd, hdrop]
        have hp1 : ¬ elapsed < dests[i].Time := not_lt.mpr hp
        have hp2 : dests[i].Time ≤ elapsed := hp
        rw [List.filter_cons_of_neg (by simpa using hp1),
          List.filter_cons_of_pos (by simpa using hp2), List.foldl_cons]
      · rw [if_neg hp]
        have hlen : dests.length - (i + 1) < n := by omega
        rw [ih _ hlen (i + 1) _ _ rfl, hdrop]
        have hp1 : elapsed < dests[i].Time := not_le.mp hp
        have hp2 : ¬ dests[i].Time ≤ elapsed := hp
        have ht : dests.take (i + 1) = dests.take i ++ [dests[i]] := by
          rw [List.take_succ, List.getElem?_eq_getElem h]
          rfl
        rw [ht, List.filter_cons_of_pos (by simpa using hp1),
          List.filter_cons_of_neg (by simpa using hp2), List.append_assoc]
        rfl
    · rw [dif_neg h]
      have h1 : dests.drop i = [] := List.drop_eq_nil_of_le (by omega)
      have h2 : dests.take i = dests := List.take_of_length_le (by omega)
      simp [h1, h2]

/-- A lookup after a sequence of map writes: the last write to the key, the old
value when there is none. -/
theorem activeGet_foldl (l : List (mobility.SetDestCommand α)) (node : String) :
    ∀ active : List (String × mobility.SetDestCommand α),
      activeGet (l.foldl (fun a d => activeSet a d.Node d) active) node
        = match (l.filter (fun d => decide (d.Node = node))).getLast? with
          | some d => some d
          | none => activeGet active node := by
  induction l with
  | nil => intro active; simp
  | cons d l ih =>
    intro active
    rw [List.foldl_cons, ih]
    by_cases hd : d.Node = node
    · rw [List.filter_cons_of_pos (by simpa using hd)]
      rcases hl : l.filter (fun d => decide (d.Node = node)) with _ | ⟨x, xs⟩
      · rw [hl, ← hd]
        simp only [List.getLast?_nil, List.getLast?_singleton, activeGet_activeSet_self]
      · rw [hl, List.getLast?_cons_cons]
        rw [List.getLast?_eq_getLast _ (List.cons_ne_nil x xs)]
    · rw [List.filter_cons_of_neg (by simpa using hd)]
      rw [activeGet_activeSet_ne _ _ _ _ (Ne.symm hd)]

/-- C26: the promotion loop of a tick is a partition by time.  For every pending
list (sorted by time or not), every map of active destinations and every
`elapsed`, the pending list afterwards holds the destinations with
time > elapsed in their previous order, and the active destination of a node
is the last destination of the list with time <= elapsed for that node, or
the active destination the node had when nothing was promoted for it. -/
theorem promote_partition (elapsed : α) (dests : List (mobility.SetDestCommand α))
    (active : List (String × mobility.SetDestCommand α)) :
    (promote elapsed 0 dests active).1 = dests.filter (fun d => decide (elapsed < d.Time))
    ∧ ∀ node : String,
        activeGet (promote elapsed 0 dests active).2 node
          = match (dests.filter
              (fun d => decide (d.Time ≤ elapsed) && decide (d.Node = node))).getLast? with
            | some d => some d
            | none => activeGet active node := by
  rw [promote_eq elapsed _ 0 dests active rfl]
  refine ⟨by simp, ?_⟩
  intro node
  simp only [List.drop_zero]
  rw [activeGet_foldl, List.filter_filter]
  simp only [Bool.and_comm]

/-! ## The mobility manager: the active loop -/

/-- A node whose `ID` is the key it is stored under is the node with its `ID` set
to the key. -/
theorem node_with_id (x : Node α) (id : String) (h : x.ID = id) :
    ({ x with ID := id } : Node α) = x := by
  rw [← h]

/-- UpdateNode for a registered, non-empty id when the updater succeeds and leaves
the `ID` equal to the key. -/
theorem UpdateNode_keyed (e : Emulator α) (id : String)
    (f : Node α → Node α × Option String) (x y : Node α)
    (hg : mapGet e.nodes id = some x) (hf : f x = (y, none)) (hid : id ≠ "")
    (hy : y.ID = id) :
    e.UpdateNode id f
      = { emu := { e with nodes := mapSet e.nodes id y }
          effects := [Effect.emit Event.NodeUpdated y EventData.null]
          err := none } := by
  rw [UpdateNode_done e id f x y hg hf hid, node_with_id y id hy]

/-- The updater closure of the active loop never writes the `ID` of the node. -/
theorem moveNode_id (m : GoMath α) (tickrate : α) (command : mobility.SetDestCommand α)
    (node : Node α) : (moveNode m tickrate command node).1.ID = node.ID := by
  unfold moveNode
  simp only
  split_ifs <;> rfl

/-- The treatment of one entry of the active map by a tick, case by case: a speed
that is not positive, a missing node, a node within one step of the
destination, and a node farther away; the other nodes are left as they were. -/
theorem activeStep_spec (m : GoMath α) (tickrate : α) (s : Ticking α) (nodeId : String)
    (command : mobility.SetDestCommand α) (ht : 0 < tickrate)
    (hwk : WellKeyed s.emu.nodes) :
    (command.Speed ≤ 0 →
      activeStep m tickrate s nodeId command
        = { s with active := activeDelete s.active nodeId })
    ∧ (0 < command.Speed → mapGet s.emu.nodes nodeId = none →
      activeStep m tickrate s nodeId command
        = { s with active := activeDelete s.active nodeId })
    ∧ (∀ node : Node α, 0 < command.Speed → mapGet s.emu.nodes nodeId = some node →
        (Vec2.Len m { X := command.X - node.X, Y := command.Y - node.Y }
            < command.Speed / tickrate →
          activeStep m tickrate s nodeId command
            = { s with
                emu := { s.emu with
                  nodes := mapSet s.emu.nodes nodeId { node with X := command.X, Y := command.Y } }
                active := activeDelete s.active nodeId
                effects := s.effects ++ [Effect.emit Event.NodeUpdated
                  { node with X := command.X, Y := command.Y } EventData.null] })
        ∧ (¬ Vec2.Len m { X := command.X - node.X, Y := command.Y - node.Y }
            < command.Speed / tickrate →
          activeStep m tickrate s nodeId command
            = { s with
                emu := { s.emu with
                  nodes := mapSet s.emu.nodes nodeId
                    { node with
                      X := node.X + command.Speed / tickrate * ((command.X - node.X)
                        / Vec2.Len m { X := command.X - node.X, Y := command.Y - node.Y })
                      Y := node.Y + command.Speed / tickrate * ((command.Y - node.Y)
                        / Vec2.Len m { X := command.X - node.X, Y := command.Y - node.Y }) } }
                effects := s.effects ++ [Effect.emit Event.NodeUpdated
                  { node with
                    X := node.X + command.Speed / tickrate * ((command.X - node.X)
                      / Vec2.Len m { X := command.X - node.X, Y := command.Y - node.Y })
                    Y := node.Y + command.Speed / tickrate * ((command.Y - node.Y)
                      / Vec2.Len m { X := command.X - node.X, Y := command.Y - node.Y }) }
                  EventData.null] }))
    ∧ (∀ k : String, k ≠ nodeId →
        mapGet (activeStep m tickrate s nodeId command).emu.nodes k = mapGet s.emu.nodes k) := by
  refine ⟨?_, ?_, ?_, ?_⟩
  · intro h
    simp only [activeStep, if_pos h]
  · intro h hg
    have h' : ¬ command.Speed ≤ 0 := not_le.mpr h
    simp only [activeStep, if_neg h', UpdateNode_missing _ _ _ hg, hg]
    simp
  · intro node h hg
    have h' : ¬ command.Speed ≤ 0 := not_le.mpr h
    have hid := hwk.2 nodeId node hg
    constructor
    · intro hlt
      have hmv : moveNode m tickrate command node
          = ({ node with X := command.X, Y := command.Y }, true) := by
        simp only [moveNode, if_pos hlt]
      have hup := UpdateNode_keyed s.emu nodeId
        (fun node => ((moveNode m tickrate command node).1, none)) node
        { node with X := command.X, Y := command.Y } hg (by simp only [hmv]) hid.1 hid.2
      simp only [activeStep, if_neg h', hup, hg, hmv]
      simp
    · intro hlt
      have hmv : moveNode m tickrate command node
          = ({ node with
                X := node.X + command.Speed / tickrate * ((command.X - node.X)
                  / Vec2.Len m { X := command.X - node.X, Y := command.Y - node.Y })
                Y := node.Y + command.Speed / tickrate * ((command.Y - node.Y)
                  / Vec2.Len m { X := command.X - node.X, Y := command.Y - node.Y }) },
              false) := by
        simp only [moveNode, if_neg hlt, Vec2.Normalize, Vec2.Mul]
        congr 2
        · ring
        · ring
      have hup := UpdateNode_keyed s.emu nodeId
        (fun node => ((moveNode m tickrate command node).1, none)) node
        { node with
          X := node.X + command.Speed / tickrate * ((command.X - node.X)
            / Vec2.Len m { X := command.X - node.X, Y := command.Y - node.Y })
          Y := node.Y + command.Speed / tickrate * ((command.Y - node.Y)
            / Vec2.Len m { X := command.X - node.X, Y := command.Y - node.Y }) }
        hg (by simp only [hmv]) hid.1 hid.2
      simp only [activeStep, if_neg h', hup, hg, hmv]
      simp
  · intro k hk
    by_cases h : command.Speed ≤ 0
    · simp only [activeStep, if_pos h]
    · simp only [activeStep, if_neg h]
      cases hg : mapGet s.emu.nodes nodeId with
      | none => rw [UpdateNode_missing _ _ _ hg]
      | some node =>
        have hid := hwk.2 nodeId node hg
        rw [UpdateNode_done s.emu nodeId _ node (moveNode m tickrate command node).1 hg rfl hid.1]
        exact mapGet_mapSet_ne _ _ _ _ hk

/-- C27: one tick of the active loop for the entry `(nodeId, command)`, on an
engine whose ids are unique and non-empty (every reachable engine) and for a
positive tick rate (`time.NewTicker` accepts no other, and no quotient of the
tick has a zero divisor then).  With `command.Speed <= 0` the entry is deleted
and nothing else happens.  Otherwise, when the node does not exist, the entry is
deleted and the engine is as before; when it exists, with `v` the vector from
the node to the destination and `stepSize = command.Speed / tickrate`: for
`|v| < stepSize` the node gets the x and y of the destination and the entry is
deleted, else x and y advance by `stepSize * v / |v|` and the entry stays.  The
node keeps every other field, each update is reported as one NodeUpdated
event, and every other node is as before. -/
theorem activeStep_cases (m : GoMath α) (tickrate : α) (s : Ticking α) (nodeId : String)
    (command : mobility.SetDestCommand α) (ht : 0 < tickrate)
    (hwk : WellKeyed s.emu.nodes) :
    (command.Speed ≤ 0 →
      activeStep m tickrate s nodeId command
        = { s with active := activeDelete s.active nodeId })
    ∧ (0 < command.Speed → mapGet s.emu.nodes nodeId = none →
      activeStep m tickrate s nodeId command
        = { s with active := activeDelete s.active nodeId })
    ∧ (∀ node : Node α, 0 < command.Speed → mapGet s.emu.nodes nodeId = some node →
        (Vec2.Len m { X := command.X - node.X, Y := command.Y - node.Y }
            < command.Speed / tickrate →
          activeStep m tickrate s nodeId command
            = { s with
                emu := { s.emu with
                  nodes := mapSet s.emu.nodes nodeId { node with X := command.X, Y := command.Y } }
                active := activeDelete s.active nodeId
                effects := s.effects ++ [Effect.emit Event.NodeUpdated
                  { node with X := command.X, Y := command.Y } EventData.null] })
        ∧ (¬ Vec2.Len m { X := command.X - node.X, Y := command.Y - node.Y }
            < command.Speed / tickrate →
          activeStep m tickrate s nodeId command
            = { s with
                emu := { s.emu with
                  nodes := mapSet s.emu.nodes nodeId
                    { node with
                      X := node.X + command.Speed / tickrate * ((command.X - node.X)
                        / Vec2.Len m { X := command.X - node.X, Y := command.Y - node.Y })
                      Y := node.Y + command.Speed / tickrate * ((command.Y - node.Y)
                        / Vec2.Len m { X := command.X - node.X, Y := command.Y - node.Y }) } }
                effects := s.effects ++ [Effect.emit Event.NodeUpdated
                  { node with
                    X := node.X + command.Speed / tickrate * ((command.X - node.X)
                      / Vec2.Len m { X := command.X - node.X, Y := command.Y - node.Y })
                    Y := node.Y + command.Speed / tickrate * ((command.Y - node.Y)
                      / Vec2.Len m { X := command.X - node.X, Y := command.Y - node.Y }) }
                  EventData.null] }))
    ∧ (∀ k : String, k ≠ nodeId →
        mapGet (activeStep m tickrate s nodeId command).emu.nodes k = mapGet s.emu.nodes k) :=
  activeStep_spec m tickrate s nodeId command ht hwk

/-- A key reads as absent from the map of active destinations exactly when it is
not in the key list. -/
theorem activeGet_eq_none_iff (a : List (String × mobility.SetDestCommand α)) (k : String) :
    activeGet a k = none ↔ k ∉ a.map Prod.fst := by
  induction a with
  | nil => simp [activeGet]
  | cons e rest ih =>
    obtain ⟨k2, v⟩ := e
    by_cases h : k2 = k
    · simp [activeGet, h]
    · simp [activeGet, h, ih, Ne.symm h]

/-- An entry that a lookup finds is in the map. -/
theorem activeGet_mem (a : List (String × mobility.SetDestCommand α)) (k : String)
    (c : mobility.SetDestCommand α) (h : activeGet a k = some c) : (k, c) ∈ a := by
  induction a with
  | nil => simp [activeGet] at h
  | cons e rest ih =>
    obtain ⟨k2, v⟩ := e
    by_cases hk : k2 = k
    · simp only [activeGet, if_pos hk] at h
      rw [hk, Option.some.inj h]
      exact List.mem_cons_self _ _
    · simp only [activeGet, if_neg hk] at h
      exact List.mem_cons_of_mem _ (ih h)

/-- The keys after a map write: the keys before, and the key at the end when it is
new. -/
theorem keys_activeSet (a : List (String × mobility.SetDestCommand α)) (k : String)
    (d : mobility.SetDestCommand α) :
    (activeSet a k d).map Prod.fst
      = if k ∈ a.map Prod.fst then a.map Prod.fst else a.map Prod.fst ++ [k] := by
  induction a with
  | nil => simp [activeSet]
  | cons e rest ih =>
    obtain ⟨k2, v⟩ := e
    by_cases hk : k2 = k
    · simp [activeSet, hk]
    · simp only [activeSet, if_neg hk, List.map_cons, ih, List.mem_cons]
      have hk' : ¬ k = k2 := fun h => hk h.symm
      by_cases hm : k ∈ rest.map Prod.fst
      · simp [hm]
      · simp [hm, hk']

/-- A map write keeps the keys pairwise distinct. -/
theorem activeSet_nodup (a : List (String × mobility.SetDestCommand α)) (k : String)
    (d : mobility.SetDestCommand α) (h : (a.map Prod.fst).Nodup) :
    ((activeSet a k d).map Prod.fst).Nodup := by
  rw [keys_activeSet]
  by_cases hm : k ∈ a.map Prod.fst
  · rw [if_pos hm]
    exact h
  · rw [if_neg hm]
    exact List.Nodup.append h (List.nodup_singleton k) (by simpa using hm)

/-- The keys after a removal are among the keys before. -/
theorem keys_activeDelete_sublist (a : List (String × mobility.SetDestCommand α)) (k : String) :
    List.Sublist ((activeDelete a k).map Prod.fst) (a.map Prod.fst) := by
  induction a with
  | nil => simp [activeDelete]
  | cons e rest ih =>
    obtain ⟨k2, v⟩ := e
    by_cases hk : k2 = k
    · simp [activeDelete, hk]
    · simp only [activeDelete, if_neg hk, List.map_cons]
      exact ih.cons₂ _

/-- A removal keeps the keys pairwise distinct. -/
theorem activeDelete_nodup (a : List (String × mobility.SetDestCommand α)) (k : String)
    (h : (a.map Prod.fst).Nodup) : ((activeDelete a k).map Prod.fst).Nodup :=
  h.sublist (keys_activeDelete_sublist a k)

/-- A removal leaves the other keys as they were. -/
theorem activeGet_activeDelete_ne (a : List (String × mobility.SetDestCommand α))
    (k id : String) (h : id ≠ k) : activeGet (activeDelete a k) id = activeGet a id := by
  induction a with
  | nil => simp [activeDelete]
  | cons e rest ih =>
    obtain ⟨k2, v⟩ := e
    by_cases hk : k2 = k
    · subst hk
      simp [activeDelete, activeGet, Ne.symm h]
    · by_cases hk2 : k2 = id
      · subst hk2
        simp [activeDelete, activeGet, hk]
      · simp [activeDelete, activeGet, hk, hk2, ih]

/-- A removed key reads as absent when the keys are pairwise distinct. -/
theorem activeGet_activeDelete_self (a : List (String × mobility.SetDestCommand α))
    (k : String) (h : (a.map Prod.fst).Nodup) : activeGet (activeDelete a k) k = none := by
  induction a with
  | nil => simp [activeDelete, activeGet]
  | cons e rest ih =>
    obtain ⟨k2, v⟩ := e
    simp only [List.map_cons, List.nodup_cons] at h
    by_cases hk : k2 = k
    · subst hk
      simp only [activeDelete, if_pos]
      exact (activeGet_eq_none_iff _ _).mpr h.1
    · simp [activeDelete, activeGet, hk, ih h.2]

/-- UpdateNode leaves the nodes under the other keys as they were. -/
theorem UpdateNode_other (e : Emulator α) (k : String) (f : Node α → Node α × Option String)
    (id : String) (h : id ≠ k) :
    mapGet (e.UpdateNode k f).emu.nodes id = mapGet e.nodes id := by
  cases hg : mapGet e.nodes k with
  | none => rw [UpdateNode_missing e k f hg]
  | some x =>
    rcases hf : f x with ⟨y, _ | err⟩
    · by_cases hk : k = ""
      · rw [UpdateNode_invalid e k f x y hg hf hk]
      · rw [UpdateNode_done e k f x y hg hf hk]
        exact mapGet_mapSet_ne _ _ _ _ h
    · rw [UpdateNode_refused e k f x y err hg hf]

/-- The active map after the active loop has treated one entry: the map before, or
the map before without the key of the entry. -/
theorem activeStep_active (m : GoMath α) (tickrate : α) (s : Ticking α) (k : String)
    (c : mobility.SetDestCommand α) :
    (activeStep m tickrate s k c).active = s.active
    ∨ (activeStep m tickrate s k c).active = activeDelete s.active k
    ∨ (activeStep m tickrate s k c).active = activeDelete (activeDelete s.active k) k := by
  unfold activeStep
  by_cases h : c.Speed ≤ 0
  · rw [if_pos h]
    exact Or.inr (Or.inl rfl)
  · rw [if_neg h]
    simp only
    cases hg : mapGet s.emu.nodes k with
    | none =>
      simp only
      split_ifs
      · exact Or.inr (Or.inl rfl)
      · exact Or.inl rfl
    | some x =>
      simp only
      split_ifs
      · exact Or.inr (Or.inr rfl)
      · exact Or.inr (Or.inl rfl)
      · exact Or.inr (Or.inl rfl)
      · exact Or.inl rfl

/-- The engine after the active loop has treated one entry: the engine before, or
the engine after the `UpdateNode` call for the entry. -/
theorem activeStep_emu (m : GoMath α) (tickrate : α) (s : Ticking α) (k : String)
    (c : mobility.SetDestCommand α) :
    (activeStep m tickrate s k c).emu = s.emu
    ∨ (activeStep m tickrate s k c).emu
        = (s.emu.UpdateNode k (fun node => ((moveNode m tickrate c node).1, none))).emu := by
  unfold activeStep
  by_cases h : c.Speed ≤ 0
  · rw [if_pos h]
    exact Or.inl rfl
  · rw [if_neg h]
    exact Or.inr rfl

/-- The treatment of one entry changes neither the pending list nor `elapsed`. -/
theorem activeStep_dests (m : GoMath α) (tickrate : α) (s : Ticking α) (k : String)
    (c : mobility.SetDestCommand α) :
    (activeStep m tickrate s k c).dests = s.dests
    ∧ (activeStep m tickrate s k c).elapsed = s.elapsed := by
  unfold activeStep
  by_cases h : c.Speed ≤ 0
  · rw [if_pos h]
    exact ⟨rfl, rfl⟩
  · rw [if_neg h]
    exact ⟨rfl, rfl⟩

/-- The treatment of the entry of one node leaves every other node and the active
destination of every other node as they were. -/
theorem activeStep_other (m : GoMath α) (tickrate : α) (s : Ticking α) (k : String)
    (c : mobility.SetDestCommand α) (id : String) (h : id ≠ k) :
    mapGet (activeStep m tickrate s k c).emu.nodes id = mapGet s.emu.nodes id
    ∧ activeGet (activeStep m tickrate s k c).active id = activeGet s.active id := by
  constructor
  · rcases activeStep_emu m tickrate s k c with he | he
    · rw [he]
    · rw [he]
      exact UpdateNode_other _ _ _ _ h
  · rcases activeStep_active m tickrate s k c with ha | ha | ha
    · rw [ha]
    · rw [ha, activeGet_activeDelete_ne _ _ _ h]
    · rw [ha, activeGet_activeDelete_ne _ _ _ h, activeGet_activeDelete_ne _ _ _ h]

/-- The treatment of one entry keeps the ids of the engine unique and non-empty and
the keys of the active map pairwise distinct. -/
theorem activeStep_inv (m : GoMath α) (tickrate : α) (s : Ticking α) (k : String)
    (c : mobility.SetDestCommand α) (hwk : WellKeyed s.emu.nodes)
    (hk : (s.active.map Prod.fst).Nodup) :
    WellKeyed (activeStep m tickrate s k c).emu.nodes
    ∧ ((activeStep m tickrate s k c).active.map Prod.fst).Nodup := by
  constructor
  · rcases activeStep_emu m tickrate s k c with he | he
    · rw [he]
      exact hwk
    · rw [he]
      exact UpdateNode_wellKeyed _ _ _ hwk
  · rcases activeStep_active m tickrate s k c with ha | ha | ha
    · rw [ha]
      exact hk
    · rw [ha]
      exact activeDelete_nodup _ _ hk
    · rw [ha]
      exact activeDelete_nodup _ _ (activeDelete_nodup _ _ hk)

/-- The active loop over a list of entries keeps the ids of the engine unique and
non-empty, the keys of the active map pairwise distinct and the pending list. -/
theorem foldl_activeStep_inv (m : GoMath α) (tickrate : α)
    (L : List (String × mobility.SetDestCommand α)) :
    ∀ s : Ticking α, WellKeyed s.emu.nodes → (s.active.map Prod.fst).Nodup →
      WellKeyed (L.foldl (fun s e => activeStep m tickrate s e.1 e.2) s).emu.nodes
      ∧ ((L.foldl (fun s e => activeStep m tickrate s e.1 e.2) s).active.map Prod.fst).Nodup
      ∧ (L.foldl (fun s e => activeStep m tickrate s e.1 e.2) s).dests = s.dests := by
  induction L with
  | nil => intro s hwk hk; exact ⟨hwk, hk, rfl⟩
  | cons e L ih =>
    intro s hwk hk
    rw [List.foldl_cons]
    obtain ⟨h1, h2⟩ := activeStep_inv m tickrate s e.1 e.2 hwk hk
    obtain ⟨i1, i2, i3⟩ := ih _ h1 h2
    exact ⟨i1, i2, i3.trans (activeStep_dests m tickrate s e.1 e.2).1⟩

/-- The active loop over entries of other nodes leaves a node and its active
destination as they were. -/
theorem foldl_activeStep_other (m : GoMath α) (tickrate : α) (id : String)
    (L : List (String × mobility.SetDestCommand α)) :
    ∀ s : Ticking α, (∀ e ∈ L, e.1 ≠ id) →
      mapGet (L.foldl (fun s e => activeStep m tickrate s e.1 e.2) s).emu.nodes id
        = mapGet s.emu.nodes id
      ∧ activeGet (L.foldl (fun s e => activeStep m tickrate s e.1 e.2) s).active id
        = activeGet s.active id := by
  induction L with
  | nil => intro s _; exact ⟨rfl, rfl⟩
  | cons e L ih =>
    intro s h
    rw [List.foldl_cons]
    obtain ⟨i1, i2⟩ := ih (activeStep m tickrate s e.1 e.2)
      (fun e2 he2 => h e2 (List.mem_cons_of_mem _ he2))
    obtain ⟨o1, o2⟩ := activeStep_other m tickrate s e.1 e.2 id
      (Ne.symm (h e (List.mem_cons_self _ _)))
    exact ⟨i1.trans o1, i2.trans o2⟩

/-- The active loop over a map that holds an entry for a node: for the node and its
active destination, the loop is the treatment of that entry, on a state in
which both are as before the loop. -/
theorem foldl_activeStep_at (m : GoMath α) (tickrate : α) (id : String)
    (cmd : mobility.SetDestCommand α) (L : List (String × mobility.SetDestCommand α))
    (hL : (L.map Prod.fst).Nodup) (hmem : (id, cmd) ∈ L) (s : Ticking α)
    (hwk : WellKeyed s.emu.nodes) (hk : (s.active.map Prod.fst).Nodup) :
    ∃ s1 : Ticking α,
      mapGet s1.emu.nodes id = mapGet s.emu.nodes id
      ∧ activeGet s1.active id = activeGet s.active id
      ∧ WellKeyed s1.emu.nodes ∧ (s1.active.map Prod.fst).Nodup
      ∧ mapGet (L.foldl (fun s e => activeStep m tickrate s e.1 e.2) s).emu.nodes id
          = mapGet (activeStep m tickrate s1 id cmd).emu.nodes id
      ∧ activeGet (L.foldl (fun s e => activeStep m tickrate s e.1 e.2) s).active id
          = activeGet (activeStep m tickrate s1 id cmd).active id := by
  obtain ⟨L1, L2, rfl⟩ := List.append_of_mem hmem
  rw [List.map_append, List.map_cons, List.nodup_append] at hL
  obtain ⟨hL1, hL2, hdis⟩ := hL
  have h1 : ∀ e ∈ L1, e.1 ≠ id := by
    intro e he heq
    exact hdis (List.mem_map_of_mem Prod.fst he) (by rw [heq]; exact List.mem_cons_self _ _)
  have h2 : ∀ e ∈ L2, e.1 ≠ id := by
    intro e he heq
    rw [List.nodup_cons] at hL2
    have hm : e.1 ∈ L2.map Prod.fst := List.mem_map_of_mem Prod.fst he
    rw [heq] at hm
    exact hL2.1 hm
  obtain ⟨a1, a2⟩ := foldl_activeStep_other m tickrate id L1 s h1
  obtain ⟨b1, b2, _⟩ := foldl_activeStep_inv m tickrate L1 s hwk hk
  refine ⟨L1.foldl (fun s e => activeStep m tickrate s e.1 e.2) s, a1, a2, b1, b2, ?_⟩
  rw [List.foldl_append, List.foldl_cons]
  exact foldl_activeStep_other m tickrate id L2 _ h2

/-! ## The mobility manager: termination of a movement -/

/-- A sequence of map writes keeps the keys pairwise distinct. -/
theorem foldl_activeSet_nodup (l : List (mobility.SetDestCommand α)) :
    ∀ a : List (String × mobility.SetDestCommand α), (a.map Prod.fst).Nodup →
      ((l.foldl (fun a d => activeSet a d.Node d) a).map Prod.fst).Nodup := by
  induction l with
  | nil => intro a h; exact h
  | cons d l ih =>
    intro a h
    rw [List.foldl_cons]
    exact ih _ (activeSet_nodup a d.Node d h)

/-- The promotion of a tick, for a node that has no pending destination: the
active destination of the node stays, the keys of the active map stay pairwise
distinct, and the node has no pending destination afterwards. -/
theorem tickPromote_other (elapsed : α) (dests : List (mobility.SetDestCommand α))
    (active : List (String × mobility.SetDestCommand α)) (id : String)
    (hpend : ∀ d ∈ dests, d.Node ≠ id) (hk : (active.map Prod.fst).Nodup) :
    activeGet (if dests.length > 0 then promote elapsed 0 dests active
        else (dests, active)).2 id = activeGet active id
    ∧ ((if dests.length > 0 then promote elapsed 0 dests active
        else (dests, active)).2.map Prod.fst).Nodup
    ∧ ∀ d ∈ (if dests.length > 0 then promote elapsed 0 dests active
        else (dests, active)).1, d.Node ≠ id := by
  by_cases h : dests.length > 0
  · rw [if_pos h, promote_eq elapsed _ 0 dests active rfl]
    simp only [List.drop_zero, List.take_zero, List.nil_append]
    refine ⟨?_, foldl_activeSet_nodup _ _ hk, ?_⟩
    · rw [activeGet_foldl]
      have hnil : (List.filter (fun d => decide (d.Node = id))
          (List.filter (fun d => decide (d.Time ≤ elapsed)) dests)) = [] := by
        rw [List.filter_eq_nil_iff]
        intro d hd
        have := hpend d (List.mem_filter.mp hd).1
        simpa using this
      rw [hnil]
      rfl
    · intro d hd
      exact hpend d (List.mem_filter.mp hd).1
  · rw [if_neg h]
    exact ⟨rfl, hk, hpend⟩

/-- One tick, for a node with an active destination of positive speed and no
pending destination, on an engine with unique, non-empty ids and an active map
with distinct keys: these properties hold after the tick; a node within one
step of the destination is moved onto it and loses the active destination, a
node farther away advances by one step and keeps it. -/
theorem tick_at (m : GoMath α) (tickrate : α) (s : Ticking α) (id : String)
    (cmd : mobility.SetDestCommand α) (node : Node α) (ht : 0 < tickrate)
    (hs : 0 < cmd.Speed) (hwk : WellKeyed s.emu.nodes) (hk : (s.active.map Prod.fst).Nodup)
    (hact : activeGet s.active id = some cmd) (hnode : mapGet s.emu.nodes id = some node)
    (hpend : ∀ d ∈ s.dests, d.Node ≠ id) :
    (WellKeyed (s.tick m tickrate).emu.nodes
      ∧ ((s.tick m tickrate).active.map Prod.fst).Nodup
      ∧ ∀ d ∈ (s.tick m tickrate).dests, d.Node ≠ id)
    ∧ (Vec2.Len m { X := cmd.X - node.X, Y := cmd.Y - node.Y } < cmd.Speed / tickrate →
        mapGet (s.tick m tickrate).emu.nodes id = some { node with X := cmd.X, Y := cmd.Y }
        ∧ activeGet (s.tick m tickrate).active id = none)
    ∧ (¬ Vec2.Len m { X := cmd.X - node.X, Y := cmd.Y - node.Y } < cmd.Speed / tickrate →
        mapGet (s.tick m tickrate).emu.nodes id
          = some { node with
              X := node.X + cmd.Speed / tickrate * ((cmd.X - node.X)
                / Vec2.Len m { X := cmd.X - node.X, Y := cmd.Y - node.Y })
              Y := node.Y + cmd.Speed / tickrate * ((cmd.Y - node.Y)
                / Vec2.Len m { X := cmd.X - node.X, Y := cmd.Y - node.Y }) }
        ∧ activeGet (s.tick m tickrate).active id = some cmd) := by
  obtain ⟨p1, p2, p3⟩ := tickPromote_other (s.elapsed + 1000 / 1000 / tickrate) s.dests
    s.active id hpend hk
  unfold Ticking.tick
  simp only
  generalize (if s.dests.length > 0
    then promote (s.elapsed + 1000 / 1000 / tickrate) 0 s.dests s.active
    else (s.dests, s.active)) = P at p1 p2 p3 ⊢
  obtain ⟨i1, i2, i3⟩ := foldl_activeStep_inv m tickrate P.2
    { s with dests := P.1, active := P.2, elapsed := s.elapsed + 1000 / 1000 / tickrate }
    hwk p2
  obtain ⟨s1, a1, a2, a3, a4, a5, a6⟩ := foldl_activeStep_at m tickrate id cmd P.2 p2
    (activeGet_mem _ _ _ (p1.trans hact))
    { s with dests := P.1, active := P.2, elapsed := s.elapsed + 1000 / 1000 / tickrate }
    hwk p2
  have hn1 : mapGet s1.emu.nodes id = some node := a1.trans hnode
  have hc1 : activeGet s1.active id = some cmd := a2.trans (p1.trans hact)
  obtain ⟨_, _, c3, _⟩ := activeStep_spec m tickrate s1 id cmd ht a3
  obtain ⟨c3a, c3b⟩ := c3 node hs hn1
  refine ⟨⟨i1, i2, ?_⟩, ?_, ?_⟩
  · rw [i3]
    exact p3
  · intro hlt
    rw [a5, a6, c3a hlt]
    exact ⟨mapGet_mapSet_self _ _ _, activeGet_activeDelete_self _ _ a4⟩
  · intro hlt
    rw [a5, a6, c3b hlt]
    exact ⟨mapGet_mapSet_self _ _ _, hc1⟩

/-- One tick, for a node without active and without pending destination: the node
is as before and has no active destination afterwards. -/
theorem tick_idle (m : GoMath α) (tickrate : α) (s : Ticking α) (id : String)
    (hwk : WellKeyed s.emu.nodes) (hk : (s.active.map Prod.fst).Nodup)
    (hact : activeGet s.active id = none) (hpend : ∀ d ∈ s.dests, d.Node ≠ id) :
    (WellKeyed (s.tick m tickrate).emu.nodes
      ∧ ((s.tick m tickrate).active.map Prod.fst).Nodup
      ∧ ∀ d ∈ (s.tick m tickrate).dests, d.Node ≠ id)
    ∧ mapGet (s.tick m tickrate).emu.nodes id = mapGet s.emu.nodes id
    ∧ activeGet (s.tick m tickrate).active id = none := by
  obtain ⟨p1, p2, p3⟩ := tickPromote_other (s.elapsed + 1000 / 1000 / tickrate) s.dests
    s.active id hpend hk
  unfold Ticking.tick
  simp only
  generalize (if s.dests.length > 0
    then promote (s.elapsed + 1000 / 1000 / tickrate) 0 s.dests s.active
    else (s.dests, s.active)) = P at p1 p2 p3 ⊢
  obtain ⟨i1, i2, i3⟩ := foldl_activeStep_inv m tickrate P.2
    { s with dests := P.1, active := P.2, elapsed := s.elapsed + 1000 / 1000 / tickrate }
    hwk p2
  have hnone : ∀ e ∈ P.2, e.1 ≠ id := by
    intro e he heq
    have := (activeGet_eq_none_iff P.2 id).mp (p1.trans hact)
    exact this (heq ▸ List.mem_map_of_mem Prod.fst he)
  obtain ⟨o1, o2⟩ := foldl_activeStep_other m tickrate id P.2
    { s with dests := P.1, active := P.2, elapsed := s.elapsed + 1000 / 1000 / tickrate }
    hnone
  refine ⟨⟨i1, i2, ?_⟩, o1, o2.trans (p1.trans hact)⟩
  rw [i3]
  exact p3

/-- Ticks never move a node that has neither an active nor a pending destination. -/
theorem run_idle (m : GoMath α) (tickrate : α) (id : String) (n : Nat) :
    ∀ s : Ticking α, WellKeyed s.emu.nodes → (s.active.map Prod.fst).Nodup →
      activeGet s.active id = none → (∀ d ∈ s.dests, d.Node ≠ id) →
      mapGet (Ticking.run m tickrate n s).emu.nodes id = mapGet s.emu.nodes id
      ∧ activeGet (Ticking.run m tickrate n s).active id = none := by
  induction n with
  | zero => intro s _ _ hact _; exact ⟨rfl, hact⟩
  | succ n ih =>
    intro s hwk hk hact hpend
    obtain ⟨⟨t1, t2, t3⟩, t4, t5⟩ := tick_idle m tickrate s id hwk hk hact hpend
    simp only [Ticking.run]
    split_ifs
    · exact ⟨t4, t5⟩
    · obtain ⟨r1, r2⟩ := ih _ t1 t2 t5 t3
      exact ⟨r1.trans t4, r2⟩

/-- A step of length `s` toward a point at the distance `D >= s` leaves the
distance `D - s`. -/
theorem Len_advance (x y cx cy s : ℝ) (hs : 0 < s)
    (hge : s ≤ Real.sqrt ((cx - x) * (cx - x) + (cy - y) * (cy - y))) :
    Real.sqrt
        ((cx - (x + s * ((cx - x) / Real.sqrt ((cx - x) * (cx - x) + (cy - y) * (cy - y)))))
            * (cx - (x + s * ((cx - x) / Real.sqrt ((cx - x) * (cx - x) + (cy - y) * (cy - y)))))
          + (cy - (y + s * ((cy - y) / Real.sqrt ((cx - x) * (cx - x) + (cy - y) * (cy - y)))))
            * (cy - (y + s * ((cy - y) / Real.sqrt ((cx - x) * (cx - x) + (cy - y) * (cy - y))))))
      = Real.sqrt ((cx - x) * (cx - x) + (cy - y) * (cy - y)) - s := by
  have hnn : 0 ≤ (cx - x) * (cx - x) + (cy - y) * (cy - y) :=
    add_nonneg (mul_self_nonneg _) (mul_self_nonneg _)
  generalize hD : Real.sqrt ((cx - x) * (cx - x) + (cy - y) * (cy - y)) = D at hge ⊢
  have hDD : D * D = (cx - x) * (cx - x) + (cy - y) * (cy - y) := by
    rw [← hD]
    exact Real.mul_self_sqrt hnn
  have hDpos : 0 < D := lt_of_lt_of_le hs hge
  have hDne : D ≠ 0 := ne_of_gt hDpos
  have hx : cx - (x + s * ((cx - x) / D)) = (cx - x) * ((D - s) / D) := by
    field_simp
    ring
  have hy : cy - (y + s * ((cy - y) / D)) = (cy - y) * ((D - s) / D) := by
    field_simp
    ring
  have hsq : (cx - (x + s * ((cx - x) / D))) * (cx - (x + s * ((cx - x) / D)))
      + (cy - (y + s * ((cy - y) / D))) * (cy - (y + s * ((cy - y) / D)))
      = (D - s) * (D - s) := by
    rw [hx, hy]
    have : (cx - x) * ((D - s) / D) * ((cx - x) * ((D - s) / D))
        + (cy - y) * ((D - s) / D) * ((cy - y) * ((D - s) / D))
        = ((cx - x) * (cx - x) + (cy - y) * (cy - y)) * (((D - s) / D) * ((D - s) / D)) := by
      ring
    rw [this, ← hDD]
    field_simp
  rw [hsq]
  exact Real.sqrt_mul_self (sub_nonneg.mpr hge)

/-- The movement of a node toward its active destination, by induction on the
number of whole steps that fit into the distance. -/
theorem run_arrives (tickrate : ℝ) (id : String) (cmd : mobility.SetDestCommand ℝ)
    (ht : 0 < tickrate) (hs : 0 < cmd.Speed) (k : Nat) :
    ∀ (s : Ticking ℝ) (node : Node ℝ), WellKeyed s.emu.nodes →
      (s.active.map Prod.fst).Nodup → activeGet s.active id = some cmd →
      mapGet s.emu.nodes id = some node → (∀ d ∈ s.dests, d.Node ≠ id) →
      ⌊Vec2.Len ⟨Real.sqrt, Real.logb 10, Real.rpow⟩
          { X := cmd.X - node.X, Y := cmd.Y - node.Y } / (cmd.Speed / tickrate)⌋₊ = k →
      ∀ n : Nat, k + 1 ≤ n →
        mapGet (Ticking.run ⟨Real.sqrt, Real.logb 10, Real.rpow⟩ tickrate n s).emu.nodes id
          = some { node with X := cmd.X, Y := cmd.Y }
        ∧ activeGet (Ticking.run ⟨Real.sqrt, Real.logb 10, Real.rpow⟩ tickrate n s).active id
          = none := by
  have hst : 0 < cmd.Speed / tickrate := div_pos hs ht
  induction k with
  | zero =>
    intro s node hwk hk hact hnode hpend hfl n hn
    obtain ⟨⟨t1, t2, t3⟩, t4, _⟩ := tick_at ⟨Real.sqrt, Real.logb 10, Real.rpow⟩ tickrate s id
      cmd node ht hs hwk hk hact hnode hpend
    have hlt : Vec2.Len ⟨Real.sqrt, Real.logb 10, Real.rpow⟩
        { X := cmd.X - node.X, Y := cmd.Y - node.Y } < cmd.Speed / tickrate := by
      have := Nat.floor_eq_zero.mp hfl
      rwa [div_lt_one hst] at this
    obtain ⟨u1, u2⟩ := t4 hlt
    obtain ⟨n, rfl⟩ : ∃ n2, n = n2 + 1 := ⟨n - 1, by omega⟩
    simp only [Ticking.run]
    split_ifs
    · exact ⟨u1, u2⟩
    · obtain ⟨r1, r2⟩ := run_idle ⟨Real.sqrt, Real.logb 10, Real.rpow⟩ tickrate id n _ t1 t2 u2 t3
      exact ⟨r1.trans u1, r2⟩
  | succ k ih =>
    intro s node hwk hk hact hnode hpend hfl n hn
    obtain ⟨⟨t1, t2, t3⟩, _, t5⟩ := tick_at ⟨Real.sqrt, Real.logb 10, Real.rpow⟩ tickrate s id
      cmd node ht hs hwk hk hact hnode hpend
    have hge : cmd.Speed / tickrate ≤ Vec2.Len ⟨Real.sqrt, Real.logb 10, Real.rpow⟩
        { X := cmd.X - node.X, Y := cmd.Y - node.Y } := by
      by_contra hcon
      have hlt := not_le.mp hcon
      have : ⌊Vec2.Len ⟨Real.sqrt, Real.logb 10, Real.rpow⟩
          { X := cmd.X - node.X, Y := cmd.Y - node.Y } / (cmd.Speed / tickrate)⌋₊ = 0 :=
        Nat.floor_eq_zero.mpr ((div_lt_one hst).mpr hlt)
      omega
    obtain ⟨u1, u2⟩ := t5 (not_lt.mpr hge)
    have hadv := Len_advance node.X node.Y cmd.X cmd.Y (cmd.Speed / tickrate) hst hge
    have hfl2 : ⌊Vec2.Len ⟨Real.sqrt, Real.logb 10, Real.rpow⟩
        { X := cmd.X - (node.X + cmd.Speed / tickrate * ((cmd.X - node.X)
                / Vec2.Len ⟨Real.sqrt, Real.logb 10, Real.rpow⟩
                    { X := cmd.X - node.X, Y := cmd.Y - node.Y })),
          Y := cmd.Y - (node.Y + cmd.Speed / tickrate * ((cmd.Y - node.Y)
                / Vec2.Len ⟨Real.sqrt, Real.logb 10, Real.rpow⟩
                    { X := cmd.X - node.X, Y := cmd.Y - node.Y })) }
        / (cmd.Speed / tickrate)⌋₊ = k := by
      have e1 : Vec2.Len ⟨Real.sqrt, Real.logb 10, Real.rpow⟩
          { X := cmd.X - (node.X + cmd.Speed / tickrate * ((cmd.X - node.X)
                / Vec2.Len ⟨Real.sqrt, Real.logb 10, Real.rpow⟩
                    { X := cmd.X - node.X, Y := cmd.Y - node.Y })),
            Y := cmd.Y - (node.Y + cmd.Speed / tickrate * ((cmd.Y - node.Y)
                / Vec2.Len ⟨Real.sqrt, Real.logb 10, Real.rpow⟩
                    { X := cmd.X - node.X, Y := cmd.Y - node.Y })) }
          = Vec2.Len ⟨Real.sqrt, Real.logb 10, Real.rpow⟩
              { X := cmd.X - node.X, Y := cmd.Y - node.Y } - cmd.Speed / tickrate := hadv
      rw [e1, sub_div, div_self (ne_of_gt hst), Nat.floor_sub_one, hfl]
      rfl
    obtain ⟨n, rfl⟩ : ∃ n2, n = n2 + 1 := ⟨n - 1, by omega⟩
    have hne : ¬ ((Ticking.tick ⟨Real.sqrt, Real.logb 10, Real.rpow⟩ tickrate s).active.length = 0
        ∧ (Ticking.tick ⟨Real.sqrt, Real.logb 10, Real.rpow⟩ tickrate s).dests.length = 0) := by
      intro hcon
      have hnil := List.length_eq_zero.mp hcon.1
      rw [hnil] at u2
      exact Option.noConfusion u2
    simp only [Ticking.run]
    rw [if_neg hne]
    exact ih _ _ t1 t2 u2 u1 t3 hfl2 n (by omega)

/-- A map of active destinations in which no key reads as present is empty. -/
theorem active_nil_of_none (a : List (String × mobility.SetDestCommand α))
    (h : ∀ id : String, activeGet a id = none) : a = [] := by
  cases a with
  | nil => rfl
  | cons e rest =>
    obtain ⟨k, v⟩ := e
    have := h k
    simp [activeGet] at this

/-- One tick, for a node whose active destination has no positive speed or which
does not exist: the destination is dropped. -/
theorem tick_drop (m : GoMath α) (tickrate : α) (s : Ticking α) (id : String)
    (cmd : mobility.SetDestCommand α) (ht : 0 < tickrate)
    (hwk : WellKeyed s.emu.nodes) (hk : (s.active.map Prod.fst).Nodup)
    (hact : activeGet s.active id = some cmd) (hpend : ∀ d ∈ s.dests, d.Node ≠ id)
    (hbad : cmd.Speed ≤ 0 ∨ mapGet s.emu.nodes id = none) :
    activeGet (s.tick m tickrate).active id = none := by
  obtain ⟨p1, p2, p3⟩ := tickPromote_other (s.elapsed + 1000 / 1000 / tickrate) s.dests
    s.active id hpend hk
  unfold Ticking.tick
  simp only
  generalize (if s.dests.length > 0
    then promote (s.elapsed + 1000 / 1000 / tickrate) 0 s.dests s.active
    else (s.dests, s.active)) = P at p1 p2 p3 ⊢
  obtain ⟨s1, a1, a2, a3, a4, a5, a6⟩ := foldl_activeStep_at m tickrate id cmd P.2 p2
    (activeGet_mem _ _ _ (p1.trans hact))
    { s with dests := P.1, active := P.2, elapsed := s.elapsed + 1000 / 1000 / tickrate }
    hwk p2
  obtain ⟨c1, c2, _, _⟩ := activeStep_spec m tickrate s1 id cmd ht a3
  rw [a6]
  by_cases hsp : cmd.Speed ≤ 0
  · rw [c1 hsp]
    exact activeGet_activeDelete_self _ _ a4
  · have hmiss : mapGet s.emu.nodes id = none := hbad.resolve_left hsp
    rw [c2 (not_le.mp hsp) (a1.trans hmiss)]
    exact activeGet_activeDelete_self _ _ a4

/-- One tick keeps the ids of the engine unique and non-empty and the keys of the
active map pairwise distinct, and an empty pending list stays empty. -/
theorem tick_inv (m : GoMath α) (tickrate : α) (s : Ticking α)
    (hwk : WellKeyed s.emu.nodes) (hk : (s.active.map Prod.fst).Nodup) (hd : s.dests = []) :
    WellKeyed (s.tick m tickrate).emu.nodes
    ∧ ((s.tick m tickrate).active.map Prod.fst).Nodup
    ∧ (s.tick m tickrate).dests = [] := by
  unfold Ticking.tick
  simp only
  rw [if_neg (by rw [hd]; exact Nat.lt_irrefl 0)]
  obtain ⟨i1, i2, i3⟩ := foldl_activeStep_inv m tickrate s.active
    { s with dests := s.dests, active := s.active,
             elapsed := s.elapsed + 1000 / 1000 / tickrate } hwk hk
  exact ⟨i1, i2, i3.trans hd⟩

/-- Ticks keep the ids of the engine unique and non-empty and the keys of the active
map pairwise distinct, and an empty pending list stays empty. -/
theorem run_inv (m : GoMath α) (tickrate : α) (n : Nat) :
    ∀ s : Ticking α, WellKeyed s.emu.nodes → (s.active.map Prod.fst).Nodup → s.dests = [] →
      WellKeyed (Ticking.run m tickrate n s).emu.nodes
      ∧ ((Ticking.run m tickrate n s).active.map Prod.fst).Nodup
      ∧ (Ticking.run m tickrate n s).dests = [] := by
  induction n with
  | zero => intro s hwk hk hd; exact ⟨hwk, hk, hd⟩
  | succ n ih =>
    intro s hwk hk hd
    obtain ⟨t1, t2, t3⟩ := tick_inv m tickrate s hwk hk hd
    simp only [Ticking.run]
    split_ifs
    · exact ⟨t1, t2, t3⟩
    · exact ih _ t1 t2 t3

/-- With an empty pending list, every node loses its active destination after
finitely many ticks, for good. -/
theorem entry_gone (tickrate : ℝ) (ht : 0 < tickrate) (s : Ticking ℝ) (id : String)
    (hwk : WellKeyed s.emu.nodes) (hk : (s.active.map Prod.fst).Nodup) (hd : s.dests = []) :
    ∃ N : Nat, ∀ n : Nat, N ≤ n →
      activeGet (Ticking.run ⟨Real.sqrt, Real.logb 10, Real.rpow⟩ tickrate n s).active id
        = none := by
  have hpend : ∀ t : Ticking ℝ, t.dests = [] → ∀ d ∈ t.dests, d.Node ≠ id := by
    intro t htd d hdm
    rw [htd] at hdm
    exact absurd hdm (List.not_mem_nil _)
  cases hact : activeGet s.active id with
  | none =>
    exact ⟨0, fun n _ => (run_idle _ tickrate id n s hwk hk hact (hpend s hd)).2⟩
  | some cmd =>
    by_cases hbad : cmd.Speed ≤ 0 ∨ mapGet s.emu.nodes id = none
    · refine ⟨1, fun n hn => ?_⟩
      obtain ⟨n, rfl⟩ : ∃ n2, n = n2 + 1 := ⟨n - 1, by omega⟩
      have hgone := tick_drop ⟨Real.sqrt, Real.logb 10, Real.rpow⟩ tickrate s id cmd ht hwk hk
        hact (hpend s hd) hbad
      obtain ⟨t1, t2, t3⟩ := tick_inv ⟨Real.sqrt, Real.logb 10, Real.rpow⟩ tickrate s hwk hk hd
      simp only [Ticking.run]
      split_ifs
      · exact hgone
      · exact (run_idle _ tickrate id n _ t1 t2 hgone (hpend _ t3)).2
    · have hsp : 0 < cmd.Speed := not_le.mp (fun h => hbad (Or.inl h))
      cases hnode : mapGet s.emu.nodes id with
      | none => exact absurd (Or.inr hnode) hbad
      | some node =>
        exact ⟨_, fun n hn =>
          (run_arrives tickrate id cmd ht hsp _ s node hwk hk hact hnode (hpend s hd) rfl n
            hn).2⟩

/-- With an empty pending list, the nodes of a list lose their active destinations
after finitely many ticks, for good. -/
theorem entries_gone (tickrate : ℝ) (ht : 0 < tickrate) (s : Ticking ℝ)
    (hwk : WellKeyed s.emu.nodes) (hk : (s.active.map Prod.fst).Nodup) (hd : s.dests = [])
    (ids : List String) :
    ∃ N : Nat, ∀ n : Nat, N ≤ n → ∀ id ∈ ids,
      activeGet (Ticking.run ⟨Real.sqrt, Real.logb 10, Real.rpow⟩ tickrate n s).active id
        = none := by
  induction ids with
  | nil => exact ⟨0, fun n _ id hid => absurd hid (List.not_mem_nil _)⟩
  | cons id ids ih =>
    obtain ⟨N1, h1⟩ := ih
    obtain ⟨N2, h2⟩ := entry_gone tickrate ht s id hwk hk hd
    refine ⟨max N1 N2, fun n hn k hkm => ?_⟩
    rcases List.mem_cons.mp hkm with rfl | hkm
    · exact h2 n (le_trans (le_max_right _ _) hn)
    · exact h1 n (le_trans (le_max_left _ _) hn) k hkm

/-- With an empty pending list, the tick loop is left after finitely many ticks:
from some number of ticks on the active map and the pending list are empty. -/
theorem run_ends (tickrate : ℝ) (ht : 0 < tickrate) (s : Ticking ℝ)
    (hwk : WellKeyed s.emu.nodes) (hk : (s.active.map Prod.fst).Nodup) (hd : s.dests = []) :
    ∃ N : Nat, ∀ n : Nat, N ≤ n →
      (Ticking.run ⟨Real.sqrt, Real.logb 10, Real.rpow⟩ tickrate n s).active = []
      ∧ (Ticking.run ⟨Real.sqrt, Real.logb 10, Real.rpow⟩ tickrate n s).dests = [] := by
  obtain ⟨N, hN⟩ := entries_gone tickrate ht s hwk hk hd (s.active.map Prod.fst)
  refine ⟨N, fun n hn => ⟨?_, (run_inv _ tickrate n s hwk hk hd).2.2⟩⟩
  apply active_nil_of_none
  intro id
  by_cases hmem : id ∈ s.active.map Prod.fst
  · exact hN n hn id hmem
  · have hnone := (activeGet_eq_none_iff s.active id).mpr hmem
    exact (run_idle _ tickrate id n s hwk hk hnone (by
      rw [hd]
      intro d hdm
      exact absurd hdm (List.not_mem_nil _))).2

/-- C28, amended: a movement that no later destination replaces ends at its
destination.  For a positive tick rate, a node
of an engine with unique, non-empty ids and an active destination of positive
speed for it, in a tick loop whose active map has distinct keys and whose
pending list holds no destination for the node (none that would replace the
active one), with the real square root: a tick that does not snap leaves the
node at the distance `D - stepSize` from the destination, with the destination
still active, where `D` is the distance before and
`stepSize = speed / tickrate`; and after `floor(D / stepSize) + 1` ticks, and
after any greater number, the node has the x and y of the destination, its
other fields as at the start, and no active destination.  When the pending
list is empty, the tick loop is left after finitely many ticks: from some
number of ticks on, the active map and the pending list are both empty. -/
theorem movement_terminates (tickrate : ℝ) (s : Ticking ℝ) (id : String)
    (cmd : mobility.SetDestCommand ℝ) (node : Node ℝ) (ht : 0 < tickrate)
    (hs : 0 < cmd.Speed) (hwk : WellKeyed s.emu.nodes) (hk : (s.active.map Prod.fst).Nodup)
    (hact : activeGet s.active id = some cmd) (hnode : mapGet s.emu.nodes id = some node)
    (hpend : ∀ d ∈ s.dests, d.Node ≠ id) :
    (¬ Vec2.Len ⟨Real.sqrt, Real.logb 10, Real.rpow⟩
          { X := cmd.X - node.X, Y := cmd.Y - node.Y } < cmd.Speed / tickrate →
      ∃ moved : Node ℝ,
        mapGet (s.tick ⟨Real.sqrt, Real.logb 10, Real.rpow⟩ tickrate).emu.nodes id = some moved
        ∧ Vec2.Len ⟨Real.sqrt, Real.logb 10, Real.rpow⟩
            { X := cmd.X - moved.X, Y := cmd.Y - moved.Y }
          = Vec2.Len ⟨Real.sqrt, Real.logb 10, Real.rpow⟩
              { X := cmd.X - node.X, Y := cmd.Y - node.Y } - cmd.Speed / tickrate
        ∧ activeGet (s.tick ⟨Real.sqrt, Real.logb 10, Real.rpow⟩ tickrate).active id
          = some cmd)
    ∧ (∀ n : Nat,
        ⌊Vec2.Len ⟨Real.sqrt, Real.logb 10, Real.rpow⟩
            { X := cmd.X - node.X, Y := cmd.Y - node.Y } / (cmd.Speed / tickrate)⌋₊ + 1 ≤ n →
        mapGet (Ticking.run ⟨Real.sqrt, Real.logb 10, Real.rpow⟩ tickrate n s).emu.nodes id
          = some { node with X := cmd.X, Y := cmd.Y }
        ∧ activeGet (Ticking.run ⟨Real.sqrt, Real.logb 10, Real.rpow⟩ tickrate n s).active id
          = none)
    ∧ (s.dests = [] →
        ∃ N : Nat, ∀ n : Nat, N ≤ n →
          (Ticking.run ⟨Real.sqrt, Real.logb 10, Real.rpow⟩ tickrate n s).active = []
          ∧ (Ticking.run ⟨Real.sqrt, Real.logb 10, Real.rpow⟩ tickrate n s).dests = []) := by
  refine ⟨?_, ?_, ?_⟩
  · intro hlt
    obtain ⟨_, _, t5⟩ := tick_at ⟨Real.sqrt, Real.logb 10, Real.rpow⟩ tickrate s id
      cmd node ht hs hwk hk hact hnode hpend
    obtain ⟨u1, u2⟩ := t5 hlt
    exact ⟨_, u1, Len_advance node.X node.Y cmd.X cmd.Y (cmd.Speed / tickrate) (div_pos hs ht)
      (not_lt.mp hlt), u2⟩
  · intro n hn
    exact run_arrives tickrate id cmd ht hs _ s node hwk hk hact hnode hpend rfl n hn
  · intro hd
    exact run_ends tickrate ht s hwk hk hd

/-- The ids of the two-node test engine are unique and non-empty. -/
theorem pairEmulator_wellKeyed (gamma : α) (wallNow : Int) :
    WellKeyed (pairEmulator gamma wallNow).nodes :=
  AddNode_wellKeyed _ _ (AddNode_wellKeyed _ _ (New_wellKeyed _ _ _ _ _ _))

/-- The distance from node "1" of the test engine, at (1, 1), to the point (4, 5)
is 5. -/
theorem moving_distance :
    Vec2.Len ⟨Real.sqrt, Real.logb 10, Real.rpow⟩
      { X := (4 : ℝ) - (testNode "1" 1 40 : Node ℝ).X,
        Y := (5 : ℝ) - (testNode "1" 1 40 : Node ℝ).Y } = 5 := by
  simp only [Vec2.Len, testNode]
  rw [show ((4 : ℝ) - 1) * (4 - 1) + (5 - 1) * (5 - 1) = 5 * 5 by norm_num]
  exact Real.sqrt_mul_self (by norm_num)

/-- C28, example: node "1" of the test engine, at (1, 1), moves to (4, 5) at the
speed 10 with 10 ticks per second: the step is 1, the distance 5, and after 6
ticks the node is at (4, 5) and the destination is no longer active. -/
theorem movement_terminates_witness :
    mapGet (Ticking.run ⟨Real.sqrt, Real.logb 10, Real.rpow⟩ 10 6
        (movingState : Ticking ℝ)).emu.nodes "1"
      = some { (testNode "1" 1 40 : Node ℝ) with X := 4, Y := 5 }
    ∧ activeGet (Ticking.run ⟨Real.sqrt, Real.logb 10, Real.rpow⟩ 10 6
        (movingState : Ticking ℝ)).active "1" = none :=
  (movement_terminates 10 (movingState : Ticking ℝ) "1"
    { Node := "1", Time := 0, X := 4, Y := 5, Speed := 10 } (testNode "1" 1 40)
    (by norm_num) (by norm_num) (pairEmulator_wellKeyed 2 1000)
    (by simp [movingState]) rfl rfl (by simp [movingState])).2.1 6
    (by
      rw [moving_distance]
      norm_num)

/-- C27, example: the tick of the entry for node "1" in the same tick loop.  The
node, at the distance 5, advances by the step 1 along (3, 4) / 5 and the
destination stays active. -/
theorem activeStep_cases_witness :
    (activeStep ⟨Real.sqrt, Real.logb 10, Real.rpow⟩ 10 (movingState : Ticking ℝ) "1"
        { Node := "1", Time := 0, X := 4, Y := 5, Speed := 10 }).active
      = [("1", { Node := "1", Time := 0, X := 4, Y := 5, Speed := 10 })]
    ∧ mapGet (activeStep ⟨Real.sqrt, Real.logb 10, Real.rpow⟩ 10 (movingState : Ticking ℝ) "1"
        { Node := "1", Time := 0, X := 4, Y := 5, Speed := 10 }).emu.nodes "1"
      = some { (testNode "1" 1 40 : Node ℝ) with
          X := 1 + 10 / 10 * ((4 - 1) / 5), Y := 1 + 10 / 10 * ((5 - 1) / 5) } := by
  have h := ((activeStep_cases ⟨Real.sqrt, Real.logb 10, Real.rpow⟩ 10
    (movingState : Ticking ℝ) "1" { Node := "1", Time := 0, X := 4, Y := 5, Speed := 10 }
    (by norm_num) (pairEmulator_wellKeyed 2 1000)).2.2.1 (testNode "1" 1 40) (by norm_num)
    rfl).2 (by rw [moving_distance]; norm_num)
  rw [h]
  refine ⟨rfl, ?_⟩
  show mapGet (mapSet _ "1" _) "1" = _
  rw [mapGet_mapSet_self, moving_distance]
  rfl

/-- The first tick of the paced loop: the first destination becomes active, the
halt stays pending, and node "1" advances from (1, 1) by the step 1 along
(3, 4) / 5. -/
theorem paced_first_tick :
    (pacedState : Ticking ℝ).tick ⟨Real.sqrt, Real.logb 10, Real.rpow⟩ 10
      = { emu := { (pairEmulator 2 1000 : Emulator ℝ) with
            nodes := mapSet (pairEmulator 2 1000 : Emulator ℝ).nodes "1"
              { (testNode "1" 1 40 : Node ℝ) with X := 8 / 5, Y := 9 / 5 } },
          dests := [{ Node := "1", Time := 3 / 20, X := 4, Y := 5, Speed := 0 }],
          active := [("1", { Node := "1", Time := 0, X := 4, Y := 5, Speed := 10 })],
          elapsed := 0 + 1000 / 1000 / 10,
          effects := [Effect.emit Event.NodeUpdated
            { (testNode "1" 1 40 : Node ℝ) with X := 8 / 5, Y := 9 / 5 } EventData.null] } := by
  have hP : promote ((0 : ℝ) + 1000 / 1000 / 10) 0
      [{ Node := "1", Time := 0, X := 4, Y := 5, Speed := 10 },
       { Node := "1", Time := 3 / 20, X := 4, Y := 5, Speed := 0 }] []
      = ([{ Node := "1", Time := 3 / 20, X := 4, Y := 5, Speed := 0 }],
         [("1", { Node := "1", Time := 0, X := 4, Y := 5, Speed := 10 })]) := by
    rw [promote_eq _ _ 0 _ _ rfl]
    norm_num [List.filter, activeSet]
  have hstep := ((activeStep_spec ⟨Real.sqrt, Real.logb 10, Real.rpow⟩ 10
    { emu := (pairEmulator 2 1000 : Emulator ℝ),
      dests := [{ Node := "1", Time := 3 / 20, X := 4, Y := 5, Speed := 0 }],
      active := [("1", { Node := "1", Time := 0, X := 4, Y := 5, Speed := 10 })],
      elapsed := 0 + 1000 / 1000 / 10, effects := [] } "1"
    { Node := "1", Time := 0, X := 4, Y := 5, Speed := 10 } (by norm_num)
    (pairEmulator_wellKeyed 2 1000)).2.2.1 (testNode "1" 1 40) (by norm_num) rfl).2
    (by rw [moving_distance]; norm_num)
  rw [moving_distance] at hstep
  have hx : (testNode "1" 1 40 : Node ℝ).X + 10 / 10 * ((4 - (testNode "1" 1 40 : Node ℝ).X) / 5)
      = 8 / 5 := by
    simp only [testNode]
    norm_num
  have hy : (testNode "1" 1 40 : Node ℝ).Y + 10 / 10 * ((5 - (testNode "1" 1 40 : Node ℝ).Y) / 5)
      = 9 / 5 := by
    simp only [testNode]
    norm_num
  rw [hx, hy] at hstep
  unfold Ticking.tick
  simp only [pacedState]
  rw [if_pos (by decide), hP]
  simp only [List.foldl_cons, List.foldl_nil]
  rw [hstep]
  simp

/-- The second tick of the paced loop: the halt replaces the active destination
and is dropped for its speed; the node stays where it is and both the active
map and the pending list are empty. -/
theorem paced_second_tick :
    Ticking.tick ⟨Real.sqrt, Real.logb 10, Real.rpow⟩ 10
        ((pacedState : Ticking ℝ).tick ⟨Real.sqrt, Real.logb 10, Real.rpow⟩ 10)
      = { emu := { (pairEmulator 2 1000 : Emulator ℝ) with
            nodes := mapSet (pairEmulator 2 1000 : Emulator ℝ).nodes "1"
              { (testNode "1" 1 40 : Node ℝ) with X := 8 / 5, Y := 9 / 5 } },
          dests := [], active := [],
          elapsed := 0 + 1000 / 1000 / 10 + 1000 / 1000 / 10,
          effects := [Effect.emit Event.NodeUpdated
            { (testNode "1" 1 40 : Node ℝ) with X := 8 / 5, Y := 9 / 5 } EventData.null] } := by
  have hP : promote ((0 : ℝ) + 1000 / 1000 / 10 + 1000 / 1000 / 10) 0
      [{ Node := "1", Time := 3 / 20, X := 4, Y := 5, Speed := 0 }]
      [("1", { Node := "1", Time := 0, X := 4, Y := 5, Speed := 10 })]
      = ([], [("1", { Node := "1", Time := 3 / 20, X := 4, Y := 5, Speed := 0 })]) := by
    rw [promote_eq _ _ 0 _ _ rfl]
    norm_num [List.filter, activeSet]
  rw [paced_first_tick]
  unfold Ticking.tick
  simp only
  rw [if_pos (by decide), hP]
  simp only [List.foldl_cons, List.foldl_nil]
  simp [activeStep, activeDelete]

/-- C28, counterexample: the paced loop with the real square root and 10 ticks per
second.  After the first tick node "1" exists, at (8/5, 9/5), with the active
destination (4, 5) of speed 10 at the distance 4, and the step is 1, so that
`floor(D / stepSize) + 1` is 5.  The halt of the pending list becomes due at
the next tick and replaces the destination: after 5 more ticks the node is
still at (8/5, 9/5), not at (4, 5), and has no active destination. -/
theorem movement_replaced :
    activeGet ((pacedState : Ticking ℝ).tick ⟨Real.sqrt, Real.logb 10, Real.rpow⟩ 10).active "1"
      = some { Node := "1", Time := 0, X := 4, Y := 5, Speed := 10 }
    ∧ mapGet ((pacedState : Ticking ℝ).tick ⟨Real.sqrt, Real.logb 10, Real.rpow⟩ 10).emu.nodes "1"
      = some { (testNode "1" 1 40 : Node ℝ) with X := 8 / 5, Y := 9 / 5 }
    ∧ ⌊Vec2.Len ⟨Real.sqrt, Real.logb 10, Real.rpow⟩ { X := (4 : ℝ) - 8 / 5, Y := 5 - 9 / 5 }
        / (10 / 10)⌋₊ + 1 = 5
    ∧ mapGet (Ticking.run ⟨Real.sqrt, Real.logb 10, Real.rpow⟩ 10 5
        ((pacedState : Ticking ℝ).tick ⟨Real.sqrt, Real.logb 10, Real.rpow⟩ 10)).emu.nodes "1"
      = some { (testNode "1" 1 40 : Node ℝ) with X := 8 / 5, Y := 9 / 5 }
    ∧ activeGet (Ticking.run ⟨Real.sqrt, Real.logb 10, Real.rpow⟩ 10 5
        ((pacedState : Ticking ℝ).tick ⟨Real.sqrt, Real.logb 10, Real.rpow⟩ 10)).active "1"
      = none := by
  have hrun : Ticking.run ⟨Real.sqrt, Real.logb 10, Real.rpow⟩ 10 5
      ((pacedState : Ticking ℝ).tick ⟨Real.sqrt, Real.logb 10, Real.rpow⟩ 10)
      = Ticking.tick ⟨Real.sqrt, Real.logb 10, Real.rpow⟩ 10
          ((pacedState : Ticking ℝ).tick ⟨Real.sqrt, Real.logb 10, Real.rpow⟩ 10) := by
    rw [Ticking.run]
    simp only [paced_second_tick]
    rw [if_pos ⟨rfl, rfl⟩]
  have hlen : Vec2.Len ⟨Real.sqrt, Real.logb 10, Real.rpow⟩
      { X := (4 : ℝ) - 8 / 5, Y := 5 - 9 / 5 } = 4 := by
    simp only [Vec2.Len]
    rw [show ((4 : ℝ) - 8 / 5) * (4 - 8 / 5) + (5 - 9 / 5) * (5 - 9 / 5) = 4 * 4 by norm_num]
    exact Real.sqrt_mul_self (by norm_num)
  refine ⟨?_, ?_, ?_, ?_, ?_⟩
  · rw [paced_first_tick]
    rfl
  · rw [paced_first_tick]
    exact mapGet_mapSet_self _ _ _
  · rw [hlen]
    norm_num
  · rw [hrun, paced_second_tick]
    exact mapGet_mapSet_self _ _ _
  · rw [hrun, paced_second_tick]
    rfl

/-! ## The trace and the simulator clock -/

end

end emu

namespace lora

section
variable {α : Type} [LinearOrderedField α] [FloorRing α]

/-! ## Airtime -/

/-- The preamble time is non-negative when the power of two is, the bandwidth is
positive and the preamble length is at least -4.25. -/
theorem TimePreamble_nonneg (m : GoMath α) (pc : PacketConfig α)
    (h1 : 0 ≤ m.Pow 2 pc.SpreadingFactor) (h2 : 0 < pc.BandWidth)
    (h3 : -4.25 ≤ pc.PreambleLen) : 0 ≤ pc.TimePreamble m := by
  have hst : 0 ≤ pc.SymbolTime m := div_nonneg h1 (le_of_lt h2)
  have hnp : 0 ≤ pc.NPreamble := by
    simp only [PacketConfig.NPreamble]
    linarith
  exact mul_nonneg hnp hst

/-- The payload time is non-negative when the power of two and the coding rate
are and the bandwidth and the bits per symbol are positive. -/
theorem TimePayload_nonneg (m : GoMath α) (pc : PacketConfig α)
    (h1 : 0 ≤ m.Pow 2 pc.SpreadingFactor) (h2 : 0 < pc.BandWidth) (h4 : 0 ≤ pc.CodingRate)
    (h5 : 0 < (if pc.LowDataRateOptimization then pc.SpreadingFactor - 2
      else pc.SpreadingFactor)) : 0 ≤ pc.TimePayload m := by
  have hst : 0 ≤ pc.SymbolTime m := div_nonneg h1 (le_of_lt h2)
  have hpay : 0 ≤ pc.NPayload := by
    simp only [PacketConfig.NPayload]
    have hc : (0 : α) ≤ ((⌈max (if pc.ExplicitHeader = true then
        (if pc.CRC = true then 8 * pc.PayloadLen - 4 * pc.SpreadingFactor + 28 + 16
          else 8 * pc.PayloadLen - 4 * pc.SpreadingFactor + 28) + 20
        else if pc.CRC = true then 8 * pc.PayloadLen - 4 * pc.SpreadingFactor + 28 + 16
          else 8 * pc.PayloadLen - 4 * pc.SpreadingFactor + 28) 0 / 4 /
        (if pc.LowDataRateOptimization = true then pc.SpreadingFactor - 2
          else pc.SpreadingFactor)⌉ : Int) : α) := by
      have : (0 : Int) ≤ ⌈max (if pc.ExplicitHeader = true then
        (if pc.CRC = true then 8 * pc.PayloadLen - 4 * pc.SpreadingFactor + 28 + 16
          else 8 * pc.PayloadLen - 4 * pc.SpreadingFactor + 28) + 20
        else if pc.CRC = true then 8 * pc.PayloadLen - 4 * pc.SpreadingFactor + 28 + 16
          else 8 * pc.PayloadLen - 4 * pc.SpreadingFactor + 28) 0 / 4 /
        (if pc.LowDataRateOptimization = true then pc.SpreadingFactor - 2
          else pc.SpreadingFactor)⌉ := by
        apply Int.ceil_nonneg
        apply div_nonneg _ (le_of_lt h5)
        apply div_nonneg (le_max_right _ _)
        norm_num
      exact_mod_cast this
    have := mul_nonneg hc h4
    linarith
  exact mul_nonneg hpay hst

/-- C16: for a packet config with non-zero bandwidth and non-zero bits per symbol,
TimeTotal is (preambleLen + 4.25 + ceil(max(0, 8 PL - 4 SF + 28 + (16 if crc)
+ (20 if explicit header)) / (4 bitsPerSymbol)) CR + 8) 2^SF / BW, where
bitsPerSymbol is SF - 2 with low data rate optimization and SF otherwise and
2^SF is `math.Pow(2, SF)`. -/
theorem TimeTotal_formula (m : GoMath α) (pc : PacketConfig α) (_hbw : pc.BandWidth ≠ 0)
    (_hbps : (if pc.LowDataRateOptimization then pc.SpreadingFactor - 2
      else pc.SpreadingFactor) ≠ 0) :
    pc.TimeTotal m
      = (pc.PreambleLen + 4.25
          + ((⌈max 0 (8 * pc.PayloadLen - 4 * pc.SpreadingFactor + 28
                  + (if pc.CRC then 16 else 0) + (if pc.ExplicitHeader then 20 else 0))
                / (4 * (if pc.LowDataRateOptimization then pc.SpreadingFactor - 2
                    else pc.SpreadingFactor))⌉ : Int) : α) * pc.CodingRate + 8)
        * m.Pow 2 pc.SpreadingFactor / pc.BandWidth := by
  have hbits : (if pc.ExplicitHeader = true then
        (if pc.CRC = true then 8 * pc.PayloadLen - 4 * pc.SpreadingFactor + 28 + 16
          else 8 * pc.PayloadLen - 4 * pc.SpreadingFactor + 28) + 20
        else if pc.CRC = true then 8 * pc.PayloadLen - 4 * pc.SpreadingFactor + 28 + 16
          else 8 * pc.PayloadLen - 4 * pc.SpreadingFactor + 28)
      = 8 * pc.PayloadLen - 4 * pc.SpreadingFactor + 28
          + (if pc.CRC then 16 else 0) + (if pc.ExplicitHeader then 20 else 0) := by
    cases pc.CRC <;> cases pc.ExplicitHeader <;> simp
  simp only [PacketConfig.TimeTotal, PacketConfig.TimePreamble, PacketConfig.TimePayload,
    PacketConfig.NPreamble, PacketConfig.NPayload, PacketConfig.SymbolTime, hbits,
    max_comm _ (0 : α), div_div]
  ring

/-- C16, example: the default packet config with the real power function. -/
theorem TimeTotal_formula_witness :
    (PacketConfigDefault : PacketConfig ℝ).TimeTotal ⟨Real.sqrt, Real.logb 10, Real.rpow⟩
      = (6 + 4.25 + ((⌈max 0 (8 * 1 - 4 * 7 + 28 + 0 + 0) / (4 * 7 : ℝ)⌉ : Int) : ℝ) * 5 + 8)
        * Real.rpow 2 7 / 125 :=
  TimeTotal_formula ⟨Real.sqrt, Real.logb 10, Real.rpow⟩ (PacketConfigDefault : PacketConfig ℝ)
    (by norm_num [PacketConfigDefault]) (by norm_num [PacketConfigDefault])

/-- C17, counterexample: with spreading factor 1 and low data rate optimization
(every numeric field positive) the bits per symbol are -1 and the payload time
is negative. -/
theorem TimePayload_negative :
    ({ PacketConfigDefault with SpreadingFactor := 1, LowDataRateOptimization := true }
        : PacketConfig ℝ).TimePayload ⟨Real.sqrt, Real.logb 10, Real.rpow⟩ < 0 := by
  have hp : Real.rpow 2 1 = 2 := by
    show (2 : ℝ) ^ (1 : ℝ) = 2
    exact Real.rpow_one 2
  simp only [PacketConfig.TimePayload, PacketConfig.NPayload, PacketConfig.SymbolTime,
    PacketConfigDefault, hp]
  have hc : ⌈(-8 : ℝ)⌉ = -8 := by
    rw [Int.ceil_eq_iff]
    constructor <;> norm_num
  norm_num
  rw [hc]
  norm_num

/-- C17, amended: for every packet config TimeTotal is TimePreamble plus
TimePayload; TimePreamble is non-negative when the bandwidth is positive and
the preamble length is at least -4.25; TimePayload is non-negative when the
bandwidth is positive, the coding rate is non-negative and the bits per symbol
are positive. -/
theorem TimeTotal_split (pc : PacketConfig ℝ) :
    pc.TimeTotal ⟨Real.sqrt, Real.logb 10, Real.rpow⟩
      = pc.TimePreamble ⟨Real.sqrt, Real.logb 10, Real.rpow⟩
        + pc.TimePayload ⟨Real.sqrt, Real.logb 10, Real.rpow⟩
    ∧ (0 < pc.BandWidth → -4.25 ≤ pc.PreambleLen →
        0 ≤ pc.TimePreamble ⟨Real.sqrt, Real.logb 10, Real.rpow⟩)
    ∧ (0 < pc.BandWidth → 0 ≤ pc.CodingRate →
        0 < (if pc.LowDataRateOptimization then pc.SpreadingFactor - 2
          else pc.SpreadingFactor) →
        0 ≤ pc.TimePayload ⟨Real.sqrt, Real.logb 10, Real.rpow⟩) := by
  have hpow : 0 ≤ Real.rpow 2 pc.SpreadingFactor := Real.rpow_nonneg (by norm_num) _
  exact ⟨rfl, fun h2 h3 => TimePreamble_nonneg _ pc hpow h2 h3,
    fun h2 h4 h5 => TimePayload_nonneg _ pc hpow h2 h4 h5⟩

/-- C17, example: the default packet config. -/
theorem TimeTotal_split_witness :
    0 ≤ (PacketConfigDefault : PacketConfig ℝ).TimePreamble ⟨Real.sqrt, Real.logb 10, Real.rpow⟩
    ∧ 0 ≤ (PacketConfigDefault : PacketConfig ℝ).TimePayload
        ⟨Real.sqrt, Real.logb 10, Real.rpow⟩ :=
  ⟨(TimeTotal_split PacketConfigDefault).2.1 (by norm_num [PacketConfigDefault])
      (by norm_num [PacketConfigDefault]),
    (TimeTotal_split PacketConfigDefault).2.2 (by norm_num [PacketConfigDefault])
      (by norm_num [PacketConfigDefault]) (by norm_num [PacketConfigDefault])⟩

end

end lora

namespace mobility

/-! ## The ns-2 parser -/

section
variable {α : Type} [LinearOrderedField α] [FloorRing α]

/-- A result of `close` comes from a result of the continuation. -/
theorem close_some (capture : Bool) (acc : List Char) (r : Option (List String × List Char))
    (p : List String × List Char) (h : close capture acc r = some p) :
    ∃ caps rest, r = some (caps, rest)
      ∧ p = (if capture then String.mk acc :: caps else caps, rest) := by
  cases r with
  | none => simp [close] at h
  | some q =>
    obtain ⟨caps, rest⟩ := q
    simp only [close, Option.some.injEq] at h
    exact ⟨caps, rest, rfl, h.symm⟩

/-- A result of `star` comes from a result of the continuation, with the text of
the repetition in front when it is captured. -/
theorem star_some (cls : CharClass) (capture : Bool)
    (k : List Char → Option (List String × List Char)) (s : List Char) :
    ∀ (acc : List Char) (p : List String × List Char), star cls capture k acc s = some p →
      ∃ acc2 s2 caps rest, k s2 = some (caps, rest)
        ∧ p = (if capture then String.mk acc2 :: caps else caps, rest) := by
  induction s with
  | nil =>
    intro acc p h
    simp only [star] at h
    obtain ⟨caps, rest, h1, h2⟩ := close_some _ _ _ _ h
    exact ⟨acc, [], caps, rest, h1, h2⟩
  | cons c cs ih =>
    intro acc p h
    simp only [star] at h
    by_cases hc : cls.has c = true
    · rw [if_pos hc] at h
      cases hs : star cls capture k (acc ++ [c]) cs with
      | some r =>
        rw [hs] at h
        simp only [Option.some.injEq] at h
        subst h
        exact ih _ _ hs
      | none =>
        rw [hs] at h
        obtain ⟨caps, rest, h1, h2⟩ := close_some _ _ _ _ h
        exact ⟨acc, c :: cs, caps, rest, h1, h2⟩
    · rw [if_neg hc] at h
      obtain ⟨caps, rest, h1, h2⟩ := close_some _ _ _ _ h
      exact ⟨acc, c :: cs, caps, rest, h1, h2⟩

/-- A match of a pattern that starts with a literal. -/
theorem matchItems_lit (c : Char) (items : List Item) (s : List Char)
    (p : List String × List Char) (h : matchItems (Item.lit c :: items) s = some p) :
    ∃ xs, matchItems items xs = some p := by
  cases s with
  | nil => simp [matchItems] at h
  | cons x xs =>
    simp only [matchItems] at h
    by_cases hx : x = c
    · rw [if_pos hx] at h
      exact ⟨xs, h⟩
    · rw [if_neg hx] at h
      exact Option.noConfusion h

/-- A match of a pattern that starts with an optional character. -/
theorem matchItems_opt (c : Char) (items : List Item) (s : List Char)
    (p : List String × List Char) (h : matchItems (Item.opt c :: items) s = some p) :
    ∃ xs, matchItems items xs = some p := by
  cases s with
  | nil =>
    simp only [matchItems] at h
    exact ⟨[], h⟩
  | cons x xs =>
    simp only [matchItems] at h
    by_cases hx : x = c
    · rw [if_pos hx] at h
      cases hm : matchItems items xs with
      | some r =>
        rw [hm] at h
        exact ⟨xs, by rw [hm]; exact h⟩
      | none =>
        rw [hm] at h
        exact ⟨x :: xs, h⟩
    · rw [if_neg hx] at h
      exact ⟨x :: xs, h⟩

/-- A match of a pattern that starts with a group around one character. -/
theorem matchItems_one (cls : CharClass) (items : List Item) (s : List Char)
    (p : List String × List Char) (h : matchItems (Item.one cls :: items) s = some p) :
    ∃ x xs caps rest, cls.has x = true ∧ matchItems items xs = some (caps, rest)
      ∧ p = (String.mk [x] :: caps, rest) := by
  cases s with
  | nil => simp [matchItems] at h
  | cons x xs =>
    simp only [matchItems] at h
    by_cases hx : cls.has x = true
    · rw [if_pos hx] at h
      obtain ⟨caps, rest, h1, h2⟩ := close_some _ _ _ _ h
      exact ⟨x, xs, caps, rest, hx, h1, by rw [h2]; rfl⟩
    · rw [if_neg hx] at h
      exact Option.noConfusion h

/-- A match of a pattern that starts with a repetition. -/
theorem matchItems_plus (cls : CharClass) (capture : Bool) (items : List Item) (s : List Char)
    (p : List String × List Char)
    (h : matchItems (Item.plus cls capture :: items) s = some p) :
    ∃ acc xs caps rest, matchItems items xs = some (caps, rest)
      ∧ p = (if capture then String.mk acc :: caps else caps, rest) := by
  cases s with
  | nil => simp [matchItems] at h
  | cons x xs =>
    simp only [matchItems] at h
    by_cases hx : cls.has x = true
    · rw [if_pos hx] at h
      exact star_some cls capture (matchItems items) xs [x] p h
    · rw [if_neg hx] at h
      exact Option.noConfusion h

/-- A match found in a line is a match of the pattern at some position. -/
theorem findFrom_some (re : List Item) (s : List Char) :
    ∀ (m : List String), findFrom re s = some m →
      ∃ whole xs caps rest, matchItems re xs = some (caps, rest) ∧ m = whole :: caps := by
  induction s with
  | nil =>
    intro m h
    simp only [findFrom] at h
    cases hm : matchItems re [] with
    | none => rw [hm] at h; exact Option.noConfusion h
    | some q =>
      obtain ⟨caps, rest⟩ := q
      rw [hm] at h
      simp only [Option.some.injEq] at h
      exact ⟨_, [], caps, rest, hm, h.symm⟩
  | cons x xs ih =>
    intro m h
    simp only [findFrom] at h
    cases hm : matchItems re (x :: xs) with
    | none =>
      rw [hm] at h
      exact ih m h
    | some q =>
      obtain ⟨caps, rest⟩ := q
      rw [hm] at h
      simp only [Option.some.injEq] at h
      exact ⟨_, x :: xs, caps, rest, hm, h.symm⟩

/-- The Set pattern written out. -/
theorem setRegex_eq :
    setRegex = [Item.lit '$', Item.plus CharClass.dot true, Item.lit ' ', Item.lit 's',
      Item.lit 'e', Item.lit 't', Item.lit ' ', Item.one CharClass.xyz, Item.lit '_',
      Item.lit ' ', Item.plus CharClass.digitDot true] := by
  decide

/-- A character of the class `[XYZ]` as a string has an axis. -/
theorem axisOf_xyz (x : Char) (h : CharClass.xyz.has x = true) :
    axisOf (String.mk [x]) ≠ none := by
  simp only [CharClass.has, Bool.or_eq_true, beq_iff_eq] at h
  rcases h with (h | h) | h <;> subst h <;> decide

/-- The submatches of the Set pattern: none, or the whole match and three groups of
which the second has an axis. -/
theorem setRegex_shape (line : String) :
    FindStringSubmatch setRegex line = []
    ∨ ∃ whole node axis val, FindStringSubmatch setRegex line = [whole, node, axis, val]
        ∧ axisOf axis ≠ none := by
  simp only [FindStringSubmatch]
  cases hf : findFrom setRegex line.toList with
  | none => exact Or.inl rfl
  | some m =>
    right
    obtain ⟨whole, xs, caps, rest, hm, rfl⟩ := findFrom_some _ _ m hf
    rw [setRegex_eq] at hm
    obtain ⟨s1, hm⟩ := matchItems_lit _ _ _ _ hm
    obtain ⟨g1, s2, caps1, rest1, hm, hp1⟩ := matchItems_plus _ _ _ _ _ hm
    obtain ⟨s3, hm⟩ := matchItems_lit _ _ _ _ hm
    obtain ⟨s4, hm⟩ := matchItems_lit _ _ _ _ hm
    obtain ⟨s5, hm⟩ := matchItems_lit _ _ _ _ hm
    obtain ⟨s6, hm⟩ := matchItems_lit _ _ _ _ hm
    obtain ⟨s7, hm⟩ := matchItems_lit _ _ _ _ hm
    obtain ⟨x, s8, caps2, rest2, hx, hm, hp2⟩ := matchItems_one _ _ _ _ hm
    obtain ⟨s9, hm⟩ := matchItems_lit _ _ _ _ hm
    obtain ⟨s10, hm⟩ := matchItems_lit _ _ _ _ hm
    obtain ⟨g3, s11, caps3, rest3, hm, hp3⟩ := matchItems_plus _ _ _ _ _ hm
    simp only [matchItems, Option.some.injEq, Prod.mk.injEq] at hm
    simp only [if_true, Prod.mk.injEq] at hp1 hp2 hp3
    refine ⟨whole, String.mk g1, String.mk [x], String.mk g3, ?_, axisOf_xyz x hx⟩
    rw [hp1.1, hp2.1, hp3.1, ← hm.1]

end

section
variable {α : Type} [LinearOrderedField α] [FloorRing α]

/-- The numeric tokens of a line that matches the Set pattern. -/
theorem numericTokens_set (line : String) (hs : matchesSet line = true) :
    numericTokens line = [(FindStringSubmatch setRegex line).getD 3 ""] := by
  simp only [numericTokens, hs, if_true]

/-- The numeric tokens of a line that matches the SetDest pattern only. -/
theorem numericTokens_setDest (line : String) (hs : matchesSet line = false)
    (hd : matchesSetDest line = true) :
    numericTokens line
      = [(FindStringSubmatch setDestRegex line).getD 1 "",
          (FindStringSubmatch setDestRegex line).getD 3 "",
          (FindStringSubmatch setDestRegex line).getD 4 "",
          (FindStringSubmatch setDestRegex line).getD 5 ""] := by
  simp only [numericTokens, hs, hd, Bool.false_eq_true, if_true, if_false]

/-- A line that matches neither pattern has no numeric token. -/
theorem numericTokens_other (line : String) (hs : matchesSet line = false)
    (hd : matchesSetDest line = false) : numericTokens line = [] := by
  simp only [numericTokens, hs, hd, Bool.false_eq_true, if_false]

/-- One round of the loop of `Parse` on a line whose numeric tokens all parse: the
command of the line, if it has one, is appended and the loop goes on. -/
theorem parseLines_cons_wf (pf : String → Option α) (line : String) (rest : List String)
    (cmds : List (Command α)) (n : Nat)
    (hwf : ∀ tok ∈ numericTokens line, pf tok ≠ none) :
    parseLines pf (line :: rest) cmds n
        = parseLines pf rest (cmds ++ (lineCommand pf line).toList) (n + 1)
    ∧ (lineCommand pf line).isSome = (matchesSet line || matchesSetDest line) := by
  cases hs : matchesSet line with
  | true =>
    have hlen : (FindStringSubmatch setRegex line).length > 0 := by
      simpa [matchesSet] using hs
    rcases setRegex_shape line with h0 | ⟨whole, node, axis, val, heq, hax⟩
    · rw [h0] at hlen
      simp at hlen
    · obtain ⟨a, ha⟩ := Option.ne_none_iff_exists'.mp hax
      have htok : pf val ≠ none := by
        apply hwf
        rw [numericTokens_set line hs, heq]
        simp
      obtain ⟨v, hv⟩ := Option.ne_none_iff_exists'.mp htok
      constructor
      · simp [parseLines, lineCommand, hs, heq, ha, hv]
      · simp [lineCommand, hs, heq, ha, hv]
  | false =>
    have hlen : ¬ (FindStringSubmatch setRegex line).length > 0 := by
      simpa [matchesSet] using hs
    cases hd : matchesSetDest line with
    | true =>
      have hlen2 : (FindStringSubmatch setDestRegex line).length > 0 := by
        simpa [matchesSetDest] using hd
      have hnt := numericTokens_setDest line hs hd
      have h1 : pf ((FindStringSubmatch setDestRegex line).getD 1 "") ≠ none :=
        hwf _ (by rw [hnt]; exact List.mem_cons_self _ _)
      have h3 : pf ((FindStringSubmatch setDestRegex line).getD 3 "") ≠ none :=
        hwf _ (by rw [hnt]; exact List.mem_cons_of_mem _ (List.mem_cons_self _ _))
      have h4 : pf ((FindStringSubmatch setDestRegex line).getD 4 "") ≠ none :=
        hwf _ (by
          rw [hnt]
          exact List.mem_cons_of_mem _ (List.mem_cons_of_mem _ (List.mem_cons_self _ _)))
      have h5 : pf ((FindStringSubmatch setDestRegex line).getD 5 "") ≠ none :=
        hwf _ (by
          rw [hnt]
          exact List.mem_cons_of_mem _ (List.mem_cons_of_mem _
            (List.mem_cons_of_mem _ (List.mem_cons_self _ _))))
      obtain ⟨v1, hv1⟩ := Option.ne_none_iff_exists'.mp h1
      obtain ⟨v3, hv3⟩ := Option.ne_none_iff_exists'.mp h3
      obtain ⟨v4, hv4⟩ := Option.ne_none_iff_exists'.mp h4
      obtain ⟨v5, hv5⟩ := Option.ne_none_iff_exists'.mp h5
      constructor
      · simp only [parseLines, if_neg hlen, if_pos hlen2, hv1, hv3, hv4, hv5, lineCommand, hs,
          hd, Bool.false_eq_true, if_true, if_false, Option.bind, Option.map, Option.toList]
      · simp only [lineCommand, hs, hd, Bool.false_eq_true, if_true, if_false, hv1, hv3, hv4,
          hv5, Option.bind, Option.map, Option.isSome, Bool.false_or]
    | false =>
      have hlen2 : ¬ (FindStringSubmatch setDestRegex line).length > 0 := by
        simpa [matchesSetDest] using hd
      constructor
      · simp only [parseLines, if_neg hlen, if_neg hlen2, lineCommand, hs, hd,
          Bool.false_eq_true, if_false, Option.toList, List.append_nil]
      · simp only [lineCommand, hs, hd, Bool.false_eq_true, if_false, Option.isSome,
          Bool.or_self]

/-- The loop of `Parse` over lines whose numeric tokens all parse, followed by
further lines. -/
theorem parseLines_wf (pf : String → Option α) (lines : List String) :
    ∀ (rest : List String) (cmds : List (Command α)) (n : Nat),
    (∀ line ∈ lines, ∀ tok ∈ numericTokens line, pf tok ≠ none) →
    parseLines pf (lines ++ rest) cmds n
      = parseLines pf rest (cmds ++ lines.filterMap (lineCommand pf)) (n + lines.length) := by
  induction lines with
  | nil => intro rest cmds n _; simp
  | cons line more ih =>
    intro rest cmds n h
    rw [List.cons_append,
      (parseLines_cons_wf pf line (more ++ rest) cmds n (h line (List.mem_cons_self _ _))).1,
      ih rest _ _ (fun l hl => h l (List.mem_cons_of_mem _ hl))]
    congr 1
    · cases hc : lineCommand pf line <;> simp [List.filterMap_cons, hc]
    · simp only [List.length_cons]
      omega

/-- One round of the loop of `Parse` on a line with a numeric token that does not
parse: the loop ends with no commands and the error for the first such token. -/
theorem parseLines_cons_bad (pf : String → Option α) (line : String) (rest : List String)
    (cmds : List (Command α)) (n : Nat) (tok : String)
    (hbad : (numericTokens line).find? (fun t => (pf t).isNone) = some tok) :
    parseLines pf (line :: rest) cmds n = ([], some ("can\x27t parse float (" ++ tok ++ ")")) := by
  cases hs : matchesSet line with
  | true =>
    have hlen : (FindStringSubmatch setRegex line).length > 0 := by
      simpa [matchesSet] using hs
    rcases setRegex_shape line with h0 | ⟨whole, node, axis, val, heq, hax⟩
    · rw [h0] at hlen
      simp at hlen
    · obtain ⟨a, ha⟩ := Option.ne_none_iff_exists'.mp hax
      rw [numericTokens_set line hs, heq] at hbad
      simp only [List.getD_cons_succ, List.getD_cons_zero, List.find?_cons, List.find?_nil]
        at hbad
      cases hv : pf val with
      | some v => rw [hv] at hbad; simp at hbad
      | none =>
        rw [hv] at hbad
        simp only [Option.isNone_none, Option.some.injEq] at hbad
        subst hbad
        simp [parseLines, heq, ha, hv]
  | false =>
    have hlen : ¬ (FindStringSubmatch setRegex line).length > 0 := by
      simpa [matchesSet] using hs
    cases hd : matchesSetDest line with
    | true =>
      have hlen2 : (FindStringSubmatch setDestRegex line).length > 0 := by
        simpa [matchesSetDest] using hd
      rw [numericTokens_setDest line hs hd] at hbad
      simp only [List.find?_cons, List.find?_nil] at hbad
      simp only [parseLines, if_neg hlen, if_pos hlen2]
      cases hv1 : pf ((FindStringSubmatch setDestRegex line).getD 1 "") with
      | none =>
        rw [hv1] at hbad
        simp only [Option.isNone_none, Option.some.injEq] at hbad
        rw [← hbad]
      | some v1 =>
        rw [hv1] at hbad
        simp only [Option.isNone_some] at hbad
        cases hv3 : pf ((FindStringSubmatch setDestRegex line).getD 3 "") with
        | none =>
          rw [hv3] at hbad
          simp only [Option.isNone_none, Option.some.injEq] at hbad
          rw [← hbad]
        | some v3 =>
          rw [hv3] at hbad
          simp only [Option.isNone_some] at hbad
          cases hv4 : pf ((FindStringSubmatch setDestRegex line).getD 4 "") with
          | none =>
            rw [hv4] at hbad
            simp only [Option.isNone_none, Option.some.injEq] at hbad
            rw [← hbad]
          | some v4 =>
            rw [hv4] at hbad
            simp only [Option.isNone_some] at hbad
            cases hv5 : pf ((FindStringSubmatch setDestRegex line).getD 5 "") with
            | none =>
              rw [hv5] at hbad
              simp only [Option.isNone_none, Option.some.injEq] at hbad
              rw [← hbad]
            | some v5 =>
              rw [hv5] at hbad
              simp at hbad
    | false =>
      rw [numericTokens_other line hs hd] at hbad
      simp at hbad

end

/-! ## The scanner and the parser -/

section
variable {α : Type} [LinearOrderedField α] [FloorRing α]

/-- The scanner yields the lines of an input without over-long line, each without
its final carriage return. -/
theorem scanLines_short (lines : List String)
    (h : ∀ line ∈ lines, byteLen line < MaxScanTokenSize) :
    scanLines lines = lines.map dropCR := by
  unfold scanLines
  rw [List.takeWhile_eq_self_iff.mpr]
  intro line hl
  exact decide_eq_true (h line hl)

/-- The scanner passes the lines before the first over-long one and goes on with the
rest. -/
theorem scanLines_append (pre rest : List String)
    (h : ∀ line ∈ pre, byteLen line < MaxScanTokenSize) :
    scanLines (pre ++ rest) = pre.map dropCR ++ scanLines rest := by
  unfold scanLines
  induction pre with
  | nil => rfl
  | cons line more ih =>
    have h1 : decide (byteLen line < MaxScanTokenSize) = true :=
      decide_eq_true (h line (List.mem_cons_self _ _))
    have ih2 := ih (fun l hl => h l (List.mem_cons_of_mem _ hl))
    simp only [List.cons_append, List.takeWhile_cons, h1, if_true, List.map_cons]
    rw [ih2]

/-- The scanner yields nothing from the first over-long line on. -/
theorem scanLines_long (pre : List String) (long : String) (post : List String)
    (h : ∀ line ∈ pre, byteLen line < MaxScanTokenSize)
    (hlong : MaxScanTokenSize ≤ byteLen long) :
    scanLines (pre ++ long :: post) = pre.map dropCR := by
  rw [scanLines_append pre _ h]
  have h1 : decide (byteLen long < MaxScanTokenSize) = false :=
    decide_eq_false (not_lt.mpr hlong)
  unfold scanLines
  simp only [List.takeWhile_cons, h1, Bool.false_eq_true, if_false, List.map_nil,
    List.append_nil]

/-- The byte length of a line of `n` equal characters of the ASCII range. -/
theorem byteLen_replicate (n : Nat) (c : Char) (hc : c.toNat < 128) :
    byteLen (String.mk (List.replicate n c)) = n := by
  unfold byteLen
  show ((List.replicate n c).map utf8Len).sum = n
  rw [List.map_replicate, List.sum_replicate]
  simp [utf8Len, hc]

/-- A pattern that starts with a literal character has no match in a text without
that character. -/
theorem findFrom_none_of_not_mem (c : Char) (items : List Item) (s : List Char)
    (h : c ∉ s) : findFrom (Item.lit c :: items) s = none := by
  induction s with
  | nil => simp [findFrom, matchItems]
  | cons x xs ih =>
    have hx : ¬ x = c := fun e => h (e ▸ List.mem_cons_self _ _)
    have hxs : c ∉ xs := fun e => h (List.mem_cons_of_mem _ e)
    simp only [findFrom, matchItems, if_neg hx]
    exact ih hxs

/-- A line without a dollar sign has no numeric token: it matches neither pattern. -/
theorem numericTokens_no_dollar (line : String) (h : '$' ∉ line.toList) :
    numericTokens line = [] := by
  have h1 : FindStringSubmatch setRegex line = [] := by
    unfold FindStringSubmatch
    rw [show setRegex = Item.lit '$' :: setRegex.tail from by decide,
      findFrom_none_of_not_mem _ _ _ h]
  have h2 : FindStringSubmatch setDestRegex line = [] := by
    unfold FindStringSubmatch
    rw [show setDestRegex = Item.lit '$' :: setDestRegex.tail from by decide,
      findFrom_none_of_not_mem _ _ _ h]
  simp [numericTokens, matchesSet, matchesSetDest, h1, h2]

/-- C19, amended: when every numeric token of the lines the scanner yields parses
as a float, `Parse` returns no error and the commands of these lines in their
order: one command for each line that matches the Set or the SetDest pattern,
with the node, the axis and the numbers of the line as parsed, and nothing for
any other line.  The scanner yields every line of an input without a line of
65536 bytes or more, and the lines before the first such line otherwise (each
without its final carriage return): that line and every line after it
contribute nothing. -/
theorem Parse_wellformed (pf : String → Option α) (lines : List String)
    (hwf : ∀ line ∈ scanLines lines, ∀ tok ∈ numericTokens line, pf tok ≠ none) :
    Parse pf lines = ((scanLines lines).filterMap (lineCommand pf), none)
    ∧ (∀ line ∈ scanLines lines,
        (lineCommand pf line).isSome = (matchesSet line || matchesSetDest line))
    ∧ (Parse pf lines).1.length
        = ((scanLines lines).filter
            (fun line => matchesSet line || matchesSetDest line)).length
    ∧ ((∀ line ∈ lines, byteLen line < MaxScanTokenSize) → scanLines lines = lines.map dropCR)
    ∧ (∀ (pre : List String) (long : String) (post : List String),
        lines = pre ++ long :: post → (∀ line ∈ pre, byteLen line < MaxScanTokenSize) →
        MaxScanTokenSize ≤ byteLen long → scanLines lines = pre.map dropCR) := by
  have h1 : Parse pf lines = ((scanLines lines).filterMap (lineCommand pf), none) := by
    have := parseLines_wf pf (scanLines lines) [] [] 1 hwf
    simp only [List.append_nil, List.nil_append] at this
    rw [Parse, this]
    rfl
  have h2 : ∀ line ∈ scanLines lines,
      (lineCommand pf line).isSome = (matchesSet line || matchesSetDest line) :=
    fun line hl => (parseLines_cons_wf pf line [] [] 0 (hwf line hl)).2
  refine ⟨h1, h2, ?_, scanLines_short lines, ?_⟩
  · rw [h1]
    show ((scanLines lines).filterMap (lineCommand pf)).length = _
    clear h1 hwf
    generalize scanLines lines = ls at h2
    induction ls with
    | nil => rfl
    | cons line more ih =>
      have hl := h2 line (List.mem_cons_self _ _)
      have ih2 := ih (fun l h => h2 l (List.mem_cons_of_mem _ h))
      cases hc : lineCommand pf line with
      | none =>
        rw [hc] at hl
        simp only [Option.isSome_none] at hl
        rw [List.filterMap_cons_none hc, ih2]
        simp only [List.filter_cons, ← hl, Bool.false_eq_true, if_false]
      | some c =>
        rw [hc] at hl
        simp only [Option.isSome_some] at hl
        rw [List.filterMap_cons_some hc, List.length_cons, ih2]
        simp only [List.filter_cons, ← hl, if_true, List.length_cons]
  · intro pre long post hl hpre hlong
    rw [hl]
    exact scanLines_long pre long post hpre hlong

/-- C20, amended: when the lines before a line are all shorter than 65536 bytes and
all parse, and that line, itself shorter than 65536 bytes and matching the Set
or the SetDest pattern, holds a numeric token that does not parse as a float
(the line is read without its final carriage return), `Parse` returns no
commands and the error for the first such token of the line, whatever the
lines after it are.  With a line of 65536 bytes or more put before that line
the token is not reported: `Parse` returns the commands of the lines before the
long one and no error. -/
theorem Parse_malformed (pf : String → Option α) (pre : List String) (bad : String)
    (post : List String) (tok : String)
    (hshort : ∀ line ∈ pre, byteLen line < MaxScanTokenSize)
    (hshortbad : byteLen bad < MaxScanTokenSize)
    (hpre : ∀ line ∈ pre, ∀ t ∈ numericTokens (dropCR line), pf t ≠ none)
    (hbad : (numericTokens (dropCR bad)).find? (fun t => (pf t).isNone) = some tok) :
    Parse pf (pre ++ bad :: post) = ([], some ("can\x27t parse float (" ++ tok ++ ")"))
    ∧ (∀ long : String, MaxScanTokenSize ≤ byteLen long →
        Parse pf (pre ++ long :: bad :: post)
          = ((pre.map dropCR).filterMap (lineCommand pf), none)) := by
  have hs : scanLines (pre ++ bad :: post)
      = pre.map dropCR ++ dropCR bad :: scanLines post := by
    rw [scanLines_append pre _ hshort]
    have := scanLines_append [bad] post (by
      intro line hl
      rw [List.mem_singleton.mp hl]
      exact hshortbad)
    simp only [List.singleton_append, List.map_cons, List.map_nil] at this
    rw [this]
  have hwf : ∀ line ∈ pre.map dropCR, ∀ t ∈ numericTokens line, pf t ≠ none := by
    intro line hl
    obtain ⟨l0, hl0, rfl⟩ := List.mem_map.mp hl
    exact hpre l0 hl0
  constructor
  · rw [Parse, hs, parseLines_wf pf (pre.map dropCR) _ [] 1 hwf,
      parseLines_cons_bad pf (dropCR bad) _ _ _ tok hbad]
  · intro long hlong
    have := parseLines_wf pf (pre.map dropCR) [] [] 1 hwf
    simp only [List.append_nil, List.nil_append] at this
    rw [Parse, scanLines_long pre long (bad :: post) hshort hlong, this]
    rfl

end

/-- C19, example: the first lines of `TestParse` in `mobility/ns2_test.go` and a
comment line between them, with the decimal reading of the tokens. -/
theorem Parse_wellformed_witness :
    Parse (decimal : String → Option ℚ)
        ["$node_(0) set X_ 150.0", "$node_(0) set Y_ 93.98597018956875", "# nodes: 2",
          "$ns_ at 0.0 $node_(0) setdest 150.0 110.0 50.40378694202284"]
      = ([{ Set := some { Node := "node_(0)", Axis := XAxis, Val := ((1500 : Nat) : ℚ) / 10 ^ 1 },
            SetDest := none },
          { Set := some { Node := "node_(0)", Axis := YAxis,
                          Val := ((9398597018956875 : Nat) : ℚ) / 10 ^ 14 },
            SetDest := none },
          { Set := none,
            SetDest := some { Node := "node_(0)", Time := ((0 : Nat) : ℚ) / 10 ^ 1,
                              X := ((1500 : Nat) : ℚ) / 10 ^ 1, Y := ((1100 : Nat) : ℚ) / 10 ^ 1,
                              Speed := ((5040378694202284 : Nat) : ℚ) / 10 ^ 14 } }],
        none) :=
  (Parse_wellformed (decimal : String → Option ℚ)
    ["$node_(0) set X_ 150.0", "$node_(0) set Y_ 93.98597018956875", "# nodes: 2",
      "$ns_ at 0.0 $node_(0) setdest 150.0 110.0 50.40378694202284"]
    (by
      rw [show scanLines ["$node_(0) set X_ 150.0", "$node_(0) set Y_ 93.98597018956875",
          "# nodes: 2", "$ns_ at 0.0 $node_(0) setdest 150.0 110.0 50.40378694202284"]
        = ["$node_(0) set X_ 150.0", "$node_(0) set Y_ 93.98597018956875", "# nodes: 2",
          "$ns_ at 0.0 $node_(0) setdest 150.0 110.0 50.40378694202284"] by decide]
      intro line hl tok ht
      simp only [List.mem_cons, List.mem_singleton, List.not_mem_nil, or_false] at hl
      rcases hl with rfl | rfl | rfl | rfl
      · rw [show numericTokens "$node_(0) set X_ 150.0" = ["150.0"] by decide] at ht
        rw [List.mem_singleton.mp ht,
          show (decimal "150.0" : Option ℚ) = some (((1500 : Nat) : ℚ) / 10 ^ 1) from rfl]
        exact Option.some_ne_none _
      · rw [show numericTokens "$node_(0) set Y_ 93.98597018956875" = ["93.98597018956875"]
          by decide] at ht
        rw [List.mem_singleton.mp ht,
          show (decimal "93.98597018956875" : Option ℚ)
            = some (((9398597018956875 : Nat) : ℚ) / 10 ^ 14) from rfl]
        exact Option.some_ne_none _
      · rw [show numericTokens "# nodes: 2" = [] by decide] at ht
        exact absurd ht (List.not_mem_nil _)
      · rw [show numericTokens "$ns_ at 0.0 $node_(0) setdest 150.0 110.0 50.40378694202284"
          = ["0.0", "150.0", "110.0", "50.40378694202284"] by decide] at ht
        simp only [List.mem_cons, List.mem_singleton, List.not_mem_nil, or_false] at ht
        rcases ht with rfl | rfl | rfl | rfl
        · rw [show (decimal "0.0" : Option ℚ) = some (((0 : Nat) : ℚ) / 10 ^ 1) from rfl]
          exact Option.some_ne_none _
        · rw [show (decimal "150.0" : Option ℚ) = some (((1500 : Nat) : ℚ) / 10 ^ 1) from rfl]
          exact Option.some_ne_none _
        · rw [show (decimal "110.0" : Option ℚ) = some (((1100 : Nat) : ℚ) / 10 ^ 1) from rfl]
          exact Option.some_ne_none _
        · rw [show (decimal "50.40378694202284" : Option ℚ)
            = some (((5040378694202284 : Nat) : ℚ) / 10 ^ 14) from rfl]
          exact Option.some_ne_none _)).1.trans rfl

/-- C20, example: the second of three lines holds the token 1.2.3. -/
theorem Parse_malformed_witness :
    Parse (decimal : String → Option ℚ)
        ["$node_(0) set X_ 150.0", "$node_(0) set Y_ 1.2.3",
          "$ns_ at 0.0 $node_(0) setdest 150.0 110.0 50.4"]
      = ([], some "can\x27t parse float (1.2.3)") :=
  (Parse_malformed (decimal : String → Option ℚ) ["$node_(0) set X_ 150.0"]
    "$node_(0) set Y_ 1.2.3" ["$ns_ at 0.0 $node_(0) setdest 150.0 110.0 50.4"] "1.2.3"
    (by
      intro line hl
      rw [List.mem_singleton.mp hl]
      decide)
    (by decide)
    (by
      intro line hl tok ht
      rw [List.mem_singleton.mp hl,
        show numericTokens (dropCR "$node_(0) set X_ 150.0") = ["150.0"] by decide] at ht
      rw [List.mem_singleton.mp ht,
        show (decimal "150.0" : Option ℚ) = some (((1500 : Nat) : ℚ) / 10 ^ 1) from rfl]
      exact Option.some_ne_none _)
    (by
      rw [show numericTokens (dropCR "$node_(0) set Y_ 1.2.3") = ["1.2.3"] by decide]
      rfl)).1

/-- C19, counterexample: three lines, the second a comment of 65536 number signs.
Every numeric token of the input parses (the comment has none), and the first
and the third line match the Set pattern; `Parse` returns the command of the
first line only, and no error. -/
theorem Parse_stops_at_long_line :
    byteLen (String.mk (List.replicate 65536 '#')) = 65536
    ∧ numericTokens (String.mk (List.replicate 65536 '#')) = []
    ∧ numericTokens "$node_(0) set X_ 150.0" = ["150.0"]
    ∧ numericTokens "$node_(0) set Y_ 110.0" = ["110.0"]
    ∧ (decimal "150.0" : Option ℚ) = some (((1500 : Nat) : ℚ) / 10 ^ 1)
    ∧ (decimal "110.0" : Option ℚ) = some (((1100 : Nat) : ℚ) / 10 ^ 1)
    ∧ Parse (decimal : String → Option ℚ)
        ["$node_(0) set X_ 150.0", String.mk (List.replicate 65536 '#'),
          "$node_(0) set Y_ 110.0"]
      = ([{ Set := some { Node := "node_(0)", Axis := XAxis, Val := ((1500 : Nat) : ℚ) / 10 ^ 1 },
            SetDest := none }], none) := by
  have hlen := byteLen_replicate 65536 '#' (by decide)
  refine ⟨hlen, ?_, by decide, by decide, rfl, rfl, ?_⟩
  · apply numericTokens_no_dollar
    show '$' ∉ List.replicate 65536 '#'
    intro h
    exact absurd (List.eq_of_mem_replicate h) (by decide)
  · have hs := scanLines_long ["$node_(0) set X_ 150.0"] (String.mk (List.replicate 65536 '#'))
      ["$node_(0) set Y_ 110.0"]
      (by
        intro line hl
        rw [List.mem_singleton.mp hl]
        decide)
      (by rw [hlen]; decide)
    rw [Parse, show ["$node_(0) set X_ 150.0", String.mk (List.replicate 65536 '#'),
        "$node_(0) set Y_ 110.0"]
      = ["$node_(0) set X_ 150.0"] ++ String.mk (List.replicate 65536 '#')
          :: ["$node_(0) set Y_ 110.0"] from rfl, hs]
    rfl

/-- C20, counterexample: a comment of 65536 number signs followed by a line that
matches the Set pattern with the token 1.2.3, which does not parse; `Parse`
returns no commands and no error. -/
theorem Parse_misses_malformed :
    byteLen (String.mk (List.replicate 65536 '#')) = 65536
    ∧ numericTokens "$node_(0) set Y_ 1.2.3" = ["1.2.3"]
    ∧ (decimal "1.2.3" : Option ℚ) = none
    ∧ Parse (decimal : String → Option ℚ)
        [String.mk (List.replicate 65536 '#'), "$node_(0) set Y_ 1.2.3"] = ([], none) := by
  have hlen := byteLen_replicate 65536 '#' (by decide)
  refine ⟨hlen, by decide, rfl, ?_⟩
  have hs := scanLines_long [] (String.mk (List.replicate 65536 '#'))
    ["$node_(0) set Y_ 1.2.3"] (by intro line hl; exact absurd hl (List.not_mem_nil _))
    (by rw [hlen]; decide)
  rw [Parse, show [String.mk (List.replicate 65536 '#'), "$node_(0) set Y_ 1.2.3"]
      = [] ++ String.mk (List.replicate 65536 '#') :: ["$node_(0) set Y_ 1.2.3"] from rfl, hs]
  rfl

/-- C21, failing input: a position line with the axis letter W after a well-formed
one.  The line does not match the Set pattern, whose group is `[XYZ]`, and is
skipped: `Parse` returns the command of the first line and no error. -/
theorem unknown_axis_skipped :
    Parse (decimal : String → Option ℚ) ["$node_(0) set X_ 150.0", "$node_(0) set W_ 150.0"]
      = ([{ Set := some { Node := "node_(0)", Axis := XAxis, Val := ((1500 : Nat) : ℚ) / 10 ^ 1 },
            SetDest := none }], none) := by
  rfl

end mobility

namespace cmd

/-! ## Commands of the command line -/

/-- C30, failing input: the command `./run x'`, whose second field ends in a
single quote that no earlier field opened.  The statement
`final[len(final)-1] += runCmdSplit[i]` runs with an empty `final`: the index is
out of range and `evalCommand` panics.  With the opening quote in an earlier
field the fields are joined: `./run 'a b' c` gives the executable `./run` and
the arguments `'a b'` and `c`. -/
theorem evalCommand_unopened_quote :
    Fields "./run x\x27" = ["./run", "x\x27"]
    ∧ evalCommand (fun _ => Except.error "") "./run x\x27" = none
    ∧ evalCommand (fun _ => Except.error "") "./run \x27a b\x27 c"
        = some ("./run", ["\x27a b\x27", "c"], none) := by
  refine ⟨by decide, by decide, by decide⟩

end cmd
